import Mathlib

/-!
# Feature detector (`src/image-target/matching/detector.js`)

A shallow embedding of the numerical kernels and the pruning / orientation stages of the
detector.  JavaScript numbers are modelled by exact rationals (`ℚ`): every decimal literal of the
source stands for its decimal value, and `Math.PI` for the value of the IEEE double the host
provides.  Integer-valued quantities (`Math.floor`, `Math.ceil`, loop counters, array indices)
are integers.  A JavaScript `TypeError` (a property read on `undefined`) and the `null` results
of the kernels are modelled by `none`.

This is the exact reading of the source.  The namespace `Dbl` further down repeats the
functions over IEEE 754 binary64 values, with rounding, underflow, overflow, signed zeros and
NaN; statements about what the code does on doubles are made there.
-/

namespace Detector

/-! ## Constants (source lines 3-16) -/

/-- The constant `MAX_FEATURE_POINTS = 500`. -/
def MAX_FEATURE_POINTS : ℕ := 500

/-- The constant `PRUNE_FEATURES_NUM_BUCKETS = 10` (per dimension). -/
def PRUNE_FEATURES_NUM_BUCKETS : ℕ := 10

/-- The constant `ORIENTATION_NUM_BINS = 36`. -/
def ORIENTATION_NUM_BINS : ℕ := 36

/-- The constant `ORIENTATION_GAUSSIAN_EXPANSION_FACTOR = 3.0`. -/
def ORIENTATION_GAUSSIAN_EXPANSION_FACTOR : ℚ := 3

/-- The constant `ORIENTATION_REGION_EXPANSION_FACTOR = 1.5`. -/
def ORIENTATION_REGION_EXPANSION_FACTOR : ℚ := 3 / 2

/-- The constant `ORIENTATION_SMOOTHING_ITERATIONS = 5`. -/
def ORIENTATION_SMOOTHING_ITERATIONS : ℕ := 5

/-- The constant `ORIENTATION_PEAK_THRESHOLD = 0.8`. -/
def ORIENTATION_PEAK_THRESHOLD : ℚ := 8 / 10

/-- The constant `ONE_OVER_2PI = 0.159154943091895`. -/
def ONE_OVER_2PI : ℚ := 159154943091895 / 1000000000000000

/-- The constant `Math.PI`: the double nearest to π, `884279719003555 / 2^48`. -/
def PI : ℚ := 884279719003555 / 281474976710656

/-! ## Linear algebra kernel (source lines 521-557) -/

/-- The quantity `det` computed on source lines 528-532 (it reads `A[0], A[1], A[2], A[4],
A[5], A[8]` only). -/
def symDet (A : Fin 9 → ℚ) : ℚ :=
  A 0 * A 4 * A 8
    - A 0 * A 5 * A 5
    - A 4 * A 2 * A 2
    - A 8 * A 1 * A 1
    + 2 * A 1 * A 2 * A 5

/-- The function `_solveSymmetric33({A, b})`; `none` is the `null` of source line 534.
`B0 .. B8` are the entries of the array `B` of source lines 536-545. -/
def _solveSymmetric33 (A : Fin 9 → ℚ) (b : Fin 3 → ℚ) : Option (Fin 3 → ℚ) :=
  let det := symDet A
  if |det| < 1 / 10000000 then none
  else
    let B0 := A 4 * A 8 - A 5 * A 7
    let B1 := A 2 * A 7 - A 1 * A 8
    let B2 := A 1 * A 5 - A 2 * A 4
    let B3 := A 5 * A 6 - A 3 * A 8
    let B4 := A 0 * A 8 - A 2 * A 6
    let B5 := A 2 * A 3 - A 0 * A 5
    let B6 := A 3 * A 7 - A 4 * A 6
    let B7 := A 1 * A 6 - A 0 * A 7
    let B8 := A 0 * A 4 - A 1 * A 3
    let x0 := B0 * b 0 + B1 * b 1 + B2 * b 2
    let x1 := B3 * b 0 + B4 * b 1 + B5 * b 2
    let x2 := B6 * b 0 + B7 * b 1 + B8 * b 2
    some ![1 * x0 / det, 1 * x1 / det, 1 * x2 / det]

/-- The determinant of a general 3x3 matrix in row-major 9-element layout (Laplace expansion
along the first row); the reference the tested quantity `symDet` is compared with. -/
def det33 (A : Fin 9 → ℚ) : ℚ :=
  A 0 * (A 4 * A 8 - A 5 * A 7)
    - A 1 * (A 3 * A 8 - A 5 * A 6)
    + A 2 * (A 3 * A 7 - A 4 * A 6)

/-- Symmetry of the 9-element layout: `A[1]=A[3]`, `A[2]=A[6]`, `A[5]=A[7]`. -/
def IsSymmetric33 (A : Fin 9 → ℚ) : Prop :=
  A 1 = A 3 ∧ A 2 = A 6 ∧ A 5 = A 7

instance (A : Fin 9 → ℚ) : Decidable (IsSymmetric33 A) := by
  unfold IsSymmetric33; infer_instance

/-- The matrix-vector product `A * x` of a row-major 3x3 matrix. -/
def mulVec33 (A : Fin 9 → ℚ) (x : Fin 3 → ℚ) : Fin 3 → ℚ :=
  ![A 0 * x 0 + A 1 * x 1 + A 2 * x 2,
    A 3 * x 0 + A 4 * x 1 + A 5 * x 2,
    A 6 * x 0 + A 7 * x 1 + A 8 * x 2]

/-! ## Quadratic fit kernel (source lines 396-425) -/

/-- The object `{A, B, C}` returned by `_quadratic3Points`. -/
structure Quadratic where
  A : ℚ
  B : ℚ
  C : ℚ
  deriving DecidableEq

/-- The function `_quadratic3Points({p1, p2, p3})`; a point is the pair `[x, y]` and `none` is
`null`. -/
def _quadratic3Points (p1 p2 p3 : ℚ × ℚ) : Option Quadratic :=
  let d1 := (p3.1 - p2.1) * (p3.1 - p1.1)
  let d2 := (p1.1 - p2.1) * (p3.1 - p1.1)
  let d3 := p1.1 - p2.1
  if d1 = 0 ∨ d2 = 0 ∨ d3 = 0 then none
  else
    let a := p1.1 * p1.1
    let b := p2.1 * p2.1
    let A := ((p3.2 - p2.2) / d1) - ((p1.2 - p2.2) / d2)
    let B := ((p1.2 - p2.2) + (A * (b - a))) / d3
    let C := p1.2 - (A * a) - (B * p1.1)
    some ⟨A, B, C⟩

/-! ## Fast exponential (source lines 427-436) -/

/-- The function `_fastExp6({x})`. -/
def _fastExp6 (x : ℚ) : ℚ :=
  (720 + x * (720 + x * (360 + x * (120 + x * (30 + x * (6 + x)))))) * (13888888 / 10000000000)

/-! ## Feature points and the pruner (source lines 158-167, 471-519) -/

/-- The object pushed on source lines 158-167. -/
structure FeaturePoint where
  octave : ℕ
  scale : ℕ
  octaveX : ℤ
  octaveY : ℤ
  x : ℚ
  y : ℚ
  sigma : ℚ
  score : ℚ
  deriving DecidableEq

/-- The host's `Array.prototype.sort` applied with the comparator of source lines 509-511,
`(f1, f2) => Math.abs(f1.score) > Math.abs(f2.score) ? -1 : 1`.  The comparator answers "f1
first" only when `|f1.score| > |f2.score|` and "f2 first" only when `|f1.score| <= |f2.score|`,
so a comparison sort rearranges the array into non-increasing `|score|`; the order among points
of equal `|score|` is the host's choice and is left open here. -/
structure BucketSort where
  sort : List FeaturePoint → List FeaturePoint
  perm : ∀ l, (sort l).Perm l
  sorted : ∀ l, (sort l).Pairwise (fun p q => |q.score| ≤ |p.score|)

/-- One host sort: insertion sort by non-increasing `|score|`. -/
def insertionBucketSort : BucketSort where
  sort := List.insertionSort (fun p q => |q.score| ≤ |p.score|)
  perm := List.perm_insertionSort _
  sorted := fun l =>
    have : IsTotal FeaturePoint (fun p q => |q.score| ≤ |p.score|) :=
      ⟨fun p q => le_total |q.score| |p.score|⟩
    have : IsTrans FeaturePoint (fun p q => |q.score| ≤ |p.score|) :=
      ⟨fun _ _ _ h1 h2 => le_trans h2 h1⟩
    List.sorted_insertionSort _ l

/-- The value `bucketX` of source line 495. -/
def bucketXOf (dx : ℤ) (p : FeaturePoint) : ℤ := ⌊p.x / dx⌋

/-- The value `bucketY` of source line 496. -/
def bucketYOf (dy : ℤ) (p : FeaturePoint) : ℤ := ⌊p.y / dy⌋

/-- The value `bucketIndex` of source line 498. -/
def bucketIndexOf (dx dy : ℤ) (p : FeaturePoint) : ℤ :=
  bucketYOf dy p * PRUNE_FEATURES_NUM_BUCKETS + bucketXOf dx p

/-- One iteration of the loop of source lines 494-500.  A zero `dx` or `dy` makes the quotient
`Infinity` or `NaN` and a negative or too large index reads `undefined`; in each case
`buckets[bucketIndex].push` raises a `TypeError` (`none`). -/
def pushBucket (dx dy : ℤ) (buckets : List (List FeaturePoint)) (p : FeaturePoint) :
    Option (List (List FeaturePoint)) :=
  if dx = 0 ∨ dy = 0 then none
  else
    let bucketIndex := bucketIndexOf dx dy p
    if bucketIndex < 0 then none
    else
      match buckets[bucketIndex.toNat]? with
      | none => none
      | some bucket => some (buckets.set bucketIndex.toNat (bucket ++ [p]))

/-- The loop of source lines 494-500. -/
def fillBuckets (dx dy : ℤ) : List FeaturePoint → List (List FeaturePoint) →
    Option (List (List FeaturePoint))
  | [], buckets => some buckets
  | p :: rest, buckets =>
    match pushBucket dx dy buckets p with
    | none => none
    | some buckets1 => fillBuckets dx dy rest buckets1

/-- The body of the inner loop of source lines 505-515: the points one bucket contributes. -/
def selectBucket (S : BucketSort) (nPointsPerBuckets : ℕ) (bucket : List FeaturePoint) :
    List FeaturePoint :=
  let nSelected := min bucket.length nPointsPerBuckets
  let sorted := if bucket.length > nSelected then S.sort bucket else bucket
  sorted.take nSelected

/-- The loops of source lines 502-517: `i` is the outer counter, `j` the inner one and the
bucket read is `buckets[j * PRUNE_FEATURES_NUM_BUCKETS + i]`.  The table has 100 entries and
every index read is below 100, so the read never yields `undefined`. -/
def collectBuckets (S : BucketSort) (nPointsPerBuckets : ℕ)
    (buckets : List (List FeaturePoint)) : List FeaturePoint :=
  (List.range PRUNE_FEATURES_NUM_BUCKETS).flatMap fun i =>
    (List.range PRUNE_FEATURES_NUM_BUCKETS).flatMap fun j =>
      selectBucket S nPointsPerBuckets ((buckets[j * PRUNE_FEATURES_NUM_BUCKETS + i]?).getD [])

/-- The value `Math.ceil(1.0 * size / PRUNE_FEATURES_NUM_BUCKETS)`: the bucket extent `dx` / `dy` of
source lines 491-492. -/
def bucketSize (size : ℚ) : ℤ := ⌈(1 * (size : ℚ)) / PRUNE_FEATURES_NUM_BUCKETS⌉

/-- The function `_pruneFeatures({featurePoints, width, height})`.  The value
`nPointsPerBuckets` is `500 / 100`, an exact division. -/
def _pruneFeatures (S : BucketSort) (featurePoints : List FeaturePoint) (width height : ℚ) :
    Option (List FeaturePoint) :=
  if featurePoints.length ≤ MAX_FEATURE_POINTS then some featurePoints
  else
    let nBuckets := PRUNE_FEATURES_NUM_BUCKETS * PRUNE_FEATURES_NUM_BUCKETS
    let nPointsPerBuckets := MAX_FEATURE_POINTS / nBuckets
    let buckets : List (List FeaturePoint) := List.replicate nBuckets []
    let dx := bucketSize width
    let dy := bucketSize height
    match fillBuckets dx dy featurePoints buckets with
    | none => none
    | some filled => some (collectBuckets S nPointsPerBuckets filled)

/-- A candidate lies inside the base image. -/
def InBounds (width height : ℚ) (p : FeaturePoint) : Prop :=
  0 ≤ p.x ∧ p.x < width ∧ 0 ≤ p.y ∧ p.y < height

instance (width height : ℚ) (p : FeaturePoint) : Decidable (InBounds width height p) := by
  unfold InBounds; infer_instance

/-- Bucket order "y-major, x-minor": the bucket of `p` precedes the bucket of `q`. -/
def rowMajorBefore (dx dy : ℤ) (p q : FeaturePoint) : Prop :=
  bucketYOf dy p < bucketYOf dy q ∨
    (bucketYOf dy p = bucketYOf dy q ∧ bucketXOf dx p < bucketXOf dx q)

instance (dx dy : ℤ) (p q : FeaturePoint) : Decidable (rowMajorBefore dx dy p q) := by
  unfold rowMajorBefore; infer_instance

/-- Bucket order "x-major, y-minor": the bucket of `p` precedes the bucket of `q`. -/
def colMajorBefore (dx dy : ℤ) (p q : FeaturePoint) : Prop :=
  bucketXOf dx p < bucketXOf dx q ∨
    (bucketXOf dx p = bucketXOf dx q ∧ bucketYOf dy p < bucketYOf dy q)

instance (dx dy : ℤ) (p q : FeaturePoint) : Decidable (colMajorBefore dx dy p q) := by
  unfold colMajorBefore; infer_instance

/-- A feature point at `(x, y)` with the given score, all other fields zero. -/
def pointAt (x y score : ℚ) : FeaturePoint :=
  { octave := 0, scale := 0, octaveX := 0, octaveY := 0, x := x, y := y, sigma := 0,
    score := score }

/-- The points of `l` that fall into bucket `k`, in their order in `l`. -/
def bucketOf (dx dy : ℤ) (l : List FeaturePoint) (k : ℕ) : List FeaturePoint :=
  l.filter fun p => bucketIndexOf dx dy p = (k : ℤ)

/-- The bucket table after the points `acc` have been pushed: entry `k` holds the points of
`acc` whose bucket index is `k`, in their order in `acc`. -/
def bucketTable (dx dy : ℤ) (acc : List FeaturePoint) : List (List FeaturePoint) :=
  (List.range (PRUNE_FEATURES_NUM_BUCKETS * PRUNE_FEATURES_NUM_BUCKETS)).map
    fun (k : ℕ) => bucketOf dx dy acc k

/-- The bucket indices in the order in which the loops of source lines 502-504 visit them. -/
def visitOrder : List ℕ :=
  (List.range PRUNE_FEATURES_NUM_BUCKETS).flatMap fun i =>
    (List.range PRUNE_FEATURES_NUM_BUCKETS).map fun j => j * PRUNE_FEATURES_NUM_BUCKETS + i

/-- A list is ordered by buckets under `before` when every point whose bucket precedes the
bucket of another point stands before that point. -/
def BucketsOrdered (before : FeaturePoint → FeaturePoint → Prop) (out : List FeaturePoint) :
    Prop :=
  ∀ (i j : ℕ) (hi : i < out.length) (hj : j < out.length), before out[i] out[j] → i < j

/-- A list of 501 points of bucket (0,0) with the scores 3, 4, ..., 503. -/
def scoredPoints : List FeaturePoint :=
  (List.range 501).map fun (i : ℕ) => pointAt 0 0 (3 + (i : ℚ))

/-- A list of 499 points of bucket (0,0), one point of bucket (1,0) and one of bucket (0,1)
of a 10x10 image. -/
def threeBuckets : List FeaturePoint :=
  List.replicate 499 (pointAt 0 0 3) ++ [pointAt 1 0 3, pointAt 0 1 3]

/-! ## Orientation assignment (source lines 191-208, 226-392) -/

/-- One entry `{angle, mag}` of a gradient field (source lines 456-459). -/
structure GradientValue where
  angle : ℚ
  mag : ℚ
  deriving DecidableEq

/-- The object `{width, height, values}` of source lines 462-466. -/
structure GradientField where
  width : ℕ
  height : ℕ
  values : List GradientValue
  deriving DecidableEq

/-- The read `gradient.values[yp * gradient.width + xp]` of source line 281; `none` when the
array has no such entry (the value is then `undefined`). -/
def GradientField.at? (gradient : GradientField) (xp yp : ℤ) : Option GradientValue :=
  if yp * gradient.width + xp < 0 then none
  else gradient.values[(yp * gradient.width + xp).toNat]?

/-- What the function reads of the global `window`.  `DEBUG` is `window.DEBUG`; `hasTrace`
tells whether the reference trace `window.debugContent.orientationCompute[k][c]` (with `k` and
`c` the indices `keyframeIndex` and `orientationComputeIndex` of `window.debug`) and the
members read from it exist.  With a trace the diagnostic comparisons only write to the
console; without one, reading it raises a `TypeError`. -/
structure DebugEnv where
  DEBUG : Bool
  hasTrace : Bool
  deriving DecidableEq

/-- The value `gwSigma` of source line 229. -/
def gwSigmaOf (sigma : ℚ) : ℚ := max 1 (ORIENTATION_GAUSSIAN_EXPANSION_FACTOR * sigma)

/-- The value `gwScale` of source line 230. -/
def gwScaleOf (sigma : ℚ) : ℚ := -1 / (2 * gwSigmaOf sigma * gwSigmaOf sigma)

/-- The value `radius` of source line 232. -/
def radiusOf (sigma : ℚ) : ℚ := ORIENTATION_REGION_EXPANSION_FACTOR * gwSigmaOf sigma

/-- The value `radius2` of source line 233. -/
def radius2Of (sigma : ℚ) : ℤ := ⌈radiusOf sigma * radiusOf sigma - 1 / 2⌉

/-- The values `lo, lo + 1, ..., hi` a loop `for (v = lo; v <= hi; v++)` runs through. -/
def intRange (lo hi : ℤ) : List ℤ :=
  (List.range (hi + 1 - lo).toNat).map fun (k : ℕ) => lo + (k : ℤ)

/-- The update `histogram[b] += v`.  A negative `b` names a property outside the array and
leaves the 36 entries unchanged. -/
def addAt (histogram : List ℚ) (b : ℤ) (v : ℚ) : List ℚ :=
  if b < 0 then histogram else histogram.modify (fun t => t + v) b.toNat

/-- The body of the inner loop, source lines 268-314, for the pixel `(xp, yp)`.  Outside the
circular window the reference trace is read whatever `window.DEBUG` is (source lines 273-276). -/
def accumulatePixel (dbg : DebugEnv) (x y : ℤ) (sigma : ℚ) (gradient : GradientField)
    (histogram : List ℚ) (yp xp : ℤ) : Option (List ℚ) :=
  let dy := yp - y
  let dy2 := dy * dy
  let dx := xp - x
  let dx2 := dx * dx
  let r2 := dx2 + dy2
  if r2 > radius2Of sigma then
    if dbg.hasTrace then some histogram else none
  else
    match gradient.at? xp yp with
    | none => none
    | some gradientValue =>
      let angle := gradientValue.angle
      let mag := gradientValue.mag
      let w := _fastExp6 ((r2 : ℚ) * gwScaleOf sigma)
      let fbin := ORIENTATION_NUM_BINS * angle * ONE_OVER_2PI
      let bin := ⌊fbin - 1 / 2⌋
      let w2 := fbin - bin - 1 / 2
      let w1 := 1 - w2
      let b1 := (bin + ORIENTATION_NUM_BINS).tmod ORIENTATION_NUM_BINS
      let b2 := (bin + 1).tmod ORIENTATION_NUM_BINS
      let magnitude := w * mag
      some (addAt (addAt histogram b1 (w1 * magnitude)) b2 (w2 * magnitude))

/-- The inner loop of source lines 263-315 over the columns `xs` of row `yp`. -/
def accumulateRow (dbg : DebugEnv) (x y : ℤ) (sigma : ℚ) (gradient : GradientField) (yp : ℤ) :
    List ℤ → List ℚ → Option (List ℚ)
  | [], histogram => some histogram
  | xp :: rest, histogram =>
    match accumulatePixel dbg x y sigma gradient histogram yp xp with
    | none => none
    | some histogram1 => accumulateRow dbg x y sigma gradient yp rest histogram1

/-- The outer loop of source lines 259-316 over the rows `ys`. -/
def accumulateRows (dbg : DebugEnv) (x y : ℤ) (sigma : ℚ) (gradient : GradientField)
    (xs : List ℤ) : List ℤ → List ℚ → Option (List ℚ)
  | [], histogram => some histogram
  | yp :: rest, histogram =>
    match accumulateRow dbg x y sigma gradient yp xs histogram with
    | none => none
    | some histogram1 => accumulateRows dbg x y sigma gradient xs rest histogram1

/-- Source lines 235-316: the window bounds and the weighted histogram. -/
def orientationHistogram (dbg : DebugEnv) (x y : ℤ) (sigma : ℚ) (gradient : GradientField) :
    Option (List ℚ) :=
  let radius := radiusOf sigma
  let x0 := max 0 (x - ⌊radius + 1 / 2⌋)
  let x1 := min ((gradient.width : ℤ) - 1) (x + ⌊radius + 1 / 2⌋)
  let y0 := max 0 (y - ⌊radius + 1 / 2⌋)
  let y1 := min ((gradient.height : ℤ) - 1) (y + ⌊radius + 1 / 2⌋)
  accumulateRows dbg x y sigma gradient (intRange x0 x1) (intRange y0 y1)
    (List.replicate ORIENTATION_NUM_BINS 0)

/-- The entry `histogram[i]` for an integer index. -/
def binValue (histogram : List ℚ) (i : ℤ) : ℚ := histogram.getD i.toNat 0

/-- One smoothing pass, source lines 335-344, with the kernel of source line 333. -/
def smoothOnce (old : List ℚ) : List ℚ :=
  (List.range old.length).map fun (j : ℕ) =>
    (274068619061197 / 1000000000000000 : ℚ)
        * binValue old (((j : ℤ) - 1 + old.length).tmod old.length)
      + (451862761877606 / 1000000000000000 : ℚ) * binValue old j
      + (274068619061197 / 1000000000000000 : ℚ)
        * binValue old (((j : ℤ) + 1).tmod old.length)

/-- The loop of source lines 334-345. -/
def smoothHistogram (histogram : List ℚ) : List ℚ :=
  Nat.iterate smoothOnce ORIENTATION_SMOOTHING_ITERATIONS histogram

/-- The loop of source lines 348-353. -/
def histogramMax (histogram : List ℚ) : ℚ :=
  (List.range ORIENTATION_NUM_BINS).foldl
    (fun maxHeight (i : ℕ) =>
      if binValue histogram i > maxHeight then binValue histogram i else maxHeight) 0

/-- The peak test of source line 365 for bin `i`. -/
def isPeak (histogram : List ℚ) (maxHeight : ℚ) (i : ℕ) : Bool :=
  let prev := ((i : ℤ) - 1 + histogram.length).tmod histogram.length
  let next := ((i : ℤ) + 1).tmod histogram.length
  decide (binValue histogram i > ORIENTATION_PEAK_THRESHOLD * maxHeight
    ∧ binValue histogram i > binValue histogram prev
    ∧ binValue histogram i > binValue histogram next)

/-- The refined bin `fbin` of source lines 367-382. -/
def refinedBin (histogram : List ℚ) (i : ℕ) : ℚ :=
  let prev := ((i : ℤ) - 1 + histogram.length).tmod histogram.length
  let next := ((i : ℤ) + 1).tmod histogram.length
  match _quadratic3Points ((i : ℚ) - 1, binValue histogram prev) ((i : ℚ), binValue histogram i)
      ((i : ℚ) + 1, binValue histogram next) with
  | none => i
  | some ret => if ret.A ≠ 0 then -ret.B / (2 * ret.A) else i

/-- The loop `while (an > 2.0 * Math.PI) an -= 2.0 * Math.PI` of source lines 385-387. -/
def reduceAngle (an : ℚ) : ℚ :=
  if 2 * PI < an then reduceAngle (an - 2 * PI) else an
termination_by (⌈an / (2 * PI)⌉).toNat
decreasing_by
  rename_i h
  have hpi : (0 : ℚ) < 2 * PI := by norm_num [PI]
  have hsub : (an - 2 * PI) / (2 * PI) = an / (2 * PI) - 1 := by
    field_simp
  have hone : (1 : ℚ) < an / (2 * PI) := by
    rw [lt_div_iff₀ hpi]; linarith
  have hceil : 1 < ⌈an / (2 * PI)⌉ := by
    have := Int.le_ceil (an / (2 * PI))
    have h2 : ((1 : ℤ) : ℚ) < (⌈an / (2 * PI)⌉ : ℤ) := by push_cast; linarith
    exact_mod_cast h2
  rw [hsub, Int.ceil_sub_one]
  omega

/-- The angle of a refined bin, source lines 384-387. -/
def binAngle (fbin : ℚ) : ℚ :=
  reduceAngle (2 * PI * ((fbin + 1 / 2 + ORIENTATION_NUM_BINS) / ORIENTATION_NUM_BINS))

/-- The loop of source lines 360-390. -/
def findPeaks (histogram : List ℚ) (maxHeight : ℚ) : List ℚ :=
  ((List.range ORIENTATION_NUM_BINS).filter (isPeak histogram maxHeight)).map
    fun (i : ℕ) => binAngle (refinedBin histogram i)

/-- The function `_computeOrientation({x, y, sigma, octave, scale, gradient})`; `octave` and
`scale` are only printed.  With `window.DEBUG` set the diagnostic blocks read the reference
trace (source line 241), which fails without one. -/
def _computeOrientation (dbg : DebugEnv) (x y : ℤ) (sigma : ℚ) (gradient : GradientField) :
    Option (List ℚ) :=
  if dbg.DEBUG && !dbg.hasTrace then none
  else
    match orientationHistogram dbg x y sigma gradient with
    | none => none
    | some histogram0 =>
      let histogram := smoothHistogram histogram0
      let maxHeight := histogramMax histogram
      if maxHeight = 0 then some []
      else some (findPeaks histogram maxHeight)

/-- The object built on source lines 204-206: the feature point with its `angle`. -/
structure OrientedFeaturePoint extends FeaturePoint where
  angle : ℚ
  deriving DecidableEq

/-- The body of the loop of source lines 192-208 for one pruned feature point. -/
def orientFeature (dbg : DebugEnv) (numScalesPerOctaves : ℕ) (gradients : List GradientField)
    (fp : FeaturePoint) : Option (List OrientedFeaturePoint) :=
  let octaveSigma := fp.sigma * (1 / 2 ^ fp.octave)
  match gradients[fp.octave * numScalesPerOctaves + fp.scale]? with
  | none => none
  | some gradient =>
    match _computeOrientation dbg fp.octaveX fp.octaveY octaveSigma gradient with
    | none => none
    | some angles => some (angles.map fun a => { toFeaturePoint := fp, angle := a })

/-- The loop of source lines 191-208: the list `orientedFeaturePoints`. -/
def orientFeatures (dbg : DebugEnv) (numScalesPerOctaves : ℕ) (gradients : List GradientField) :
    List FeaturePoint → Option (List OrientedFeaturePoint)
  | [] => some []
  | fp :: rest =>
    match orientFeature dbg numScalesPerOctaves gradients fp with
    | none => none
    | some oriented =>
      match orientFeatures dbg numScalesPerOctaves gradients rest with
      | none => none
      | some more => some (oriented ++ more)

/-- A 1x1 gradient field whose only pixel has magnitude 1 and an angle in the middle of bin 0
(`36 * angle * ONE_OVER_2PI = 1/2`). -/
def unitField : GradientField :=
  ⟨1, 1, [⟨1000000000000000 / (72 * 159154943091895), 1⟩]⟩

/-- A 2x2 gradient field without gradient: every magnitude is 0. -/
def flatField : GradientField :=
  ⟨2, 2, List.replicate 4 ⟨0, 0⟩⟩

/-- A 3x3 gradient field without gradient: every angle and magnitude is 0. -/
def blankField : GradientField :=
  ⟨3, 3, List.replicate 9 ⟨0, 0⟩⟩

/-- The polynomial `1 + x + x^2/2 + x^3/6 + x^4/24 + x^5/120 + x^6/720`: the Taylor polynomial of
degree 6 of the exponential, the reference `_fastExp6` is compared with. -/
def taylorExp6 (x : ℚ) : ℚ :=
  (720 + x * (720 + x * (360 + x * (120 + x * (30 + x * (6 + x)))))) * (1 / 720)

/-- The fractional bin `fbin` of source line 287. -/
def fbinOf (angle : ℚ) : ℚ := ORIENTATION_NUM_BINS * angle * ONE_OVER_2PI

/-- The integer bin `bin` of source line 289. -/
def binOf (angle : ℚ) : ℤ := ⌊fbinOf angle - 1 / 2⌋

/-- The weight `w2` of source line 290. -/
def w2Of (angle : ℚ) : ℚ := fbinOf angle - binOf angle - 1 / 2

/-- The weight `w1` of source line 291. -/
def w1Of (angle : ℚ) : ℚ := 1 - w2Of angle

/-- The bin index `b1` of source line 292. -/
def b1Of (angle : ℚ) : ℤ := (binOf angle + ORIENTATION_NUM_BINS).tmod ORIENTATION_NUM_BINS

/-- The bin index `b2` of source line 293. -/
def b2Of (angle : ℚ) : ℤ := (binOf angle + 1).tmod ORIENTATION_NUM_BINS

/-- A 1x1 gradient field whose only pixel has the angle `2π` and magnitude 1. -/
def fullTurnField : GradientField :=
  ⟨1, 1, [⟨2 * PI, 1⟩]⟩

/-- The histogram `histogram` with every bin multiplied by `M`. -/
def scaleHist (M : ℚ) (histogram : List ℚ) : List ℚ := histogram.map fun t => M * t

/-- A 36-bin histogram that is zero except for the value `a` in bin 8 and `b` in bin 9. -/
def twoBinHist (a b : ℚ) : List ℚ :=
  List.replicate 8 0 ++ a :: b :: List.replicate 26 0

/-- The histogram of a single pixel of weight 1 whose gradient angle is `Math.PI / 2`. -/
def quarterTurnHist : List ℚ := twoBinHist (w1Of (PI / 2)) (w2Of (PI / 2))

/-- Every pixel of the circular window around `(x, y)` that the field holds has the gradient
angle `angle` and a positive magnitude. -/
def UniformWindow (x y : ℤ) (sigma : ℚ) (g : GradientField) (angle : ℚ) : Prop :=
  ∀ xp yp : ℤ, (xp - x) * (xp - x) + (yp - y) * (yp - y) ≤ radius2Of sigma →
    ∀ v, g.at? xp yp = some v → v.angle = angle ∧ 0 < v.mag

/-- A 5x5 gradient field with the angle `Math.PI / 2` everywhere.  The magnitude is 3 at the
centre (2, 2), 1 at the other eight pixels within squared distance 2 of it, and 0 outside
that disk. -/
def diskField : GradientField :=
  ⟨5, 5, (List.range 25).map fun (k : ℕ) =>
    ⟨PI / 2,
      if k = 12 then 3
      else if ((k % 5 : ℕ) - 2 : ℤ) * ((k % 5 : ℕ) - 2 : ℤ)
          + ((k / 5 : ℕ) - 2 : ℤ) * ((k / 5 : ℕ) - 2 : ℤ) ≤ 2 then 1
      else 0⟩⟩

/-- A 1x1 gradient field whose only pixel has the angle `Math.PI / 2` and magnitude 1. -/
def quarterTurnField : GradientField :=
  ⟨1, 1, [⟨PI / 2, 1⟩]⟩

/-! ## The extrema stage, the gradient fields and `detect` (source lines 19-224, 438-469)

Pixel reads outside an image's `data`, a zero `numScalesPerOctaves` of the DoG pyramid and a
Gaussian pyramid with one scale per octave make the source compute with `undefined`, `NaN` or
`Infinity`.  Rational arithmetic has no such values: the functions below stop with `none` there,
as they do for a `TypeError`. -/

/-- The constant `MAX_SUBPIXEL_DISTANCE_SQR = 3 * 3`. -/
def MAX_SUBPIXEL_DISTANCE_SQR : ℚ := 3 * 3

/-- The constant `LAPLACIAN_SQR_THRESHOLD = 3 * 3`. -/
def LAPLACIAN_SQR_THRESHOLD : ℚ := 3 * 3

/-- The constant `EDGE_THRESHOLD = 4.0`. -/
def EDGE_THRESHOLD : ℚ := 4

/-- The constant `EDGE_HESSIAN_THRESHOLD` of source line 6. -/
def EDGE_HESSIAN_THRESHOLD : ℚ :=
  ((EDGE_THRESHOLD + 1) * (EDGE_THRESHOLD + 1) / EDGE_THRESHOLD)

/-- An image `{width, height, data}` of a pyramid. -/
structure Image where
  width : ℕ
  height : ℕ
  data : List ℚ
  deriving DecidableEq

/-- The read `image.data[pos]`; `none` when the array has no such entry. -/
def Image.get? (image : Image) (pos : ℤ) : Option ℚ :=
  if pos < 0 then none else image.data[pos.toNat]?

/-- A pyramid `{images, numScalesPerOctaves}`. -/
structure Pyramid where
  images : List Image
  numScalesPerOctaves : ℕ
  deriving DecidableEq

/-- What the detector takes from outside this file.  `pow`, `atan2` and `sqrt` are the host's
`Math.pow` (at exponents that are not integers), `Math.atan2` and `Math.sqrt`, known only by
what ECMAScript fixes: `atan2` lies in `[-π, π]` and `sqrt` is never negative.  On the negative
x axis `Math.atan2` is `π` or `-π` with the sign of the zero `y`, which a rational does not
carry; nothing is assumed there.  `upsampleBilinear` and `downsampleBilinear` are the
functions required from `../utils/images.js`, taken as arbitrary. -/
structure Host where
  pow : ℚ → ℚ → ℚ
  atan2 : ℚ → ℚ → ℚ
  sqrt : ℚ → ℚ
  upsampleBilinear : Image → Bool → Bool → Image
  downsampleBilinear : Image → Image
  atan2_ge : ∀ y x, -PI ≤ atan2 y x
  atan2_le : ∀ y x, atan2 y x ≤ PI
  sqrt_nonneg : ∀ a, 0 ≤ sqrt a

/-- The value `1 << octave`: a 32-bit shift, whose count is taken modulo 32 and whose result is
a signed 32-bit integer. -/
def shiftLeftOne (octave : ℕ) : ℤ :=
  if octave % 32 = 31 then -2147483648 else 2 ^ (octave % 32)

/-- Run `f` on every element in turn and concatenate the lists it returns; stop with `none` as
soon as one call does.  This is the shape of the loops that push onto `featurePoints`. -/
def concatOption {α β : Type} (f : α → Option (List β)) : List α → Option (List β)
  | [] => some []
  | a :: rest =>
    match f a with
    | none => none
    | some l =>
      match concatOption f rest with
      | none => none
      | some more => some (l ++ more)

/-- All the values of a list of optional values, or `none` when one is missing. -/
def optionList {α : Type} : List (Option α) → Option (List α)
  | [] => some []
  | none :: _ => none
  | some a :: rest =>
    match optionList rest with
    | none => none
    | some more => some (a :: more)

/-- The nine values read around `pos` in one image, named by their offset: `c` at `pos`, `l`
and `r` at `pos - 1` and `pos + 1`, `u`, `ul`, `ur` at `pos - width`, `pos - width - 1`,
`pos - width + 1`, and `d`, `dl`, `dr` at `pos + width`, `pos + width - 1`,
`pos + width + 1`. -/
structure Stencil where
  c : ℚ
  l : ℚ
  r : ℚ
  u : ℚ
  ul : ℚ
  ur : ℚ
  d : ℚ
  dl : ℚ
  dr : ℚ
  deriving DecidableEq

/-- The reads `image.data[pos + neighbours[d]]` for the nine offsets of source lines 53-57. -/
def Image.stencil? (image : Image) (pos width : ℤ) : Option Stencil := do
  let c ← image.get? pos
  let l ← image.get? (pos - 1)
  let r ← image.get? (pos + 1)
  let u ← image.get? (pos - width)
  let ul ← image.get? (pos - width - 1)
  let ur ← image.get? (pos - width + 1)
  let d ← image.get? (pos + width)
  let dl ← image.get? (pos + width - 1)
  let dr ← image.get? (pos + width + 1)
  pure ⟨c, l, r, u, ul, ur, d, dl, dr⟩

/-- The values of a stencil in the order of the array `neighbours` of source lines 53-57. -/
def Stencil.values (s : Stencil) : List ℚ :=
  [s.c, s.l, s.r, s.u, s.ul, s.ur, s.d, s.dl, s.dr]

/-- The flag `isMax` after the loop of source lines 79-84. -/
def isMaxAt (v : ℚ) (s0 s1 s2 : Stencil) : Bool :=
  (List.range 9).all fun (d : ℕ) =>
    !decide (v ≤ s0.values.getD d 0) && !decide (v ≤ s2.values.getD d 0)
      && (d == 0 || !decide (v ≤ s1.values.getD d 0))

/-- The flag `isMin` after the loop of source lines 86-91. -/
def isMinAt (v : ℚ) (s0 s1 s2 : Stencil) : Bool :=
  (List.range 9).all fun (d : ℕ) =>
    !decide (v ≥ s0.values.getD d 0) && !decide (v ≥ s2.values.getD d 0)
      && (d == 0 || !decide (v ≥ s1.values.getD d 0))

/-- The derivatives of source lines 98-108. -/
structure Derivatives where
  dx : ℚ
  dy : ℚ
  ds : ℚ
  dxx : ℚ
  dyy : ℚ
  dss : ℚ
  dxy : ℚ
  dxs : ℚ
  dys : ℚ
  deriving DecidableEq

/-- Source lines 98-108: central differences in x, y and scale. -/
def derivativesOf (s0 s1 s2 : Stencil) : Derivatives where
  dx := 1 / 2 * (s1.r - s1.l)
  dy := 1 / 2 * (s1.d - s1.u)
  dxx := s1.r + s1.l - 2 * s1.c
  dyy := s1.d + s1.u - 2 * s1.c
  dxy := 1 / 4 * (s1.ul + s1.dr - s1.ur - s1.dl)
  ds := 1 / 2 * (s2.c - s0.c)
  dss := s2.c + s0.c - 2 * s1.c
  dxs := 1 / 4 * ((s0.l - s0.r) + (-s2.l + s2.r))
  dys := 1 / 4 * ((s0.u - s0.d) + (-s2.u + s2.d))

/-- The array `hessian` of source lines 111-115. -/
def hessianOf (d : Derivatives) : Fin 9 → ℚ :=
  ![d.dxx, d.dxy, d.dxs, d.dxy, d.dyy, d.dys, d.dxs, d.dys, d.dss]

/-- The array `b` of source lines 118-122. -/
def bOf (d : Derivatives) : Fin 3 → ℚ :=
  ![-d.dx, -d.dy, -d.ds]

/-- The value `edgeScore` of source line 135. -/
def edgeScoreOf (dxx dyy dxy : ℚ) : ℚ :=
  (dxx + dyy) * (dxx + dyy) / ((dxx * dyy) - (dxy * dxy))

/-- The edge test of source lines 132-136: `true` when one of the two `continue` statements is
taken. -/
def edgeRejected (dxx dyy dxy : ℚ) : Bool :=
  let det := (dxx * dyy) - (dxy * dxy)
  if det = 0 then true
  else decide (|edgeScoreOf dxx dyy dxy| ≥ EDGE_HESSIAN_THRESHOLD)

/-- The value `score` of source line 138. -/
def scoreOf (v : ℚ) (d : Derivatives) (u : Fin 3 → ℚ) : ℚ :=
  v - (bOf d 0 * u 0 + bOf d 1 * u 1 + bOf d 2 * u 2)

/-- Source lines 138-167, what follows the edge test, for the pixel `(i, j)` with value `v`,
derivatives `d` and sub-pixel offset `u`: `some none` is a `continue`, `some (some fp)` the
feature point pushed. -/
def emitCandidate (host : Host) (gaussN dogN : ℕ) (originalWidth originalHeight : ℕ)
    (octave scale : ℕ) (i j : ℤ) (v : ℚ) (d : Derivatives) (u : Fin 3 → ℚ) :
    Option (Option FeaturePoint) :=
  let score := scoreOf v d u
  if score * score < LAPLACIAN_SQR_THRESHOLD then some none
  else
    let originalX : ℚ := i * 2 ^ octave + 2 ^ ((octave : ℤ) - 1) - 1 / 2
    let originalY : ℚ := j * 2 ^ octave + 2 ^ ((octave : ℤ) - 1) - 1 / 2
    let newX := originalX + u 0 * 2 ^ octave
    let newY := originalY + u 1 * 2 ^ octave
    if newX < 0 ∨ newX ≥ originalWidth ∨ newY < 0 ∨ newY ≥ originalHeight then some none
    else if gaussN = 1 then none
    else
      let mK := host.pow 2 (1 / ((gaussN : ℚ) - 1))
      let spScale := min (max 0 ((scale : ℚ) + u 2)) (dogN : ℚ)
      let newSigma := host.pow mK spScale * shiftLeftOne octave
      let newOctaveX := newX * (1 / 2 ^ octave) + 1 / 2 * (1 / 2 ^ octave) - 1 / 2
      let newOctaveY := newY * (1 / 2 ^ octave) + 1 / 2 * (1 / 2 ^ octave) - 1 / 2
      some (some
        { octave := octave
          scale := scale
          octaveX := ⌊newOctaveX + 1 / 2⌋
          octaveY := ⌊newOctaveY + 1 / 2⌋
          x := newX
          y := newY
          sigma := newSigma
          score := score })

/-- Source lines 124-167 for the pixel `(i, j)` with value `v` and derivatives `d`: the linear
solve, the sub-pixel distance test, the edge test and then `emitCandidate`. -/
def refineCandidate (host : Host) (gaussN dogN : ℕ) (originalWidth originalHeight : ℕ)
    (octave scale : ℕ) (i j : ℤ) (v : ℚ) (d : Derivatives) : Option (Option FeaturePoint) :=
  match _solveSymmetric33 (hessianOf d) (bOf d) with
  | none => some none
  | some u =>
    if u 0 * u 0 + u 1 * u 1 > MAX_SUBPIXEL_DISTANCE_SQR then some none
    else if edgeRejected d.dxx d.dyy d.dxy then some none
    else
      emitCandidate host gaussN dogN originalWidth originalHeight octave scale i j v d u

/-- The body of the pixel loop, source lines 72-167, for the pixel `(i, j)`. -/
def candidateAt (host : Host) (gaussN dogN : ℕ) (originalWidth originalHeight : ℕ)
    (octave scale : ℕ) (image0 image1 image2 : Image) (i j : ℤ) :
    Option (Option FeaturePoint) :=
  let width : ℤ := image1.width
  let pos := j * width + i
  match image1.get? pos with
  | none => none
  | some v =>
    if v * v < LAPLACIAN_SQR_THRESHOLD then some none
    else
      match image0.stencil? pos width, image1.stencil? pos width, image2.stencil? pos width with
      | some s0, some s1, some s2 =>
        if !isMaxAt v s0 s1 s2 && !isMinAt v s0 s1 s2 then some none
        else
          refineCandidate host gaussN dogN originalWidth originalHeight octave scale i j v
            (derivativesOf s0 s1 s2)
      | _, _, _ => none

/-- The body of the level loop, source lines 28-169, for the DoG level `k`: the feature points
pushed while scanning that level, in scan order. -/
def extremaLevel (host : Host) (gaussN : ℕ) (dogPyramid : Pyramid)
    (originalWidth originalHeight : ℕ) (k : ℕ) : Option (List FeaturePoint) :=
  match dogPyramid.images[k - 1]?, dogPyramid.images[k]?, dogPyramid.images[k + 1]? with
  | some level0, some image1, some level2 =>
    if dogPyramid.numScalesPerOctaves = 0 then none
    else
      let octave := k / dogPyramid.numScalesPerOctaves
      let scale := k % dogPyramid.numScalesPerOctaves
      let image0 :=
        if level0.width / 2 = image1.width then host.downsampleBilinear level0 else level0
      let hasUpsample : Bool := decide (image1.width / 2 = level2.width)
      let hasPadOneWidth : Bool := hasUpsample && decide (image1.width % 2 = 1)
      let hasPadOneHeight : Bool := hasUpsample && decide (image1.height % 2 = 1)
      let image2 :=
        if hasUpsample then host.upsampleBilinear level2 hasPadOneWidth hasPadOneHeight
        else level2
      let startI : ℤ := if hasUpsample then 2 else 1
      let startJ : ℤ := startI
      let endI : ℤ := (if hasUpsample then (image1.width : ℤ) - 3 else (image1.width : ℤ) - 1)
        - (if hasPadOneWidth then 1 else 0)
      let endJ : ℤ := (if hasUpsample then (image1.height : ℤ) - 3 else (image1.height : ℤ) - 1)
        - (if hasPadOneHeight then 1 else 0)
      concatOption (fun (j : ℤ) =>
        concatOption (fun (i : ℤ) =>
          (candidateAt host gaussN dogPyramid.numScalesPerOctaves originalWidth originalHeight
            octave scale image0 image1 image2 i j).map Option.toList)
          (intRange startI (endI - 1)))
        (intRange startJ (endJ - 1))
  | _, _, _ => none

/-- Source lines 20-170: the list `featurePoints` after the level loop. -/
def extremaStage (host : Host) (gaussN : ℕ) (dogPyramid : Pyramid) :
    Option (List FeaturePoint) :=
  match dogPyramid.images[0]? with
  | none => none
  | some first =>
    concatOption (extremaLevel host gaussN dogPyramid first.width first.height)
      (List.range' 1 (dogPyramid.images.length - 2))

/-- The entry pushed on source lines 447-459 for the pixel `(i, j)`. -/
def gradientAt (host : Host) (image : Image) (j i : ℕ) : Option GradientValue :=
  let prevJ : ℤ := if j > 0 then (j : ℤ) - 1 else j
  let nextJ : ℤ := if (j : ℤ) < (image.height : ℤ) - 1 then (j : ℤ) + 1 else j
  let prevI : ℤ := if i > 0 then (i : ℤ) - 1 else i
  let nextI : ℤ := if (i : ℤ) < (image.width : ℤ) - 1 then (i : ℤ) + 1 else i
  match image.get? (j * image.width + nextI), image.get? (j * image.width + prevI),
      image.get? (nextJ * image.width + i), image.get? (prevJ * image.width + i) with
  | some right, some left, some down, some up =>
    let dx := right - left
    let dy := down - up
    some ⟨host.atan2 dy dx + PI, host.sqrt (dx * dx + dy * dy)⟩
  | _, _, _, _ => none

/-- The index `prevJ` (or `prevI`) of source lines 448 and 452. -/
def prevIndex (n : ℕ) : ℤ := if n > 0 then (n : ℤ) - 1 else n

/-- The index `nextJ` (or `nextI`) of source lines 449 and 453 for the extent `size`. -/
def nextIndex (n size : ℕ) : ℤ := if (n : ℤ) < (size : ℤ) - 1 then (n : ℤ) + 1 else n

/-- The gradient field pushed on source lines 462-466 for one image. -/
def gradientField (host : Host) (image : Image) : Option GradientField :=
  match optionList ((List.range image.height).flatMap fun (j : ℕ) =>
      (List.range image.width).map fun (i : ℕ) => gradientAt host image j i) with
  | none => none
  | some values => some ⟨image.width, image.height, values⟩

/-- The function `_computeGradients({pyramid})`. -/
def _computeGradients (host : Host) (pyramid : Pyramid) : Option (List GradientField) :=
  optionList (pyramid.images.map (gradientField host))

/-- The function `detect({gaussianPyramid, dogPyramid})`.  With `window.DEBUG` set the
diagnostic blocks of source lines 171-182 and 210-221 read the reference trace, which fails
without one. -/
def detect (host : Host) (dbg : DebugEnv) (S : BucketSort)
    (gaussianPyramid dogPyramid : Pyramid) : Option (List OrientedFeaturePoint) :=
  match dogPyramid.images[0]? with
  | none => none
  | some first =>
    match extremaStage host gaussianPyramid.numScalesPerOctaves dogPyramid with
    | none => none
    | some featurePoints =>
      if dbg.DEBUG && !dbg.hasTrace then none
      else
        match _pruneFeatures S featurePoints first.width first.height with
        | none => none
        | some prunedFeaturePoints =>
          match _computeGradients host gaussianPyramid with
          | none => none
          | some gradients =>
            orientFeatures dbg gaussianPyramid.numScalesPerOctaves gradients
              prunedFeaturePoints

/-- A crude rational stand-in for `Math.atan2`: on the x axis the values for `y = +0` (`π` for
`x < 0`, 0 otherwise), `±π/2` elsewhere. -/
def sampleAtan2 (y x : ℚ) : ℚ :=
  if y = 0 then (if x < 0 then PI else 0) else if 0 < y then PI / 2 else -(PI / 2)

/-- A crude rational stand-in for `Math.sqrt`: `(a + 1) / 2` for `a > 0`, exact at 1. -/
def sampleSqrt (a : ℚ) : ℚ := if a ≤ 0 then 0 else (a + 1) / 2

/-- A host with crude rational stand-ins: `pow b e = 1 + (b - 1) e` (exact at the exponents 0
and 1), `sampleAtan2`, `sampleSqrt`, and resampling that returns an image of zeros of the
doubled or halved size. -/
def sampleHost : Host where
  pow := fun b e => 1 + (b - 1) * e
  atan2 := sampleAtan2
  sqrt := sampleSqrt
  upsampleBilinear := fun image padOneWidth padOneHeight =>
    ⟨2 * image.width + (if padOneWidth then 1 else 0),
      2 * image.height + (if padOneHeight then 1 else 0),
      List.replicate ((2 * image.width + (if padOneWidth then 1 else 0))
        * (2 * image.height + (if padOneHeight then 1 else 0))) 0⟩
  downsampleBilinear := fun image =>
    ⟨image.width / 2, image.height / 2,
      List.replicate ((image.width / 2) * (image.height / 2)) 0⟩
  atan2_ge := by
    intro y x
    have hpi : (0 : ℚ) < PI := by norm_num [PI]
    unfold sampleAtan2
    split_ifs <;> linarith
  atan2_le := by
    intro y x
    have hpi : (0 : ℚ) < PI := by norm_num [PI]
    unfold sampleAtan2
    split_ifs <;> linarith
  sqrt_nonneg := by
    intro a
    unfold sampleSqrt
    split_ifs with h
    · exact le_refl _
    · have : 0 < a := not_le.mp h
      linarith

/-- A 3x3 image of zeros. -/
def zeroImage : Image := ⟨3, 3, [0, 0, 0, 0, 0, 0, 0, 0, 0]⟩

/-- A DoG pyramid of three 3x3 levels whose middle level has the maximum 10 at its centre,
with the neighbours 6 and 8 in its row and 6 and 6 in its column. -/
def slopeDog : Pyramid :=
  ⟨[zeroImage, ⟨3, 3, [0, 6, 0, 6, 10, 8, 0, 6, 0]⟩, zeroImage], 3⟩

/-- A DoG pyramid of three 3x3 levels whose middle level has the maximum 10 at its centre,
with the neighbours 8 and 8 in its row and 9.5 and 9.5 in its column: `dxx = -4`, `dyy = -1`,
`dxy = 0`. -/
def edgeDog : Pyramid :=
  ⟨[zeroImage, ⟨3, 3, [0, 19 / 2, 0, 8, 10, 8, 0, 19 / 2, 0]⟩, zeroImage], 3⟩

/-- A Gaussian pyramid of two 3x3 levels; the second falls from 2 in its first row to 0 in its
last. -/
def sampleGaussian : Pyramid :=
  ⟨[zeroImage, ⟨3, 3, [2, 2, 2, 1, 1, 1, 0, 0, 0]⟩], 3⟩

/-- The feature point the extrema stage finds in `slopeDog` with `sampleHost`. -/
def slopePoint : FeaturePoint where
  octave := 0
  scale := 1
  octaveX := 1
  octaveY := 1
  x := 7 / 6
  y := 1
  sigma := 3 / 2
  score := 61 / 6

/-- A 2x1 image that falls from 1 to 0 along its only row. -/
def fallingRow : Image := ⟨2, 1, [1, 0]⟩

/-- The stencil of zeros read at the centre of `zeroImage`. -/
def zeroStencil : Stencil := ⟨0, 0, 0, 0, 0, 0, 0, 0, 0⟩

/-- The stencil read at the centre of the middle level of `slopeDog`. -/
def slopeStencil : Stencil := ⟨10, 6, 8, 6, 0, 0, 6, 0, 0⟩

/-- The stencil read at the centre of the middle level of `edgeDog`. -/
def edgeStencil : Stencil := ⟨10, 8, 8, 19 / 2, 0, 0, 19 / 2, 0, 0⟩

/-- The gradient field `_computeGradients` builds with `sampleHost` for the second level of
`sampleGaussian`: every angle is `π/2`. -/
def sampleGradient : GradientField :=
  ⟨3, 3, [⟨PI / 2, 1⟩, ⟨PI / 2, 1⟩, ⟨PI / 2, 1⟩, ⟨PI / 2, 5 / 2⟩, ⟨PI / 2, 5 / 2⟩,
    ⟨PI / 2, 5 / 2⟩, ⟨PI / 2, 1⟩, ⟨PI / 2, 1⟩, ⟨PI / 2, 1⟩]⟩

/-- The oriented feature point `detect` returns for `sampleGaussian` and `slopeDog` with
`sampleHost`. -/
def sampleOriented : OrientedFeaturePoint :=
  { toFeaturePoint := slopePoint
    angle := binAngle (refinedBin (smoothHistogram quarterTurnHist) 8) }

/-- The derivatives at the centre of the middle level of `slopeDog`. -/
def slopeDerivatives : Derivatives := derivativesOf zeroStencil slopeStencil zeroStencil

/-- The derivatives at the centre of the middle level of `edgeDog`. -/
def edgeDerivatives : Derivatives := derivativesOf zeroStencil edgeStencil zeroStencil

/-- The feature point `emitCandidate` builds with `sampleHost` at the centre of the middle
level of `edgeDog`. -/
def edgePoint : FeaturePoint where
  octave := 0
  scale := 1
  octaveX := 1
  octaveY := 1
  x := 1
  y := 1
  sigma := 3 / 2
  score := 10

/-- A pyramid whose only image is `fallingRow`. -/
def fallingPyramid : Pyramid := ⟨[fallingRow], 3⟩

/-- The image `image0` after source lines 38-40: the level below, downsampled when it has
twice the width. -/
def imageBelow (host : Host) (level0 image1 : Image) : Image :=
  if level0.width / 2 = image1.width then host.downsampleBilinear level0 else level0

/-- The image `image2` after source lines 42-47: the level above, upsampled when it has half
the width. -/
def imageAbove (host : Host) (image1 level2 : Image) : Image :=
  if image1.width / 2 = level2.width then
    host.upsampleBilinear level2
      (decide (image1.width / 2 = level2.width) && decide (image1.width % 2 = 1))
      (decide (image1.width / 2 = level2.width) && decide (image1.height % 2 = 1))
  else level2

/-! ## Double-precision arithmetic

The definitions above read every JavaScript number as an exact rational.  The namespace `Dbl`
reads them as IEEE 754 binary64 values, with rounding to nearest (ties to even), gradual
underflow, overflow to infinity, signed zeros and NaN, and repeats the functions of the
source over these values, operation by operation in the source's order of evaluation. -/

namespace Dbl

/-- A binary64 value: NaN, an infinity with its sign, or a finite value given by its sign and
its magnitude (`fin true 0` is `-0`). -/
inductive F64 where
  | nan : F64
  | inf (neg : Bool) : F64
  | fin (neg : Bool) (mag : ℚ) : F64
  deriving DecidableEq

/-- The power `2^e` as a rational. -/
def pow2 (e : ℤ) : ℚ :=
  if 0 ≤ e then ((2 ^ e.toNat : ℕ) : ℚ) else 1 / ((2 ^ (-e).toNat : ℕ) : ℚ)

/-- The least `k` from `k0` on with `n < 2^(2^k)`, found in at most `fuel` steps. -/
def log2Width (n : ℕ) : ℕ → ℕ → ℕ
  | 0, k0 => k0
  | fuel + 1, k0 => bif Nat.blt n (2 ^ 2 ^ k0) then k0 else log2Width n fuel (k0 + 1)

/-- Binary search for `⌊log₂ n⌋`: with `2^e ≤ n`, add to `e` each of the powers
`2^(b-1), ..., 2, 1` that keeps `2^e ≤ n`. -/
def log2Search (n : ℕ) : ℕ → ℕ → ℕ
  | 0, e => e
  | b + 1, e =>
    bif Nat.ble (2 ^ (e + 2 ^ b)) n then log2Search n b (e + 2 ^ b) else log2Search n b e

/-- The value `⌊log₂ n⌋` of a positive natural number: the search runs over the exponents
below `2^k` for the least `k` with `n < 2^(2^k)`, which `n` steps always reach. -/
def natLog2 (n : ℕ) : ℕ := log2Search n (log2Width n n 0) 0

/-- The value `⌊log₂ a⌋` of a positive rational `a`: with `c` the difference of the binary
exponents of numerator and denominator it is `c` when `2^c ≤ a` and `c - 1` otherwise. -/
def floorLog2 (a : ℚ) : ℤ :=
  bif Nat.ble
      (a.den * 2 ^ ((natLog2 a.num.natAbs : ℤ) - (natLog2 a.den : ℤ)).toNat)
      (a.num.natAbs * 2 ^ ((natLog2 a.den : ℤ) - (natLog2 a.num.natAbs : ℤ)).toNat)
  then (natLog2 a.num.natAbs : ℤ) - (natLog2 a.den : ℤ)
  else (natLog2 a.num.natAbs : ℤ) - (natLog2 a.den : ℤ) - 1

/-- The exponent of the spacing of binary64 values around the positive rational `a`: 52 below
its binary exponent, and `-1074` in the subnormal range. -/
def quantumExp (a : ℚ) : ℤ := max (floorLog2 a) (-1022) - 52

/-- The integer nearest to the fraction `n / d`, the even one of the two in a tie. -/
def roundHalfEven (n d : ℕ) : ℕ :=
  bif Nat.blt (2 * (n % d)) d then n / d
  else bif Nat.blt d (2 * (n % d)) then n / d + 1
  else bif n / d % 2 == 0 then n / d else n / d + 1

/-- The positive rational `a` rounded to 53 significant bits (fewer in the subnormal range),
with no bound on the exponent above: the multiple of `2^e` nearest to `a`, for
`e = quantumExp a`. -/
def roundMag (a : ℚ) : ℚ :=
  (roundHalfEven (a.num.natAbs * 2 ^ (-quantumExp a).toNat)
    (a.den * 2 ^ (quantumExp a).toNat) : ℚ) * pow2 (quantumExp a)

/-- The binary64 value of sign `neg` nearest to the exact magnitude `a ≥ 0`: a rounded
magnitude of `2^1024` or more is an infinity, an exact or rounded zero keeps the sign. -/
def F64.ofMag (neg : Bool) (a : ℚ) : F64 :=
  if a = 0 then .fin neg 0
  else if pow2 1024 ≤ roundMag a then .inf neg
  else .fin neg (roundMag a)

/-- The binary64 value nearest to the rational `q`, as for a numeric literal; zero is `+0`. -/
def F64.ofRat (q : ℚ) : F64 := F64.ofMag (decide (q < 0)) |q|

/-- The binary64 value of an integer. -/
def F64.ofInt (n : ℤ) : F64 := F64.ofRat n

/-- The rational value of a finite binary64 value of sign `neg` and magnitude `mag`. -/
def signed (neg : Bool) (mag : ℚ) : ℚ := if neg then -mag else mag

/-- Unary minus. -/
def F64.neg : F64 → F64
  | .nan => .nan
  | .inf s => .inf (!s)
  | .fin s m => .fin (!s) m

/-- The sum `a + b`.  An exact zero sum is `-0` only when both operands are `-0`. -/
def F64.add : F64 → F64 → F64
  | .nan, _ => .nan
  | _, .nan => .nan
  | .inf s, .inf t => if s = t then .inf s else .nan
  | .inf s, .fin _ _ => .inf s
  | .fin _ _, .inf t => .inf t
  | .fin s m, .fin t n =>
    if signed s m + signed t n = 0 then .fin (s && t) 0
    else F64.ofRat (signed s m + signed t n)

/-- The difference `a - b`. -/
def F64.sub (a b : F64) : F64 := F64.add a (F64.neg b)

/-- The product `a * b`. -/
def F64.mul : F64 → F64 → F64
  | .nan, _ => .nan
  | _, .nan => .nan
  | .inf s, .inf t => .inf (xor s t)
  | .inf s, .fin t n => if n = 0 then .nan else .inf (xor s t)
  | .fin s m, .inf t => if m = 0 then .nan else .inf (xor s t)
  | .fin s m, .fin t n => F64.ofMag (xor s t) (m * n)

/-- The quotient `a / b`. -/
def F64.div : F64 → F64 → F64
  | .nan, _ => .nan
  | _, .nan => .nan
  | .inf _, .inf _ => .nan
  | .inf s, .fin t _ => .inf (xor s t)
  | .fin s _, .inf t => .fin (xor s t) 0
  | .fin s m, .fin t n =>
    if n = 0 then (if m = 0 then .nan else .inf (xor s t))
    else F64.ofMag (xor s t) (m / n)

/-- The comparison `a < b`; false when an operand is NaN. -/
def F64.lt : F64 → F64 → Bool
  | .nan, _ => false
  | _, .nan => false
  | .inf s, .inf t => s && !t
  | .inf s, .fin _ _ => s
  | .fin _ _, .inf t => !t
  | .fin s m, .fin t n => decide (signed s m < signed t n)

/-- The comparison `a == b` (and `a === b`) of two numbers; false when an operand is NaN, true
for `-0` and `+0`. -/
def F64.eq : F64 → F64 → Bool
  | .nan, _ => false
  | _, .nan => false
  | .inf s, .inf t => s == t
  | .inf _, .fin _ _ => false
  | .fin _ _, .inf _ => false
  | .fin s m, .fin t n => decide (signed s m = signed t n)

/-- The comparison `a > b`. -/
def F64.gt (a b : F64) : Bool := F64.lt b a

/-- The comparison `a <= b`. -/
def F64.le (a b : F64) : Bool := F64.lt a b || F64.eq a b

/-- The comparison `a >= b`. -/
def F64.ge (a b : F64) : Bool := F64.le b a

/-- Whether the value is NaN. -/
def F64.isNaN : F64 → Bool
  | .nan => true
  | _ => false

/-- Whether the value is finite: neither NaN nor an infinity. -/
def F64.isFinite : F64 → Bool
  | .fin _ _ => true
  | _ => false

/-- The value `Math.abs(a)`. -/
def F64.abs : F64 → F64
  | .nan => .nan
  | .inf _ => .inf false
  | .fin _ m => .fin false m

/-- The value `Math.floor(a)`; `Math.floor(-0)` is `-0`. -/
def F64.floor : F64 → F64
  | .nan => .nan
  | .inf s => .inf s
  | .fin s m =>
    if ⌊signed s m⌋ = 0 then .fin s 0
    else .fin (decide (⌊signed s m⌋ < 0)) |((⌊signed s m⌋ : ℤ) : ℚ)|

/-- The value `Math.ceil(a)`; a value in `(-1, 0)` gives `-0`. -/
def F64.ceil : F64 → F64
  | .nan => .nan
  | .inf s => .inf s
  | .fin s m =>
    if ⌈signed s m⌉ = 0 then .fin s 0
    else .fin (decide (⌈signed s m⌉ < 0)) |((⌈signed s m⌉ : ℤ) : ℚ)|

/-- The value `Math.max(a, b)`: NaN when an operand is NaN, and `+0` is larger than `-0`. -/
def F64.max (a b : F64) : F64 :=
  if a.isNaN || b.isNaN then .nan
  else if F64.lt a b then b
  else if F64.lt b a then a
  else if a = .fin true 0 then b else a

/-- The value `Math.min(a, b)`: NaN when an operand is NaN, and `-0` is smaller than `+0`. -/
def F64.min (a b : F64) : F64 :=
  if a.isNaN || b.isNaN then .nan
  else if F64.lt a b then a
  else if F64.lt b a then b
  else if a = .fin true 0 then a else b

/-- The integer a finite integer-valued binary64 value stands for; `none` for a value that is
not an integer. -/
def F64.toInt? : F64 → Option ℤ
  | .fin s m => if ((⌊signed s m⌋ : ℤ) : ℚ) = signed s m then some ⌊signed s m⌋ else none
  | _ => none

/-- The constant `Math.PI`. -/
def PI : F64 := .fin false (884279719003555 / 281474976710656)

end Dbl

namespace Dbl

instance : Add F64 := ⟨F64.add⟩

instance : Sub F64 := ⟨F64.sub⟩

instance : Mul F64 := ⟨F64.mul⟩

instance : Div F64 := ⟨F64.div⟩

instance : Neg F64 := ⟨F64.neg⟩

instance (n : ℕ) : OfNat F64 n := ⟨F64.ofRat n⟩

instance : OfScientific F64 := ⟨fun m s e => F64.ofRat (Rat.ofScientific m s e)⟩

instance : LT F64 := ⟨fun a b => F64.lt a b = true⟩

instance : LE F64 := ⟨fun a b => F64.le a b = true⟩

instance (a b : F64) : Decidable (a < b) := inferInstanceAs (Decidable (F64.lt a b = true))

instance (a b : F64) : Decidable (a ≤ b) := inferInstanceAs (Decidable (F64.le a b = true))

/-! ### The kernels over binary64 values -/

/-- The object `{A, B, C}` returned by `_quadratic3Points`. -/
structure Quadratic where
  A : F64
  B : F64
  C : F64
  deriving DecidableEq

/-- The function `_quadratic3Points({p1, p2, p3})` of source lines 405-425 over binary64
values; `none` is `null`. -/
def _quadratic3Points (p1 p2 p3 : F64 × F64) : Option Quadratic :=
  let d1 := (p3.1 - p2.1) * (p3.1 - p1.1)
  let d2 := (p1.1 - p2.1) * (p3.1 - p1.1)
  let d3 := p1.1 - p2.1
  if F64.eq d1 0 ∨ F64.eq d2 0 ∨ F64.eq d3 0 then none
  else
    let a := p1.1 * p1.1
    let b := p2.1 * p2.1
    let A := ((p3.2 - p2.2) / d1) - ((p1.2 - p2.2) / d2)
    let B := ((p1.2 - p2.2) + (A * (b - a))) / d3
    let C := p1.2 - (A * a) - (B * p1.1)
    some ⟨A, B, C⟩

/-- The function `_fastExp6({x})` of source lines 433-436 over binary64 values. -/
def _fastExp6 (x : F64) : F64 :=
  (720 + x * (720 + x * (360 + x * (120 + x * (30 + x * (6 + x)))))) * 0.0013888888

/-- The function `_solveSymmetric33({A, b})` of source lines 525-556 over binary64 values;
`none` is `null`. -/
def _solveSymmetric33 (A : Fin 9 → F64) (b : Fin 3 → F64) : Option (Fin 3 → F64) :=
  let det := A 0 * A 4 * A 8
    - A 0 * A 5 * A 5
    - A 4 * A 2 * A 2
    - A 8 * A 1 * A 1
    + 2 * A 1 * A 2 * A 5
  if F64.abs det < 0.0000001 then none
  else
    let B0 := A 4 * A 8 - A 5 * A 7
    let B1 := A 2 * A 7 - A 1 * A 8
    let B2 := A 1 * A 5 - A 2 * A 4
    let B3 := A 5 * A 6 - A 3 * A 8
    let B4 := A 0 * A 8 - A 2 * A 6
    let B5 := A 2 * A 3 - A 0 * A 5
    let B6 := A 3 * A 7 - A 4 * A 6
    let B7 := A 1 * A 6 - A 0 * A 7
    let B8 := A 0 * A 4 - A 1 * A 3
    let x0 := B0 * b 0 + B1 * b 1 + B2 * b 2
    let x1 := B3 * b 0 + B4 * b 1 + B5 * b 2
    let x2 := B6 * b 0 + B7 * b 1 + B8 * b 2
    some ![1.0 * x0 / det, 1.0 * x1 / det, 1.0 * x2 / det]

end Dbl

namespace Dbl

/-! ### Orientation assignment over binary64 values (source lines 226-392) -/

/-- The constant `ORIENTATION_GAUSSIAN_EXPANSION_FACTOR = 3.0`. -/
def ORIENTATION_GAUSSIAN_EXPANSION_FACTOR : F64 := 3.0

/-- The constant `ORIENTATION_REGION_EXPANSION_FACTOR = 1.5`. -/
def ORIENTATION_REGION_EXPANSION_FACTOR : F64 := 1.5

/-- The constant `ORIENTATION_PEAK_THRESHOLD = 0.8`. -/
def ORIENTATION_PEAK_THRESHOLD : F64 := 0.8

/-- The constant `ONE_OVER_2PI = 0.159154943091895`. -/
def ONE_OVER_2PI : F64 := 0.159154943091895

/-- One entry `{angle, mag}` of a gradient field. -/
structure GradientValue where
  angle : F64
  mag : F64
  deriving DecidableEq

/-- The object `{width, height, values}` of source lines 462-466. -/
structure GradientField where
  width : ℕ
  height : ℕ
  values : List GradientValue
  deriving DecidableEq

/-- The read `gradient.values[yp * gradient.width + xp]` of source line 281; `none` when the
array has no such entry. -/
def GradientField.at? (gradient : GradientField) (xp yp : ℤ) : Option GradientValue :=
  if yp * gradient.width + xp < 0 then none
  else gradient.values[(yp * gradient.width + xp).toNat]?

/-- The value `gwSigma` of source line 229. -/
def gwSigmaOf (sigma : F64) : F64 := F64.max 1.0 (ORIENTATION_GAUSSIAN_EXPANSION_FACTOR * sigma)

/-- The value `gwScale` of source line 230. -/
def gwScaleOf (sigma : F64) : F64 := -1.0 / (2 * gwSigmaOf sigma * gwSigmaOf sigma)

/-- The value `radius` of source line 232. -/
def radiusOf (sigma : F64) : F64 := ORIENTATION_REGION_EXPANSION_FACTOR * gwSigmaOf sigma

/-- The value `radius2` of source line 233. -/
def radius2Of (sigma : F64) : F64 := F64.ceil (radiusOf sigma * radiusOf sigma - 0.5)

/-- The values a loop `for (v = lo; v <= hi; v++)` runs through when `lo` and `hi` are
integers; it does not run when a bound is NaN or `-Infinity`. -/
def loopRange (lo hi : F64) : List ℤ :=
  match lo.toInt?, hi.toInt? with
  | some a, some b => intRange a b
  | _, _ => []

/-- The array index a binary64 value names after `% ORIENTATION_NUM_BINS`; `none` for NaN and
the infinities, which name no index. -/
def binIndex (v : F64) : Option ℤ :=
  v.toInt?.map fun (n : ℤ) => n.tmod ORIENTATION_NUM_BINS

/-- The update `histogram[b] += v`.  An index that is not one of the entries names a property
outside the array and leaves the 36 entries unchanged. -/
def addAt (histogram : List F64) (b : Option ℤ) (v : F64) : List F64 :=
  match b with
  | none => histogram
  | some n => if n < 0 then histogram else histogram.modify (fun t => t + v) n.toNat

/-- The body of the inner loop, source lines 268-314, for the pixel `(xp, yp)`. -/
def accumulatePixel (dbg : DebugEnv) (x y : ℤ) (sigma : F64) (gradient : GradientField)
    (histogram : List F64) (yp xp : ℤ) : Option (List F64) :=
  let dy := F64.ofInt yp - F64.ofInt y
  let dy2 := dy * dy
  let dx := F64.ofInt xp - F64.ofInt x
  let dx2 := dx * dx
  let r2 := dx2 + dy2
  if r2 > radius2Of sigma then
    if dbg.hasTrace then some histogram else none
  else
    match gradient.at? xp yp with
    | none => none
    | some gradientValue =>
      let angle := gradientValue.angle
      let mag := gradientValue.mag
      let w := _fastExp6 (r2 * gwScaleOf sigma)
      let fbin := 36 * angle * ONE_OVER_2PI
      let bin := F64.floor (fbin - 0.5)
      let w2 := fbin - bin - 0.5
      let w1 := 1.0 - w2
      let b1 := binIndex (bin + 36)
      let b2 := binIndex (bin + 1)
      let magnitude := w * mag
      some (addAt (addAt histogram b1 (w1 * magnitude)) b2 (w2 * magnitude))

/-- The inner loop of source lines 263-315 over the columns `xs` of row `yp`. -/
def accumulateRow (dbg : DebugEnv) (x y : ℤ) (sigma : F64) (gradient : GradientField)
    (yp : ℤ) : List ℤ → List F64 → Option (List F64)
  | [], histogram => some histogram
  | xp :: rest, histogram =>
    match accumulatePixel dbg x y sigma gradient histogram yp xp with
    | none => none
    | some histogram1 => accumulateRow dbg x y sigma gradient yp rest histogram1

/-- The outer loop of source lines 259-316 over the rows `ys`. -/
def accumulateRows (dbg : DebugEnv) (x y : ℤ) (sigma : F64) (gradient : GradientField)
    (xs : List ℤ) : List ℤ → List F64 → Option (List F64)
  | [], histogram => some histogram
  | yp :: rest, histogram =>
    match accumulateRow dbg x y sigma gradient yp xs histogram with
    | none => none
    | some histogram1 => accumulateRows dbg x y sigma gradient xs rest histogram1

/-- Source lines 235-316: the window bounds and the weighted histogram, for a centre with
integer coordinates. -/
def orientationHistogram (dbg : DebugEnv) (x y : ℤ) (sigma : F64)
    (gradient : GradientField) : Option (List F64) :=
  let radius := radiusOf sigma
  let x0 := F64.max 0 (F64.ofInt x - F64.floor (radius + 0.5))
  let x1 := F64.min (F64.ofInt ((gradient.width : ℤ) - 1))
    (F64.ofInt x + F64.floor (radius + 0.5))
  let y0 := F64.max 0 (F64.ofInt y - F64.floor (radius + 0.5))
  let y1 := F64.min (F64.ofInt ((gradient.height : ℤ) - 1))
    (F64.ofInt y + F64.floor (radius + 0.5))
  accumulateRows dbg x y sigma gradient (loopRange x0 x1) (loopRange y0 y1)
    (List.replicate ORIENTATION_NUM_BINS 0)

/-- The entry `histogram[i]` for an integer index; a missing entry is `undefined`, which
compares and computes as NaN. -/
def binValue (histogram : List F64) (i : ℤ) : F64 :=
  if i < 0 then .nan else histogram.getD i.toNat .nan

/-- One smoothing pass, source lines 335-344, with the kernel of source line 333. -/
def smoothOnce (old : List F64) : List F64 :=
  (List.range old.length).map fun (j : ℕ) =>
    0.274068619061197 * binValue old (((j : ℤ) - 1 + old.length).tmod old.length)
      + 0.451862761877606 * binValue old j
      + 0.274068619061197 * binValue old (((j : ℤ) + 1).tmod old.length)

/-- The loop of source lines 334-345. -/
def smoothHistogram (histogram : List F64) : List F64 :=
  Nat.iterate smoothOnce ORIENTATION_SMOOTHING_ITERATIONS histogram

/-- The loop of source lines 348-353. -/
def histogramMax (histogram : List F64) : F64 :=
  (List.range ORIENTATION_NUM_BINS).foldl
    (fun maxHeight (i : ℕ) =>
      if binValue histogram i > maxHeight then binValue histogram i else maxHeight) 0

/-- The peak test of source line 365 for bin `i`. -/
def isPeak (histogram : List F64) (maxHeight : F64) (i : ℕ) : Bool :=
  let prev := ((i : ℤ) - 1 + histogram.length).tmod histogram.length
  let next := ((i : ℤ) + 1).tmod histogram.length
  decide (binValue histogram i > ORIENTATION_PEAK_THRESHOLD * maxHeight
    ∧ binValue histogram i > binValue histogram prev
    ∧ binValue histogram i > binValue histogram next)

/-- The refined bin `fbin` of source lines 367-382; `A != 0` holds for a NaN `A`. -/
def refinedBin (histogram : List F64) (i : ℕ) : F64 :=
  let prev := ((i : ℤ) - 1 + histogram.length).tmod histogram.length
  let next := ((i : ℤ) + 1).tmod histogram.length
  match _quadratic3Points (F64.ofInt ((i : ℤ) - 1), binValue histogram prev)
      (F64.ofInt i, binValue histogram i)
      (F64.ofInt ((i : ℤ) + 1), binValue histogram next) with
  | none => F64.ofInt i
  | some ret => if F64.eq ret.A 0 then F64.ofInt i else -ret.B / (2 * ret.A)

/-- The loop `while (an > 2.0 * Math.PI) an -= 2.0 * Math.PI` of source lines 385-387, run for
at most `fuel` turns; `none` when the loop has not ended by then. -/
def reduceAngle : ℕ → F64 → Option F64
  | 0, an => if an > 2.0 * PI then none else some an
  | fuel + 1, an => if an > 2.0 * PI then reduceAngle fuel (an - 2.0 * PI) else some an

/-- The angle of a refined bin, source lines 384-387. -/
def binAngle (fuel : ℕ) (fbin : F64) : Option F64 :=
  reduceAngle fuel (2.0 * PI * ((fbin + 0.5 + 36) / 36))

/-- The loop of source lines 360-390; `none` when a reduction loop has not ended within
`fuel` turns. -/
def findPeaks (fuel : ℕ) (histogram : List F64) (maxHeight : F64) : Option (List F64) :=
  optionList (((List.range ORIENTATION_NUM_BINS).filter (isPeak histogram maxHeight)).map
    fun (i : ℕ) => binAngle fuel (refinedBin histogram i))

/-- The function `_computeOrientation({x, y, sigma, octave, scale, gradient})` over binary64
values, for a centre with integer coordinates.  `none` is a `TypeError`, or a reduction loop
that has not ended within `fuel` turns. -/
def _computeOrientation (fuel : ℕ) (dbg : DebugEnv) (x y : ℤ) (sigma : F64)
    (gradient : GradientField) : Option (List F64) :=
  if dbg.DEBUG && !dbg.hasTrace then none
  else
    match orientationHistogram dbg x y sigma gradient with
    | none => none
    | some histogram0 =>
      let histogram := smoothHistogram histogram0
      let maxHeight := histogramMax histogram
      if F64.eq maxHeight 0 then some []
      else findPeaks fuel histogram maxHeight

end Dbl

namespace Dbl

/-! ### The extrema stage, the pruner, the gradient fields and `detect` over binary64 values

A read outside an array gives `undefined`, which computes and compares as NaN; a property
read on `undefined` is a `TypeError` (`none`).  As above, a zero `numScalesPerOctaves` of the
DoG pyramid stops with `none`. -/

/-- The object pushed on source lines 158-167.  The fields `octaveX` and `octaveY` are values
of `Math.floor`. -/
structure FeaturePoint where
  octave : ℕ
  scale : ℕ
  octaveX : F64
  octaveY : F64
  x : F64
  y : F64
  sigma : F64
  score : F64
  deriving DecidableEq

/-- An image `{width, height, data}` of a pyramid. -/
structure Image where
  width : ℕ
  height : ℕ
  data : List F64
  deriving DecidableEq

/-- The read `image.data[pos]` as a number: NaN when the array has no such entry. -/
def Image.get (image : Image) (pos : ℤ) : F64 :=
  if pos < 0 then .nan else image.data.getD pos.toNat .nan

/-- A pyramid `{images, numScalesPerOctaves}`. -/
structure Pyramid where
  images : List Image
  numScalesPerOctaves : ℕ
  deriving DecidableEq

/-- What the detector takes from outside this file: `Math.pow` at the arguments of source
lines 23 and 151, `Math.atan2`, `Math.sqrt`, and the two functions required from
`../utils/images.js`. -/
structure Host where
  pow : F64 → F64 → F64
  atan2 : F64 → F64 → F64
  sqrt : F64 → F64
  upsampleBilinear : Image → Bool → Bool → Image
  downsampleBilinear : Image → Image

/-- The value `Math.pow(2, n)` for an integer `n`: the exact power, `Infinity` from `2^1024`
on. -/
def powTwo (n : ℤ) : F64 := F64.ofRat (pow2 n)

/-- The nine values read around `pos` in one image, named as in the exact reading. -/
structure Stencil where
  c : F64
  l : F64
  r : F64
  u : F64
  ul : F64
  ur : F64
  d : F64
  dl : F64
  dr : F64
  deriving DecidableEq

/-- The reads `image.data[pos + neighbours[d]]` for the nine offsets of source lines 53-57. -/
def Image.stencil (image : Image) (pos width : ℤ) : Stencil where
  c := image.get pos
  l := image.get (pos - 1)
  r := image.get (pos + 1)
  u := image.get (pos - width)
  ul := image.get (pos - width - 1)
  ur := image.get (pos - width + 1)
  d := image.get (pos + width)
  dl := image.get (pos + width - 1)
  dr := image.get (pos + width + 1)

/-- The values of a stencil in the order of the array `neighbours` of source lines 53-57. -/
def Stencil.values (s : Stencil) : List F64 :=
  [s.c, s.l, s.r, s.u, s.ul, s.ur, s.d, s.dl, s.dr]

/-- The flag `isMax` after the loop of source lines 79-84. -/
def isMaxAt (v : F64) (s0 s1 s2 : Stencil) : Bool :=
  (List.range 9).all fun (d : ℕ) =>
    !decide (v ≤ s0.values.getD d .nan) && !decide (v ≤ s2.values.getD d .nan)
      && (d == 0 || !decide (v ≤ s1.values.getD d .nan))

/-- The flag `isMin` after the loop of source lines 86-91. -/
def isMinAt (v : F64) (s0 s1 s2 : Stencil) : Bool :=
  (List.range 9).all fun (d : ℕ) =>
    !decide (v ≥ s0.values.getD d .nan) && !decide (v ≥ s2.values.getD d .nan)
      && (d == 0 || !decide (v ≥ s1.values.getD d .nan))

/-- The derivatives of source lines 98-108. -/
structure Derivatives where
  dx : F64
  dy : F64
  ds : F64
  dxx : F64
  dyy : F64
  dss : F64
  dxy : F64
  dxs : F64
  dys : F64
  deriving DecidableEq

/-- Source lines 98-108: central differences in x, y and scale. -/
def derivativesOf (s0 s1 s2 : Stencil) : Derivatives where
  dx := 0.5 * (s1.r - s1.l)
  dy := 0.5 * (s1.d - s1.u)
  dxx := s1.r + s1.l - 2 * s1.c
  dyy := s1.d + s1.u - 2 * s1.c
  dxy := 0.25 * (s1.ul + s1.dr - s1.ur - s1.dl)
  ds := 0.5 * (s2.c - s0.c)
  dss := s2.c + s0.c - 2 * s1.c
  dxs := 0.25 * ((s0.l - s0.r) + (-s2.l + s2.r))
  dys := 0.25 * ((s0.u - s0.d) + (-s2.u + s2.d))

/-- The array `hessian` of source lines 111-115. -/
def hessianOf (d : Derivatives) : Fin 9 → F64 :=
  ![d.dxx, d.dxy, d.dxs, d.dxy, d.dyy, d.dys, d.dxs, d.dys, d.dss]

/-- The array `b` of source lines 118-122. -/
def bOf (d : Derivatives) : Fin 3 → F64 :=
  ![-d.dx, -d.dy, -d.ds]

/-- The constant `EDGE_HESSIAN_THRESHOLD` of source lines 5-6. -/
def EDGE_HESSIAN_THRESHOLD : F64 := ((4.0 + 1) * (4.0 + 1) / 4.0)

/-- The value `edgeScore` of source line 135. -/
def edgeScoreOf (dxx dyy dxy : F64) : F64 :=
  (dxx + dyy) * (dxx + dyy) / ((dxx * dyy) - (dxy * dxy))

/-- The edge test of source lines 132-136: `true` when one of the two `continue` statements is
taken. -/
def edgeRejected (dxx dyy dxy : F64) : Bool :=
  if F64.eq ((dxx * dyy) - (dxy * dxy)) 0 then true
  else decide (F64.abs (edgeScoreOf dxx dyy dxy) ≥ EDGE_HESSIAN_THRESHOLD)

/-- The value `score` of source line 138. -/
def scoreOf (v : F64) (d : Derivatives) (u : Fin 3 → F64) : F64 :=
  v - (bOf d 0 * u 0 + bOf d 1 * u 1 + bOf d 2 * u 2)

/-- The value `newX` of source lines 143-146 for the pixel coordinate `i` and the offset
`u0` (and `newY` for `j` and `u1`). -/
def newCoord (octave : ℕ) (i : ℤ) (u0 : F64) : F64 :=
  F64.ofInt i * powTwo octave + powTwo ((octave : ℤ) - 1) - 0.5 + u0 * powTwo octave

/-- The value `Math.floor(newOctaveX + 0.5)` of source lines 153-156 (and the same for y). -/
def octaveCoord (octave : ℕ) (newX : F64) : F64 :=
  F64.floor (newX * (1.0 / powTwo octave) + 0.5 * (1.0 / powTwo octave) - 0.5 + 0.5)

/-- The value `1 << octave` as in the exact reading. -/
def shiftOne (octave : ℕ) : F64 := F64.ofInt (shiftLeftOne octave)

/-- Source lines 138-167, what follows the edge test: `none` is a `continue`, `some fp` the
feature point pushed. -/
def emitCandidate (host : Host) (gaussN dogN : ℕ) (originalWidth originalHeight : ℕ)
    (octave scale : ℕ) (i j : ℤ) (v : F64) (d : Derivatives) (u : Fin 3 → F64) :
    Option FeaturePoint :=
  if scoreOf v d u * scoreOf v d u < 9 then none
  else if newCoord octave i (u 0) < 0 ∨ newCoord octave i (u 0) ≥ F64.ofInt originalWidth
      ∨ newCoord octave j (u 1) < 0 ∨ newCoord octave j (u 1) ≥ F64.ofInt originalHeight then
    none
  else
    some
      { octave := octave
        scale := scale
        octaveX := octaveCoord octave (newCoord octave i (u 0))
        octaveY := octaveCoord octave (newCoord octave j (u 1))
        x := newCoord octave i (u 0)
        y := newCoord octave j (u 1)
        sigma := host.pow (host.pow 2 (1.0 / F64.ofInt ((gaussN : ℤ) - 1)))
            (F64.min (F64.max 0 (F64.ofInt scale + u 2)) (F64.ofInt dogN))
          * shiftOne octave
        score := scoreOf v d u }

/-- Source lines 124-167 for the pixel `(i, j)` with value `v` and derivatives `d`. -/
def refineCandidate (host : Host) (gaussN dogN : ℕ) (originalWidth originalHeight : ℕ)
    (octave scale : ℕ) (i j : ℤ) (v : F64) (d : Derivatives) : Option FeaturePoint :=
  match _solveSymmetric33 (hessianOf d) (bOf d) with
  | none => none
  | some u =>
    if u 0 * u 0 + u 1 * u 1 > 9 then none
    else if edgeRejected d.dxx d.dyy d.dxy then none
    else emitCandidate host gaussN dogN originalWidth originalHeight octave scale i j v d u

/-- The body of the pixel loop, source lines 72-167, for the pixel `(i, j)`. -/
def candidateAt (host : Host) (gaussN dogN : ℕ) (originalWidth originalHeight : ℕ)
    (octave scale : ℕ) (image0 image1 image2 : Image) (i j : ℤ) : Option FeaturePoint :=
  let width : ℤ := image1.width
  let pos := j * width + i
  let v := image1.get pos
  if v * v < 9 then none
  else if !isMaxAt v (image0.stencil pos width) (image1.stencil pos width)
      (image2.stencil pos width)
    && !isMinAt v (image0.stencil pos width) (image1.stencil pos width)
      (image2.stencil pos width) then none
  else
    refineCandidate host gaussN dogN originalWidth originalHeight octave scale i j v
      (derivativesOf (image0.stencil pos width) (image1.stencil pos width)
        (image2.stencil pos width))

/-- The body of the level loop, source lines 28-169, for the DoG level `k`. -/
def extremaLevel (host : Host) (gaussN : ℕ) (dogPyramid : Pyramid)
    (originalWidth originalHeight : ℕ) (k : ℕ) : Option (List FeaturePoint) :=
  match dogPyramid.images[k - 1]?, dogPyramid.images[k]?, dogPyramid.images[k + 1]? with
  | some level0, some image1, some level2 =>
    if dogPyramid.numScalesPerOctaves = 0 then none
    else
      let octave := k / dogPyramid.numScalesPerOctaves
      let scale := k % dogPyramid.numScalesPerOctaves
      let image0 :=
        if level0.width / 2 = image1.width then host.downsampleBilinear level0 else level0
      let hasUpsample : Bool := decide (image1.width / 2 = level2.width)
      let hasPadOneWidth : Bool := hasUpsample && decide (image1.width % 2 = 1)
      let hasPadOneHeight : Bool := hasUpsample && decide (image1.height % 2 = 1)
      let image2 :=
        if hasUpsample then host.upsampleBilinear level2 hasPadOneWidth hasPadOneHeight
        else level2
      let startI : ℤ := if hasUpsample then 2 else 1
      let startJ : ℤ := startI
      let endI : ℤ := (if hasUpsample then (image1.width : ℤ) - 3 else (image1.width : ℤ) - 1)
        - (if hasPadOneWidth then 1 else 0)
      let endJ : ℤ := (if hasUpsample then (image1.height : ℤ) - 3 else (image1.height : ℤ) - 1)
        - (if hasPadOneHeight then 1 else 0)
      some ((intRange startJ (endJ - 1)).flatMap fun (j : ℤ) =>
        (intRange startI (endI - 1)).flatMap fun (i : ℤ) =>
          (candidateAt host gaussN dogPyramid.numScalesPerOctaves originalWidth originalHeight
            octave scale image0 image1 image2 i j).toList)
  | _, _, _ => none

/-- Source lines 20-170: the list `featurePoints` after the level loop. -/
def extremaStage (host : Host) (gaussN : ℕ) (dogPyramid : Pyramid) :
    Option (List FeaturePoint) :=
  match dogPyramid.images[0]? with
  | none => none
  | some first =>
    concatOption (extremaLevel host gaussN dogPyramid first.width first.height)
      (List.range' 1 (dogPyramid.images.length - 2))

/-- The host's `Array.prototype.sort` applied with the comparator of source lines 509-511;
only that it rearranges the bucket is used. -/
structure PointSort where
  sort : List FeaturePoint → List FeaturePoint
  perm : ∀ l, (sort l).Perm l

/-- The value `bucketIndex` of source lines 495-498 as an array index; `none` when it is not
an integer. -/
def bucketIndexOf (width height : ℕ) (p : FeaturePoint) : Option ℤ :=
  (F64.floor (p.y / F64.ceil (1.0 * F64.ofInt height / 10)) * 10
    + F64.floor (p.x / F64.ceil (1.0 * F64.ofInt width / 10))).toInt?

/-- One iteration of the loop of source lines 494-500; `buckets[bucketIndex].push` raises a
`TypeError` (`none`) when `buckets` has no such entry. -/
def pushBucket (width height : ℕ) (buckets : List (List FeaturePoint)) (p : FeaturePoint) :
    Option (List (List FeaturePoint)) :=
  match bucketIndexOf width height p with
  | none => none
  | some bucketIndex =>
    if bucketIndex < 0 then none
    else
      match buckets[bucketIndex.toNat]? with
      | none => none
      | some bucket => some (buckets.set bucketIndex.toNat (bucket ++ [p]))

/-- The loop of source lines 494-500. -/
def fillBuckets (width height : ℕ) : List FeaturePoint → List (List FeaturePoint) →
    Option (List (List FeaturePoint))
  | [], buckets => some buckets
  | p :: rest, buckets =>
    match pushBucket width height buckets p with
    | none => none
    | some buckets1 => fillBuckets width height rest buckets1

/-- The body of the inner loop of source lines 505-515: the points one bucket contributes. -/
def selectBucket (S : PointSort) (nPointsPerBuckets : ℕ) (bucket : List FeaturePoint) :
    List FeaturePoint :=
  let nSelected := min bucket.length nPointsPerBuckets
  let sorted := if bucket.length > nSelected then S.sort bucket else bucket
  sorted.take nSelected

/-- The loops of source lines 502-517. -/
def collectBuckets (S : PointSort) (nPointsPerBuckets : ℕ)
    (buckets : List (List FeaturePoint)) : List FeaturePoint :=
  (List.range PRUNE_FEATURES_NUM_BUCKETS).flatMap fun i =>
    (List.range PRUNE_FEATURES_NUM_BUCKETS).flatMap fun j =>
      selectBucket S nPointsPerBuckets ((buckets[j * PRUNE_FEATURES_NUM_BUCKETS + i]?).getD [])

/-- The function `_pruneFeatures({featurePoints, width, height})` over binary64 values. -/
def _pruneFeatures (S : PointSort) (featurePoints : List FeaturePoint) (width height : ℕ) :
    Option (List FeaturePoint) :=
  if featurePoints.length ≤ MAX_FEATURE_POINTS then some featurePoints
  else
    match fillBuckets width height featurePoints
        (List.replicate (PRUNE_FEATURES_NUM_BUCKETS * PRUNE_FEATURES_NUM_BUCKETS) []) with
    | none => none
    | some filled =>
      some (collectBuckets S
        (MAX_FEATURE_POINTS / (PRUNE_FEATURES_NUM_BUCKETS * PRUNE_FEATURES_NUM_BUCKETS)) filled)

/-- The entry pushed on source lines 447-459 for the pixel `(i, j)`. -/
def gradientAt (host : Host) (image : Image) (j i : ℕ) : GradientValue :=
  let prevJ : ℤ := if j > 0 then (j : ℤ) - 1 else j
  let nextJ : ℤ := if (j : ℤ) < (image.height : ℤ) - 1 then (j : ℤ) + 1 else j
  let prevI : ℤ := if i > 0 then (i : ℤ) - 1 else i
  let nextI : ℤ := if (i : ℤ) < (image.width : ℤ) - 1 then (i : ℤ) + 1 else i
  let dx := image.get (j * image.width + nextI) - image.get (j * image.width + prevI)
  let dy := image.get (nextJ * image.width + i) - image.get (prevJ * image.width + i)
  ⟨host.atan2 dy dx + PI, host.sqrt (dx * dx + dy * dy)⟩

/-- The gradient field pushed on source lines 462-466 for one image. -/
def gradientField (host : Host) (image : Image) : GradientField :=
  ⟨image.width, image.height,
    (List.range image.height).flatMap fun (j : ℕ) =>
      (List.range image.width).map fun (i : ℕ) => gradientAt host image j i⟩

/-- The function `_computeGradients({pyramid})` over binary64 values. -/
def _computeGradients (host : Host) (pyramid : Pyramid) : List GradientField :=
  pyramid.images.map (gradientField host)

/-- The object built on source lines 204-206: the feature point with its `angle`. -/
structure OrientedFeaturePoint extends FeaturePoint where
  angle : F64
  deriving DecidableEq

/-- The body of the loop of source lines 192-208 for one pruned feature point.  A centre
coordinate that is NaN or an infinity gives window bounds between which no pixel lies: the
histogram stays zero and no angle is returned. -/
def orientFeature (fuel : ℕ) (dbg : DebugEnv) (numScalesPerOctaves : ℕ)
    (gradients : List GradientField) (fp : FeaturePoint) : Option (List OrientedFeaturePoint) :=
  match gradients[fp.octave * numScalesPerOctaves + fp.scale]? with
  | none => none
  | some gradient =>
    match fp.octaveX.toInt?, fp.octaveY.toInt? with
    | some x, some y =>
      match _computeOrientation fuel dbg x y (fp.sigma * (1.0 / powTwo fp.octave)) gradient with
      | none => none
      | some angles => some (angles.map fun a => { toFeaturePoint := fp, angle := a })
    | _, _ => if dbg.DEBUG && !dbg.hasTrace then none else some []

/-- The loop of source lines 191-208: the list `orientedFeaturePoints`. -/
def orientFeatures (fuel : ℕ) (dbg : DebugEnv) (numScalesPerOctaves : ℕ)
    (gradients : List GradientField) (fps : List FeaturePoint) :
    Option (List OrientedFeaturePoint) :=
  concatOption (orientFeature fuel dbg numScalesPerOctaves gradients) fps

/-- The function `detect({gaussianPyramid, dogPyramid})` over binary64 values. -/
def detect (fuel : ℕ) (host : Host) (dbg : DebugEnv) (S : PointSort)
    (gaussianPyramid dogPyramid : Pyramid) : Option (List OrientedFeaturePoint) :=
  match dogPyramid.images[0]? with
  | none => none
  | some first =>
    match extremaStage host gaussianPyramid.numScalesPerOctaves dogPyramid with
    | none => none
    | some featurePoints =>
      if dbg.DEBUG && !dbg.hasTrace then none
      else
        match _pruneFeatures S featurePoints first.width first.height with
        | none => none
        | some prunedFeaturePoints =>
          orientFeatures fuel dbg gaussianPyramid.numScalesPerOctaves
            (_computeGradients host gaussianPyramid) prunedFeaturePoints

end Dbl

namespace Dbl

/-! ### Sample data over binary64 values -/

/-- The square root of a rational that is a square of a rational, and 0 otherwise. -/
def exactSqrt (a : ℚ) : ℚ :=
  if Nat.sqrt a.num.natAbs * Nat.sqrt a.num.natAbs = a.num.natAbs
      ∧ Nat.sqrt a.den * Nat.sqrt a.den = a.den then
    (Nat.sqrt a.num.natAbs : ℚ) / (Nat.sqrt a.den : ℚ)
  else 0

/-- A stand-in for `Math.sqrt` that is exact on squares of rationals (and on the zeros, the
infinity and NaN) and returns NaN elsewhere. -/
def sampleSqrt : F64 → F64
  | .nan => .nan
  | .inf s => if s then .nan else .inf false
  | .fin s m =>
    if m = 0 then .fin s 0
    else if s then .nan
    else if exactSqrt m = 0 then .nan else F64.ofRat (exactSqrt m)

/-- A stand-in for `Math.atan2(y, x)` that has the values of ECMAScript on the axes (`±π` for
`y = ±0` and `x < 0`, `±0` for `y = ±0` and `x > 0`, `±π/2` for `x = ±0` and `y` above or
below zero) and returns NaN elsewhere. -/
def sampleAtan2 : F64 → F64 → F64
  | .fin s m, .fin t n =>
    if m = 0 then
      if n = 0 then (if t then (if s then -PI else PI) else .fin s 0)
      else if t then (if s then -PI else PI) else .fin s 0
    else if n = 0 then (if s then -(PI / 2) else PI / 2)
    else .nan
  | _, _ => .nan

/-- A stand-in for `Math.pow(b, e)` that is the correctly rounded power for a finite base and
an exponent that is a natural number, and NaN elsewhere. -/
def samplePow : F64 → F64 → F64
  | .fin s m, e =>
    match e.toInt? with
    | some n => if 0 ≤ n then F64.ofRat (signed s m ^ n.toNat) else .nan
    | none => .nan
  | _, _ => .nan

/-- A host with the stand-ins above and resampling that returns an image of zeros of the
doubled or halved size. -/
def sampleHost : Host where
  pow := samplePow
  atan2 := sampleAtan2
  sqrt := sampleSqrt
  upsampleBilinear := fun image padOneWidth padOneHeight =>
    ⟨2 * image.width + (if padOneWidth then 1 else 0),
      2 * image.height + (if padOneHeight then 1 else 0),
      List.replicate ((2 * image.width + (if padOneWidth then 1 else 0))
        * (2 * image.height + (if padOneHeight then 1 else 0))) 0⟩
  downsampleBilinear := fun image =>
    ⟨image.width / 2, image.height / 2,
      List.replicate ((image.width / 2) * (image.height / 2)) 0⟩

/-- One host sort: the identity is not a sort, so insertion sort by the comparator's
"first" relation `|f1.score| > |f2.score|`. -/
def insertionPointSort : PointSort where
  sort := List.insertionSort (fun p q => ¬ (F64.abs q.score > F64.abs p.score))
  perm := List.perm_insertionSort _

/-- A 3x3 image of zeros. -/
def zeroImage : Image := ⟨3, 3, List.replicate 9 0⟩

/-- The binary64 value `2^n`. -/
def two (n : ℤ) : F64 := .fin false (pow2 n)

/-- A DoG pyramid of three 3x3 levels whose middle level is zero except for `2^600` at its
centre. -/
def hugeDog : Pyramid :=
  ⟨[zeroImage, ⟨3, 3, [0, 0, 0, 0, two 600, 0, 0, 0, 0]⟩, zeroImage], 3⟩

/-- A DoG pyramid of three 3x3 levels.  The middle level has 10 at its centre, `-3 * 2^500`
and `-2^500` left and right of it and `-2^501` above and below; the first level is zero
except for `-2^250` right of its centre. -/
def steepDog : Pyramid :=
  ⟨[⟨3, 3, [0, 0, 0, 0, 0, -two 250, 0, 0, 0]⟩,
    ⟨3, 3, [0, -two 501, 0, -(3 * two 500), 10, -two 500, 0, -two 501, 0]⟩,
    zeroImage], 3⟩

/-- A Gaussian pyramid of two 3x3 levels with two scales per octave; the second level falls
from 2 in its first row to 0 in its last. -/
def sampleGaussian : Pyramid :=
  ⟨[zeroImage, ⟨3, 3, [2, 2, 2, 1, 1, 1, 0, 0, 0]⟩], 2⟩

end Dbl

namespace Dbl

/-- A pyramid whose only image is the 2x1 image that falls from 1 to 0 along its row. -/
def fallingPyramid : Pyramid := ⟨[⟨2, 1, [1, 0]⟩], 3⟩

/-- A 1x1 gradient field whose only pixel has the angle `1e-16` and the magnitude 1. -/
def tinyAngleField : GradientField := ⟨1, 1, [⟨1e-16, 1⟩]⟩

/-- A 5x5 gradient field in which every pixel has the angle `Math.PI / 2` and the smallest
positive magnitude, `2^-1074` (`5e-324`). -/
def faintField : GradientField := ⟨5, 5, List.replicate 25 ⟨PI / 2, two (-1074)⟩⟩

/-- A histogram that is zero except for 1 in bin 8 and `1 - 2^-53` (`0.9999999999999999`)
in bin 9. -/
def nearTieHist : List F64 :=
  List.replicate 8 0 ++ [1, .fin false (1 - pow2 (-53))] ++ List.replicate 26 0

/-- A histogram that is zero except for `2 * 2^-1074`, `3 * 2^-1074` and `2 * 2^-1074` in the
bins 7, 8 and 9 (`1e-323`, `1.5e-323`, `1e-323`). -/
def faintHist : List F64 :=
  List.replicate 7 0
    ++ [.fin false (2 * pow2 (-1074)), .fin false (3 * pow2 (-1074)),
      .fin false (2 * pow2 (-1074))]
    ++ List.replicate 26 0

/-- The feature point the extrema stage pushes for `hugeDog`. -/
def nanPoint : FeaturePoint where
  octave := 0
  scale := 1
  octaveX := .nan
  octaveY := .nan
  x := .nan
  y := .nan
  sigma := .nan
  score := .nan

/-- The feature point the extrema stage pushes for `steepDog`: `x` is
`1.2501954652071932`, the score is NaN. -/
def steepPoint : FeaturePoint where
  octave := 0
  scale := 1
  octaveX := 1
  octaveY := 1
  x := .fin false (5630379831247399 / 4503599627370496)
  y := 1
  sigma := 8
  score := .nan

/-- The oriented feature point `detect` returns for `sampleGaussian` and `steepDog`: the
angle is `1.5707963267948921`. -/
def steepOriented : OrientedFeaturePoint :=
  { toFeaturePoint := steepPoint
    angle := .fin false (1768559438007105 / 1125899906842624) }

end Dbl

/-! ## Theorems -/

/-! ## The numerical kernels -/

/-- C1: for a symmetric matrix whose determinant has magnitude at least 1e-7 the solver returns
a vector `x` with `A * x = b`. -/
theorem solveSymmetric33_solves (A : Fin 9 → ℚ) (b : Fin 3 → ℚ) (hsym : IsSymmetric33 A)
    (hdet : 1 / 10000000 ≤ |det33 A|) :
    ∃ x, _solveSymmetric33 A b = some x ∧ mulVec33 A x = b := by
  obtain ⟨h13, h26, h57⟩ := hsym
  have hd : symDet A = det33 A := by
    simp only [symDet, det33, ← h13, ← h26, ← h57]; ring
  have hne : symDet A ≠ 0 := by
    rw [hd]; intro h0; rw [h0] at hdet; norm_num at hdet
  have hnot : ¬ |symDet A| < 1 / 10000000 := by rw [hd]; exact not_lt.mpr hdet
  refine ⟨_, if_neg hnot, ?_⟩
  funext i
  have hd2 : A 0 * A 4 * A 8 - A 0 * A 5 * A 5 - A 4 * A 2 * A 2 - A 8 * A 1 * A 1
      + 2 * A 1 * A 2 * A 5 ≠ 0 := hne
  fin_cases i
  · simp [mulVec33, symDet, ← h13, ← h26, ← h57]
    field_simp
    ring
  · simp [mulVec33, symDet, ← h13, ← h26, ← h57]
    field_simp
    ring
  · simp [mulVec33, symDet, ← h13, ← h26, ← h57]
    field_simp
    ring

/-- C1 at the identity matrix and `b = [1, 2, 3]`: the hypotheses hold and the solver returns
`[1, 2, 3]`. -/
theorem solveSymmetric33_solves_witness :
    IsSymmetric33 ![1, 0, 0, 0, 1, 0, 0, 0, 1] ∧
    (1 / 10000000 : ℚ) ≤ |det33 ![1, 0, 0, 0, 1, 0, 0, 0, 1]| ∧
    _solveSymmetric33 ![1, 0, 0, 0, 1, 0, 0, 0, 1] ![1, 2, 3] = some ![1, 2, 3] ∧
    ∃ x, _solveSymmetric33 ![1, 0, 0, 0, 1, 0, 0, 0, 1] ![1, 2, 3] = some x ∧
      mulVec33 ![1, 0, 0, 0, 1, 0, 0, 0, 1] x = ![1, 2, 3] :=
  ⟨by decide!, by decide!, by decide!,
    solveSymmetric33_solves ![1, 0, 0, 0, 1, 0, 0, 0, 1] ![1, 2, 3] (by decide!) (by decide!)⟩

/-- C2: for a symmetric matrix the tested quantity is the determinant, the solver returns `null`
exactly when its magnitude is below 1e-7, and returns a vector exactly otherwise. -/
theorem solveSymmetric33_null_iff (A : Fin 9 → ℚ) (b : Fin 3 → ℚ) (hsym : IsSymmetric33 A) :
    symDet A = det33 A ∧
    (_solveSymmetric33 A b = none ↔ |det33 A| < 1 / 10000000) ∧
    ((_solveSymmetric33 A b).isSome = true ↔ 1 / 10000000 ≤ |det33 A|) := by
  obtain ⟨h13, h26, h57⟩ := hsym
  have hd : symDet A = det33 A := by
    simp only [symDet, det33, ← h13, ← h26, ← h57]; ring
  refine ⟨hd, ?_, ?_⟩
  · rw [← hd]
    by_cases h : |symDet A| < 1 / 10000000
    · simp [_solveSymmetric33, h]
    · simp only [_solveSymmetric33, if_neg h, h]
      simp
  · rw [← hd]
    by_cases h : |symDet A| < 1 / 10000000
    · simp only [_solveSymmetric33, if_pos h]
      simpa using h
    · simp only [_solveSymmetric33, if_neg h]
      simpa using not_lt.mp h

/-- C2 at the all-zero matrix: it is symmetric and the solver returns `null`. -/
theorem solveSymmetric33_null_iff_witness :
    IsSymmetric33 ![0, 0, 0, 0, 0, 0, 0, 0, 0] ∧
    _solveSymmetric33 ![0, 0, 0, 0, 0, 0, 0, 0, 0] ![1, 2, 3] = none :=
  ⟨by decide!,
    (solveSymmetric33_null_iff ![0, 0, 0, 0, 0, 0, 0, 0, 0] ![1, 2, 3] (by decide!)).2.1.mpr
      (by decide!)⟩

/-- C3: for pairwise distinct abscissae the fit is returned and passes through the three
points. -/
theorem quadratic3Points_interpolates (x0 y0 x1 y1 x2 y2 : ℚ)
    (h01 : x0 ≠ x1) (h02 : x0 ≠ x2) (h12 : x1 ≠ x2) :
    ∃ q, _quadratic3Points (x0, y0) (x1, y1) (x2, y2) = some q ∧
      q.A * x0 ^ 2 + q.B * x0 + q.C = y0 ∧
      q.A * x1 ^ 2 + q.B * x1 + q.C = y1 ∧
      q.A * x2 ^ 2 + q.B * x2 + q.C = y2 := by
  have e01 : x0 - x1 ≠ 0 := sub_ne_zero.mpr h01
  have e20 : x2 - x0 ≠ 0 := sub_ne_zero.mpr (Ne.symm h02)
  have e21 : x2 - x1 ≠ 0 := sub_ne_zero.mpr (Ne.symm h12)
  have hcond : ¬ ((x2 - x1) * (x2 - x0) = 0 ∨ (x0 - x1) * (x2 - x0) = 0 ∨ x0 - x1 = 0) := by
    simp [e01, e20, e21]
  refine ⟨_, if_neg hcond, ?_, ?_, ?_⟩
  · simp only []
    field_simp
    ring
  · simp only []
    field_simp
    ring
  · simp only []
    field_simp
    ring

/-- C3 at the points of `y = 2x^2 + 3x + 1` for `x = -1, 0, 1`: the fit is `A = 2, B = 3,
C = 1`. -/
theorem quadratic3Points_interpolates_witness :
    _quadratic3Points (-1, 0) (0, 1) (1, 6) = some ⟨2, 3, 1⟩ ∧
    ∃ q, _quadratic3Points (-1, 0) (0, 1) (1, 6) = some q ∧
      q.A * (-1) ^ 2 + q.B * (-1) + q.C = 0 ∧
      q.A * 0 ^ 2 + q.B * 0 + q.C = 1 ∧
      q.A * 1 ^ 2 + q.B * 1 + q.C = 6 :=
  ⟨by decide!,
    quadratic3Points_interpolates (-1) 0 0 1 1 6 (by decide!) (by decide!) (by decide!)⟩

/-- In exact arithmetic the fit is `null` exactly when one of the three denominators
vanishes, which is exactly when the abscissae are not pairwise distinct; it returns
coefficients exactly when they are pairwise distinct. -/
theorem quadratic3Points_null_exact (p1 p2 p3 : ℚ × ℚ) :
    (_quadratic3Points p1 p2 p3 = none ↔
      ((p3.1 - p2.1) * (p3.1 - p1.1) = 0 ∨ (p1.1 - p2.1) * (p3.1 - p1.1) = 0 ∨
        p1.1 - p2.1 = 0)) ∧
    (((p3.1 - p2.1) * (p3.1 - p1.1) = 0 ∨ (p1.1 - p2.1) * (p3.1 - p1.1) = 0 ∨
        p1.1 - p2.1 = 0) ↔ ¬ (p1.1 ≠ p2.1 ∧ p1.1 ≠ p3.1 ∧ p2.1 ≠ p3.1)) ∧
    ((_quadratic3Points p1 p2 p3).isSome = true ↔
      (p1.1 ≠ p2.1 ∧ p1.1 ≠ p3.1 ∧ p2.1 ≠ p3.1)) := by
  have key : ((p3.1 - p2.1) * (p3.1 - p1.1) = 0 ∨ (p1.1 - p2.1) * (p3.1 - p1.1) = 0 ∨
        p1.1 - p2.1 = 0) ↔ ¬ (p1.1 ≠ p2.1 ∧ p1.1 ≠ p3.1 ∧ p2.1 ≠ p3.1) := by
    simp only [mul_eq_zero, sub_eq_zero]
    constructor
    · rintro (h | h | h) ⟨h1, h2, h3⟩
      · rcases h with h | h
        · exact h3 h.symm
        · exact h2 h.symm
      · rcases h with h | h
        · exact h1 h
        · exact h2 h.symm
      · exact h1 h
    · intro h
      by_contra hc
      push_neg at hc
      exact h ⟨hc.2.2, fun e => hc.1.2 e.symm, fun e => hc.1.1 e.symm⟩
  by_cases h : ((p3.1 - p2.1) * (p3.1 - p1.1) = 0 ∨ (p1.1 - p2.1) * (p3.1 - p1.1) = 0 ∨
        p1.1 - p2.1 = 0)
  · have e : _quadratic3Points p1 p2 p3 = none := if_pos h
    refine ⟨?_, key, ?_⟩
    · simp only [e, h]
    · have hn := key.mp h
      rw [e]
      simpa using hn
  · obtain ⟨q, e⟩ : ∃ q, _quadratic3Points p1 p2 p3 = some q := ⟨_, if_neg h⟩
    refine ⟨?_, key, ?_⟩
    · simp only [e, h]
      simp
    · have hn : (p1.1 ≠ p2.1 ∧ p1.1 ≠ p3.1 ∧ p2.1 ≠ p3.1) := by
        by_contra hc
        exact h (key.mpr hc)
      rw [e]
      simpa using hn

/-- Over binary64 values the fit is `null` exactly when one of the three computed
denominators compares equal to zero. -/
theorem dbl_quadratic3Points_null (q1 q2 q3 : Dbl.F64 × Dbl.F64) :
    Dbl._quadratic3Points q1 q2 q3 = none ↔
      (Dbl.F64.eq ((q3.1 - q2.1) * (q3.1 - q1.1)) 0 = true ∨
        Dbl.F64.eq ((q1.1 - q2.1) * (q3.1 - q1.1)) 0 = true ∨
        Dbl.F64.eq (q1.1 - q2.1) 0 = true) := by
  unfold Dbl._quadratic3Points
  simp only []
  split_ifs with h
  · exact ⟨fun _ => h, fun _ => rfl⟩
  · exact ⟨fun e => absurd e (by simp), fun e => absurd e h⟩

/-- C4 (amended): `_quadratic3Points` returns `null` exactly when one of the three computed
denominators is zero, in exact arithmetic and over binary64 values alike.  In exact
arithmetic a denominator is zero exactly when the abscissae are not pairwise distinct, and
coefficients are returned exactly when they are pairwise distinct. -/
theorem quadratic3Points_null_iff (p1 p2 p3 : ℚ × ℚ) :
    (_quadratic3Points p1 p2 p3 = none ↔
      ((p3.1 - p2.1) * (p3.1 - p1.1) = 0 ∨ (p1.1 - p2.1) * (p3.1 - p1.1) = 0 ∨
        p1.1 - p2.1 = 0)) ∧
    (((p3.1 - p2.1) * (p3.1 - p1.1) = 0 ∨ (p1.1 - p2.1) * (p3.1 - p1.1) = 0 ∨
        p1.1 - p2.1 = 0) ↔ ¬ (p1.1 ≠ p2.1 ∧ p1.1 ≠ p3.1 ∧ p2.1 ≠ p3.1)) ∧
    ((_quadratic3Points p1 p2 p3).isSome = true ↔
      (p1.1 ≠ p2.1 ∧ p1.1 ≠ p3.1 ∧ p2.1 ≠ p3.1)) ∧
    ∀ q1 q2 q3 : Dbl.F64 × Dbl.F64,
      (Dbl._quadratic3Points q1 q2 q3 = none ↔
        (Dbl.F64.eq ((q3.1 - q2.1) * (q3.1 - q1.1)) 0 = true ∨
          Dbl.F64.eq ((q1.1 - q2.1) * (q3.1 - q1.1)) 0 = true ∨
          Dbl.F64.eq (q1.1 - q2.1) 0 = true)) :=
  ⟨(quadratic3Points_null_exact p1 p2 p3).1, (quadratic3Points_null_exact p1 p2 p3).2.1,
    (quadratic3Points_null_exact p1 p2 p3).2.2, dbl_quadratic3Points_null⟩

/-! ### Pruner: the bucket table -/

theorem bucketTable_length (dx dy : ℤ) (acc : List FeaturePoint) :
    (bucketTable dx dy acc).length =
      PRUNE_FEATURES_NUM_BUCKETS * PRUNE_FEATURES_NUM_BUCKETS := by
  simp only [bucketTable, List.length_map, List.length_range]

theorem bucketTable_getElem? (dx dy : ℤ) (acc : List FeaturePoint) (k : ℕ)
    (hk : k < PRUNE_FEATURES_NUM_BUCKETS * PRUNE_FEATURES_NUM_BUCKETS) :
    (bucketTable dx dy acc)[k]? = some (bucketOf dx dy acc k) := by
  simp only [bucketTable, List.getElem?_map, List.getElem?_range hk, Option.map_some']

theorem bucketTable_nil (dx dy : ℤ) :
    bucketTable dx dy [] =
      List.replicate (PRUNE_FEATURES_NUM_BUCKETS * PRUNE_FEATURES_NUM_BUCKETS) [] := by
  apply List.ext_getElem?
  intro n
  by_cases h : n < PRUNE_FEATURES_NUM_BUCKETS * PRUNE_FEATURES_NUM_BUCKETS
  · rw [bucketTable_getElem? dx dy [] n h, List.getElem?_replicate, if_pos h]
    simp only [bucketOf, List.filter_nil]
  · rw [List.getElem?_eq_none (by rw [bucketTable_length]; exact not_lt.mp h),
      List.getElem?_replicate, if_neg h]

theorem pushBucket_table (dx dy : ℤ) (acc : List FeaturePoint) (p : FeaturePoint)
    (hdx : dx ≠ 0) (hdy : dy ≠ 0) (h0 : 0 ≤ bucketIndexOf dx dy p)
    (h1 : bucketIndexOf dx dy p <
      ((PRUNE_FEATURES_NUM_BUCKETS * PRUNE_FEATURES_NUM_BUCKETS : ℕ) : ℤ)) :
    pushBucket dx dy (bucketTable dx dy acc) p = some (bucketTable dx dy (acc ++ [p])) := by
  have hlt : (bucketIndexOf dx dy p).toNat <
      PRUNE_FEATURES_NUM_BUCKETS * PRUNE_FEATURES_NUM_BUCKETS := by
    have := Int.toNat_of_nonneg h0
    omega
  have hcast : (((bucketIndexOf dx dy p).toNat : ℕ) : ℤ) = bucketIndexOf dx dy p :=
    Int.toNat_of_nonneg h0
  have hcond : ¬ (dx = 0 ∨ dy = 0) := by simp [hdx, hdy]
  simp only [pushBucket, if_neg hcond, if_neg (not_lt.mpr h0),
    bucketTable_getElem? dx dy acc _ hlt]
  congr 1
  apply List.ext_getElem?
  intro n
  rw [List.getElem?_set]
  by_cases hn : n < PRUNE_FEATURES_NUM_BUCKETS * PRUNE_FEATURES_NUM_BUCKETS
  · rw [bucketTable_getElem? dx dy (acc ++ [p]) n hn]
    by_cases he : (bucketIndexOf dx dy p).toNat = n
    · have hlen : (bucketIndexOf dx dy p).toNat < (bucketTable dx dy acc).length := by
        rw [bucketTable_length]; exact hlt
      rw [if_pos he, if_pos hlen]
      subst he
      simp [bucketOf, List.filter_append, hcast]
    · rw [if_neg he, bucketTable_getElem? dx dy acc n hn]
      have hne : ¬ bucketIndexOf dx dy p = (n : ℤ) := by
        intro h
        apply he
        rw [h]
        simp
      simp [bucketOf, List.filter_append, hne]
  · have hlen1 : (bucketTable dx dy acc).length ≤ n := by
      rw [bucketTable_length]; exact not_lt.mp hn
    have hlen2 : (bucketTable dx dy (acc ++ [p])).length ≤ n := by
      rw [bucketTable_length]; exact not_lt.mp hn
    rw [List.getElem?_eq_none hlen2, List.getElem?_eq_none hlen1]
    have hne : ¬ (bucketIndexOf dx dy p).toNat = n := by omega
    simp [hne]

theorem fillBuckets_table (dx dy : ℤ) (hdx : dx ≠ 0) (hdy : dy ≠ 0) :
    ∀ (l acc : List FeaturePoint),
      (∀ p ∈ l, 0 ≤ bucketIndexOf dx dy p ∧ bucketIndexOf dx dy p <
        ((PRUNE_FEATURES_NUM_BUCKETS * PRUNE_FEATURES_NUM_BUCKETS : ℕ) : ℤ)) →
      fillBuckets dx dy l (bucketTable dx dy acc) = some (bucketTable dx dy (acc ++ l))
  | [], acc, _ => by simp [fillBuckets]
  | p :: rest, acc, h => by
    have hp := h p (List.mem_cons_self _ _)
    rw [fillBuckets, pushBucket_table dx dy acc p hdx hdy hp.1 hp.2]
    simp only []
    rw [fillBuckets_table dx dy hdx hdy rest (acc ++ [p])
      (fun q hq => h q (List.mem_cons_of_mem _ hq))]
    simp

theorem collectBuckets_table (S : BucketSort) (n : ℕ) (dx dy : ℤ) (l : List FeaturePoint) :
    collectBuckets S n (bucketTable dx dy l) =
      visitOrder.flatMap fun k => selectBucket S n (bucketOf dx dy l k) := by
  unfold collectBuckets visitOrder
  rw [List.flatMap_assoc]
  apply List.flatMap_congr
  intro i hi
  rw [List.flatMap_map]
  apply List.flatMap_congr
  intro j hj
  have hi1 : i < 10 := by simpa [PRUNE_FEATURES_NUM_BUCKETS] using hi
  have hj1 : j < 10 := by simpa [PRUNE_FEATURES_NUM_BUCKETS] using hj
  have hk : j * PRUNE_FEATURES_NUM_BUCKETS + i <
      PRUNE_FEATURES_NUM_BUCKETS * PRUNE_FEATURES_NUM_BUCKETS := by
    simp only [PRUNE_FEATURES_NUM_BUCKETS]; omega
  rw [bucketTable_getElem? dx dy l _ hk]
  rfl

/-- Bucket coordinates of an in-range coordinate: `0 ≤ floor(x / ceil(w/10)) ≤ 9`. -/
theorem bucket_coord_bounds (w x : ℚ) (hw : 0 < w) (h0 : 0 ≤ x) (h1 : x < w) :
    0 < bucketSize w ∧ 0 ≤ ⌊x / (bucketSize w : ℤ)⌋ ∧ ⌊x / (bucketSize w : ℤ)⌋ < 10 := by
  have hwq : (0 : ℚ) < w := by exact_mod_cast hw
  have hpos : (0 : ℚ) < (1 * (w : ℚ)) / PRUNE_FEATURES_NUM_BUCKETS := by
    simp only [PRUNE_FEATURES_NUM_BUCKETS]; positivity
  have hc : 0 < bucketSize w := Int.ceil_pos.mpr hpos
  have hcq : (0 : ℚ) < (bucketSize w : ℤ) := by exact_mod_cast hc
  have hle : (1 * (w : ℚ)) / PRUNE_FEATURES_NUM_BUCKETS ≤ (bucketSize w : ℤ) :=
    Int.le_ceil ((1 * (w : ℚ)) / PRUNE_FEATURES_NUM_BUCKETS)
  refine ⟨hc, Int.floor_nonneg.mpr (div_nonneg h0 hcq.le), ?_⟩
  rw [Int.floor_lt, div_lt_iff₀ hcq]
  simp only [PRUNE_FEATURES_NUM_BUCKETS] at hle
  push_cast at hle ⊢
  linarith

theorem inBounds_bucket (w h : ℚ) (p : FeaturePoint) (hw : 0 < w) (hh : 0 < h)
    (hp : InBounds w h p) :
    0 ≤ bucketXOf (bucketSize w) p ∧ bucketXOf (bucketSize w) p < 10 ∧
    0 ≤ bucketYOf (bucketSize h) p ∧ bucketYOf (bucketSize h) p < 10 := by
  obtain ⟨hx0, hx1, hy0, hy1⟩ := hp
  have hx := bucket_coord_bounds w p.x hw hx0 hx1
  have hy := bucket_coord_bounds h p.y hh hy0 hy1
  exact ⟨hx.2.1, hx.2.2, hy.2.1, hy.2.2⟩

theorem inBounds_bucketIndex (w h : ℚ) (p : FeaturePoint) (hw : 0 < w) (hh : 0 < h)
    (hp : InBounds w h p) :
    0 ≤ bucketIndexOf (bucketSize w) (bucketSize h) p ∧
    bucketIndexOf (bucketSize w) (bucketSize h) p <
      ((PRUNE_FEATURES_NUM_BUCKETS * PRUNE_FEATURES_NUM_BUCKETS : ℕ) : ℤ) := by
  obtain ⟨a, b, c, d⟩ := inBounds_bucket w h p hw hh hp
  simp only [bucketIndexOf, PRUNE_FEATURES_NUM_BUCKETS]
  push_cast
  constructor <;> omega

/-! ### Pruner: what one bucket contributes -/

theorem selectBucket_length (S : BucketSort) (n : ℕ) (b : List FeaturePoint) :
    (selectBucket S n b).length = min b.length n := by
  unfold selectBucket
  simp only [List.length_take]
  split
  · rw [(S.perm b).length_eq]; omega
  · omega

theorem selectBucket_of_le (S : BucketSort) (n : ℕ) (b : List FeaturePoint)
    (h : b.length ≤ n) : selectBucket S n b = b := by
  unfold selectBucket
  have hm : min b.length n = b.length := min_eq_left h
  simp only [hm, gt_iff_lt, lt_irrefl, if_false, List.take_length]

theorem selectBucket_of_gt (S : BucketSort) (n : ℕ) (b : List FeaturePoint)
    (h : n < b.length) : selectBucket S n b = (S.sort b).take n := by
  unfold selectBucket
  have hm : min b.length n = n := min_eq_right h.le
  simp only [hm, gt_iff_lt, h, if_true]

theorem selectBucket_subperm (S : BucketSort) (n : ℕ) (b : List FeaturePoint) :
    (selectBucket S n b).Subperm b := by
  rcases le_or_lt b.length n with h | h
  · rw [selectBucket_of_le S n b h]
  · rw [selectBucket_of_gt S n b h]
    exact (List.take_sublist n _).subperm.trans (S.perm b).subperm

theorem selectBucket_mem (S : BucketSort) (n : ℕ) (b : List FeaturePoint) (p : FeaturePoint)
    (hp : p ∈ selectBucket S n b) : p ∈ b :=
  (selectBucket_subperm S n b).subset hp

theorem selectBucket_bucketOf_index (S : BucketSort) (n : ℕ) (dx dy : ℤ)
    (l : List FeaturePoint) (k : ℕ) (p : FeaturePoint)
    (hp : p ∈ selectBucket S n (bucketOf dx dy l k)) :
    p ∈ l ∧ bucketIndexOf dx dy p = (k : ℤ) := by
  have := selectBucket_mem S n _ p hp
  simpa [bucketOf, List.mem_filter] using this

/-! ### Pruner: the output, bucket by bucket -/

theorem bucketOf_flatMap (dx dy : ℤ) (g : ℕ → List FeaturePoint)
    (hg : ∀ k, ∀ p ∈ g k, bucketIndexOf dx dy p = (k : ℤ)) (k0 : ℕ) :
    ∀ ks : List ℕ, ks.Nodup →
      bucketOf dx dy (ks.flatMap g) k0 = if k0 ∈ ks then g k0 else []
  | [], _ => by simp [bucketOf]
  | k :: ks, hnd => by
    have hnd1 := List.nodup_cons.mp hnd
    have ih := bucketOf_flatMap dx dy g hg k0 ks hnd1.2
    have happ : bucketOf dx dy ((k :: ks).flatMap g) k0 =
        bucketOf dx dy (g k) k0 ++ bucketOf dx dy (ks.flatMap g) k0 := by
      simp only [bucketOf, List.flatMap_cons, List.filter_append]
    rw [happ, ih]
    by_cases hk : k0 = k
    · subst hk
      have h1 : bucketOf dx dy (g k0) k0 = g k0 := by
        unfold bucketOf
        rw [List.filter_eq_self]
        intro a ha
        simpa using hg k0 a ha
      rw [h1, if_neg hnd1.1]
      simp
    · have h1 : bucketOf dx dy (g k) k0 = [] := by
        unfold bucketOf
        rw [List.filter_eq_nil_iff]
        intro a ha
        have := hg k a ha
        simp only [decide_eq_true_eq, this]
        intro hc
        exact hk (by exact_mod_cast hc.symm)
      rw [h1, List.nil_append]
      have hmem : k0 ∈ k :: ks ↔ k0 ∈ ks := by simp [hk]
      simp only [hmem]

theorem visitOrder_nodup : visitOrder.Nodup := by decide

theorem visitOrder_length : visitOrder.length = 100 := by decide

theorem mem_visitOrder (k : ℕ) (hk : k < 100) : k ∈ visitOrder := by
  revert k
  decide

theorem visitOrder_sorted :
    visitOrder.Pairwise (fun a b => a % 10 < b % 10 ∨ (a % 10 = b % 10 ∧ a / 10 < b / 10)) := by
  decide

/-- The trimming branch of `_pruneFeatures`: the output is the concatenation, in visiting
order, of what each bucket contributes. -/
theorem pruneFeatures_trim (S : BucketSort) (fps : List FeaturePoint) (w h : ℚ)
    (hw : 0 < w) (hh : 0 < h) (hb : ∀ p ∈ fps, InBounds w h p)
    (hlen : MAX_FEATURE_POINTS < fps.length) :
    _pruneFeatures S fps w h = some (visitOrder.flatMap fun k =>
      selectBucket S 5 (bucketOf (bucketSize w) (bucketSize h) fps k)) := by
  have hdx : bucketSize w ≠ 0 := by
    have : (0 : ℚ) < (1 * (w : ℚ)) / PRUNE_FEATURES_NUM_BUCKETS := by
      have hwq : (0 : ℚ) < w := by exact_mod_cast hw
      simp only [PRUNE_FEATURES_NUM_BUCKETS]; positivity
    exact (Int.ceil_pos.mpr this).ne'
  have hdy : bucketSize h ≠ 0 := by
    have : (0 : ℚ) < (1 * (h : ℚ)) / PRUNE_FEATURES_NUM_BUCKETS := by
      have hwq : (0 : ℚ) < h := by exact_mod_cast hh
      simp only [PRUNE_FEATURES_NUM_BUCKETS]; positivity
    exact (Int.ceil_pos.mpr this).ne'
  have hfill := fillBuckets_table (bucketSize w) (bucketSize h) hdx hdy fps []
    (fun p hp => inBounds_bucketIndex w h p hw hh (hb p hp))
  rw [bucketTable_nil, List.nil_append] at hfill
  unfold _pruneFeatures
  rw [if_neg (not_le.mpr hlen)]
  simp only [hfill]
  rw [collectBuckets_table]
  rfl

theorem bucketOf_eq_nil_of_inBounds (fps : List FeaturePoint) (w h : ℚ) (hw : 0 < w)
    (hh : 0 < h) (hb : ∀ p ∈ fps, InBounds w h p) (k : ℕ) (hk : ¬ k < 100) :
    bucketOf (bucketSize w) (bucketSize h) fps k = [] := by
  unfold bucketOf
  rw [List.filter_eq_nil_iff]
  intro p hp
  have := (inBounds_bucketIndex w h p hw hh (hb p hp)).2
  simp only [PRUNE_FEATURES_NUM_BUCKETS] at this
  simp only [decide_eq_true_eq]
  omega

theorem count_bucketOf (dx dy : ℤ) (l : List FeaturePoint) (k : ℕ) (p : FeaturePoint)
    (hidx : bucketIndexOf dx dy p = (k : ℤ)) : (bucketOf dx dy l k).count p = l.count p := by
  unfold bucketOf
  exact List.count_filter (p := fun q : FeaturePoint => decide (bucketIndexOf dx dy q = (k : ℤ)))
    (by simpa using hidx)

/-- In the trimming branch the points of the output that lie in bucket `k` are exactly what
bucket `k` contributes. -/
theorem bucketOf_trim (S : BucketSort) (fps : List FeaturePoint) (w h : ℚ)
    (hw : 0 < w) (hh : 0 < h) (hb : ∀ p ∈ fps, InBounds w h p) (k : ℕ) :
    bucketOf (bucketSize w) (bucketSize h)
        (visitOrder.flatMap fun k =>
          selectBucket S 5 (bucketOf (bucketSize w) (bucketSize h) fps k)) k =
      selectBucket S 5 (bucketOf (bucketSize w) (bucketSize h) fps k) := by
  rw [bucketOf_flatMap (bucketSize w) (bucketSize h) _
    (fun k p hp => (selectBucket_bucketOf_index S 5 _ _ fps k p hp).2) k visitOrder
    visitOrder_nodup]
  by_cases hk : k < 100
  · rw [if_pos (mem_visitOrder k hk)]
  · rw [bucketOf_eq_nil_of_inBounds fps w h hw hh hb k hk]
    simp [selectBucket]

theorem bucket_coords_of_index (w h : ℚ) (p : FeaturePoint) (hw : 0 < w) (hh : 0 < h)
    (hp : InBounds w h p) (k : ℕ)
    (hk : bucketIndexOf (bucketSize w) (bucketSize h) p = (k : ℤ)) :
    bucketXOf (bucketSize w) p = ((k % 10 : ℕ) : ℤ) ∧
    bucketYOf (bucketSize h) p = ((k / 10 : ℕ) : ℤ) := by
  obtain ⟨a, b, c, d⟩ := inBounds_bucket w h p hw hh hp
  simp only [bucketIndexOf, PRUNE_FEATURES_NUM_BUCKETS] at hk
  push_cast at hk ⊢
  constructor <;> omega

theorem visitOrder_flatMap (g : ℕ → List FeaturePoint) :
    visitOrder.flatMap g =
      (List.range 10).flatMap fun bx => (List.range 10).flatMap fun by_ => g (by_ * 10 + bx) := by
  unfold visitOrder
  rw [List.flatMap_assoc]
  simp only [List.flatMap_map, PRUNE_FEATURES_NUM_BUCKETS]

/-- In the trimming branch no point of the output stands before a point whose bucket precedes
its own in x-major order. -/
theorem trim_pairwise (S : BucketSort) (fps : List FeaturePoint) (w h : ℚ)
    (hw : 0 < w) (hh : 0 < h) (hb : ∀ p ∈ fps, InBounds w h p) :
    (visitOrder.flatMap fun k =>
      selectBucket S 5 (bucketOf (bucketSize w) (bucketSize h) fps k)).Pairwise
      (fun p q => ¬ colMajorBefore (bucketSize w) (bucketSize h) q p) := by
  have hcoord : ∀ k p, p ∈ selectBucket S 5 (bucketOf (bucketSize w) (bucketSize h) fps k) →
      bucketXOf (bucketSize w) p = ((k % 10 : ℕ) : ℤ) ∧
      bucketYOf (bucketSize h) p = ((k / 10 : ℕ) : ℤ) := by
    intro k p hp
    obtain ⟨hmem, hidx⟩ := selectBucket_bucketOf_index S 5 _ _ fps k p hp
    exact bucket_coords_of_index w h p hw hh (hb p hmem) k hidx
  rw [List.pairwise_flatMap]
  constructor
  · intro k _
    apply List.pairwise_of_forall_mem_list
    intro p hp q hq
    obtain ⟨hpx, hpy⟩ := hcoord k p hp
    obtain ⟨hqx, hqy⟩ := hcoord k q hq
    simp only [colMajorBefore, hpx, hpy, hqx, hqy]
    omega
  · refine visitOrder_sorted.imp ?_
    intro a b hab p hp q hq
    obtain ⟨hpx, hpy⟩ := hcoord a p hp
    obtain ⟨hqx, hqy⟩ := hcoord b q hq
    simp only [colMajorBefore, hpx, hpy, hqx, hqy]
    omega

/-! ### Pruner: the claims -/

/-- C5: on in-bounds candidates the pruner returns a list of at most 500 points, and when it
trims (more than 500 candidates) each bucket contributes at most 5 points. -/
theorem pruneFeatures_cap (S : BucketSort) (fps : List FeaturePoint) (w h : ℚ)
    (hw : 0 < w) (hh : 0 < h) (hb : ∀ p ∈ fps, InBounds w h p) :
    ∃ out, _pruneFeatures S fps w h = some out ∧ out.length ≤ 500 ∧
      (500 < fps.length →
        ∀ k : ℕ, (bucketOf (bucketSize w) (bucketSize h) out k).length ≤ 5) := by
  by_cases hlen : fps.length ≤ MAX_FEATURE_POINTS
  · refine ⟨fps, if_pos hlen, hlen, fun hc => ?_⟩
    simp only [MAX_FEATURE_POINTS] at hlen
    omega
  · have hlen1 : MAX_FEATURE_POINTS < fps.length := not_le.mp hlen
    refine ⟨_, pruneFeatures_trim S fps w h hw hh hb hlen1, ?_, fun _ k => ?_⟩
    · rw [List.length_flatMap]
      have hsum := List.sum_le_card_nsmul
        (List.map (List.length ∘ fun k =>
          selectBucket S 5 (bucketOf (bucketSize w) (bucketSize h) fps k)) visitOrder) 5
        (by
          intro x hx
          obtain ⟨k, _, rfl⟩ := List.mem_map.mp hx
          simp only [Function.comp, selectBucket_length]
          exact min_le_right _ _)
      rw [List.length_map, visitOrder_length] at hsum
      simpa using hsum
    · rw [bucketOf_trim S fps w h hw hh hb k, selectBucket_length]
      exact min_le_right _ _

/-- C5 at 501 copies of one point of a 10x10 image: the hypotheses hold and at most 500 points
come back. -/
theorem pruneFeatures_cap_witness :
    (∀ p ∈ List.replicate 501 (pointAt 0 0 3), InBounds 10 10 p) ∧
    ∃ out, _pruneFeatures insertionBucketSort (List.replicate 501 (pointAt 0 0 3)) 10 10
        = some out ∧ out.length ≤ 500 ∧
      (500 < (List.replicate 501 (pointAt 0 0 3)).length →
        ∀ k : ℕ, (bucketOf (bucketSize 10) (bucketSize 10) out k).length ≤ 5) :=
  ⟨fun p hp => by rw [List.eq_of_mem_replicate hp]; decide!,
    pruneFeatures_cap insertionBucketSort (List.replicate 501 (pointAt 0 0 3)) 10 10
      (by norm_num) (by norm_num)
      (fun p hp => by rw [List.eq_of_mem_replicate hp]; decide!)⟩

/-- C6: on in-bounds candidates the output of the pruner is a sub-multiset of its input, hence
never longer than the input. -/
theorem pruneFeatures_selects (S : BucketSort) (fps : List FeaturePoint) (w h : ℚ)
    (hw : 0 < w) (hh : 0 < h) (hb : ∀ p ∈ fps, InBounds w h p) :
    ∃ out, _pruneFeatures S fps w h = some out ∧ out.Subperm fps ∧
      (∀ p, out.count p ≤ fps.count p) ∧ out.length ≤ fps.length := by
  by_cases hlen : fps.length ≤ MAX_FEATURE_POINTS
  · exact ⟨fps, if_pos hlen, List.Subperm.refl fps, fun _ => le_rfl, le_rfl⟩
  · have hlen1 : MAX_FEATURE_POINTS < fps.length := not_le.mp hlen
    have hcount : ∀ p, (visitOrder.flatMap fun k =>
        selectBucket S 5 (bucketOf (bucketSize w) (bucketSize h) fps k)).count p
          ≤ fps.count p := by
      intro p
      by_cases hmem : p ∈ (visitOrder.flatMap fun k =>
          selectBucket S 5 (bucketOf (bucketSize w) (bucketSize h) fps k))
      · obtain ⟨k, _, hpk⟩ := List.mem_flatMap.mp hmem
        have hidx := (selectBucket_bucketOf_index S 5 _ _ fps k p hpk).2
        rw [← count_bucketOf (bucketSize w) (bucketSize h) _ k p hidx,
          ← count_bucketOf (bucketSize w) (bucketSize h) fps k p hidx,
          bucketOf_trim S fps w h hw hh hb k]
        exact (selectBucket_subperm S 5 _).count_le p
      · rw [List.count_eq_zero.mpr hmem]
        exact Nat.zero_le _
    have hsub : (visitOrder.flatMap fun k =>
        selectBucket S 5 (bucketOf (bucketSize w) (bucketSize h) fps k)).Subperm fps :=
      List.subperm_ext_iff.mpr (fun p _ => hcount p)
    exact ⟨_, pruneFeatures_trim S fps w h hw hh hb hlen1, hsub, hcount, hsub.length_le⟩

/-- C6 at 501 copies of one point of a 10x10 image. -/
theorem pruneFeatures_selects_witness :
    (∀ p ∈ List.replicate 501 (pointAt 5 5 4), InBounds 10 10 p) ∧
    ∃ out, _pruneFeatures insertionBucketSort (List.replicate 501 (pointAt 5 5 4)) 10 10
        = some out ∧ out.Subperm (List.replicate 501 (pointAt 5 5 4)) ∧
      (∀ p, out.count p ≤ (List.replicate 501 (pointAt 5 5 4)).count p) ∧
      out.length ≤ (List.replicate 501 (pointAt 5 5 4)).length :=
  ⟨fun p hp => by rw [List.eq_of_mem_replicate hp]; decide!,
    pruneFeatures_selects insertionBucketSort (List.replicate 501 (pointAt 5 5 4)) 10 10
      (by norm_num) (by norm_num)
      (fun p hp => by rw [List.eq_of_mem_replicate hp]; decide!)⟩

/-- C7, as stated, fails: with 499 points in bucket (0,0), one in bucket (1,0) and one in bucket
(0,1) of a 10x10 image, the point of bucket (0,1) comes out before the point of bucket (1,0),
although bucket (1,0) precedes bucket (0,1) in y-major order. -/
theorem pruneFeatures_rowMajor_counterexample :
    _pruneFeatures insertionBucketSort
        (List.replicate 499 (pointAt 0 0 3) ++ [pointAt 1 0 3, pointAt 0 1 3]) 10 10
      = some [pointAt 0 0 3, pointAt 0 0 3, pointAt 0 0 3, pointAt 0 0 3, pointAt 0 0 3,
          pointAt 0 1 3, pointAt 1 0 3] ∧
    ¬ BucketsOrdered (rowMajorBefore (bucketSize 10) (bucketSize 10))
        [pointAt 0 0 3, pointAt 0 0 3, pointAt 0 0 3, pointAt 0 0 3, pointAt 0 0 3,
          pointAt 0 1 3, pointAt 1 0 3] := by
  refine ⟨by decide!, fun hord => ?_⟩
  have := hord 6 5 (by decide) (by decide) (by decide!)
  omega

/-- C7, amended: when the pruner trims, the output is the concatenation of the per-bucket
results in x-major, y-minor bucket order: all kept points of bucket (bucketX, bucketY) come
before those of bucket (bucketX', bucketY') whenever bucketX < bucketX', or bucketX = bucketX'
and bucketY < bucketY'. -/
theorem pruneFeatures_bucket_order (S : BucketSort) (fps : List FeaturePoint) (w h : ℚ)
    (hw : 0 < w) (hh : 0 < h) (hb : ∀ p ∈ fps, InBounds w h p) (hlen : 500 < fps.length) :
    ∃ out, _pruneFeatures S fps w h = some out ∧
      out = ((List.range 10).flatMap fun bx => (List.range 10).flatMap fun by_ =>
        selectBucket S 5 (bucketOf (bucketSize w) (bucketSize h) fps (by_ * 10 + bx))) ∧
      BucketsOrdered (colMajorBefore (bucketSize w) (bucketSize h)) out := by
  refine ⟨_, pruneFeatures_trim S fps w h hw hh hb hlen, visitOrder_flatMap _, ?_⟩
  have hpw := trim_pairwise S fps w h hw hh hb
  rw [List.pairwise_iff_getElem] at hpw
  intro i j hi hj hbefore
  by_contra hij
  rcases Nat.lt_or_eq_of_le (not_lt.mp hij) with hlt | heq
  · exact hpw j i hj hi hlt hbefore
  · subst heq
    simp only [colMajorBefore] at hbefore
    omega

/-- C7, amended, at 499 points in bucket (0,0), one in bucket (1,0) and one in bucket (0,1). -/
theorem pruneFeatures_bucket_order_witness :
    (∀ p ∈ threeBuckets,
      InBounds 10 10 p) ∧
    500 < threeBuckets.length ∧
    ∃ out, _pruneFeatures insertionBucketSort
        threeBuckets 10 10 = some out ∧
      out = ((List.range 10).flatMap fun bx => (List.range 10).flatMap fun by_ =>
        selectBucket insertionBucketSort 5 (bucketOf (bucketSize 10) (bucketSize 10)
          threeBuckets
          (by_ * 10 + bx))) ∧
      BucketsOrdered (colMajorBefore (bucketSize 10) (bucketSize 10)) out :=
  ⟨by decide!, by decide!,
    pruneFeatures_bucket_order insertionBucketSort
      threeBuckets 10 10
      (by norm_num) (by norm_num) (by decide!) (by decide!)⟩

/-- C8: when the pruner trims, bucket `k` holding `n` points contributes exactly `min n 5` of
them; with `n ≤ 5` the bucket is kept whole in its original order, and with `n > 5` the kept
points and the dropped ones together are the bucket and no dropped point has a larger absolute
score than a kept one. -/
theorem pruneFeatures_bucket_best (S : BucketSort) (fps : List FeaturePoint) (w h : ℚ)
    (hw : 0 < w) (hh : 0 < h) (hb : ∀ p ∈ fps, InBounds w h p) (hlen : 500 < fps.length) :
    ∃ out, _pruneFeatures S fps w h = some out ∧ ∀ k : ℕ,
      (bucketOf (bucketSize w) (bucketSize h) out k).length =
        min (bucketOf (bucketSize w) (bucketSize h) fps k).length 5 ∧
      ((bucketOf (bucketSize w) (bucketSize h) fps k).length ≤ 5 →
        bucketOf (bucketSize w) (bucketSize h) out k =
          bucketOf (bucketSize w) (bucketSize h) fps k) ∧
      (5 < (bucketOf (bucketSize w) (bucketSize h) fps k).length →
        ∃ dropped,
          (bucketOf (bucketSize w) (bucketSize h) out k ++ dropped).Perm
            (bucketOf (bucketSize w) (bucketSize h) fps k) ∧
          ∀ p ∈ bucketOf (bucketSize w) (bucketSize h) out k, ∀ q ∈ dropped,
            |q.score| ≤ |p.score|) := by
  refine ⟨_, pruneFeatures_trim S fps w h hw hh hb hlen, fun k => ?_⟩
  rw [bucketOf_trim S fps w h hw hh hb k]
  refine ⟨selectBucket_length S 5 _, fun hle => selectBucket_of_le S 5 _ hle, fun hgt => ?_⟩
  rw [selectBucket_of_gt S 5 _ hgt]
  refine ⟨(S.sort (bucketOf (bucketSize w) (bucketSize h) fps k)).drop 5, ?_, ?_⟩
  · rw [List.take_append_drop]
    exact S.perm _
  · have hs := S.sorted (bucketOf (bucketSize w) (bucketSize h) fps k)
    rw [← List.take_append_drop 5 (S.sort (bucketOf (bucketSize w) (bucketSize h) fps k)),
      List.pairwise_append] at hs
    exact hs.2.2

/-- C8 at 501 points of one bucket with absolute scores 3, 4, ... -/
theorem pruneFeatures_bucket_best_witness :
    (∀ p ∈ scoredPoints, InBounds 10 10 p) ∧
    500 < scoredPoints.length ∧
    ∃ out, _pruneFeatures insertionBucketSort
        scoredPoints 10 10 = some out ∧ ∀ k : ℕ,
      (bucketOf (bucketSize 10) (bucketSize 10) out k).length =
        min (bucketOf (bucketSize 10) (bucketSize 10)
          scoredPoints k).length 5 ∧
      ((bucketOf (bucketSize 10) (bucketSize 10)
          scoredPoints k).length ≤ 5 →
        bucketOf (bucketSize 10) (bucketSize 10) out k =
          bucketOf (bucketSize 10) (bucketSize 10)
            scoredPoints k) ∧
      (5 < (bucketOf (bucketSize 10) (bucketSize 10)
          scoredPoints k).length →
        ∃ dropped,
          (bucketOf (bucketSize 10) (bucketSize 10) out k ++ dropped).Perm
            (bucketOf (bucketSize 10) (bucketSize 10)
              scoredPoints k) ∧
          ∀ p ∈ bucketOf (bucketSize 10) (bucketSize 10) out k, ∀ q ∈ dropped,
            |q.score| ≤ |p.score|) :=
  ⟨fun p hp => by
      obtain ⟨i, _, rfl⟩ := List.mem_map.mp hp
      simp [InBounds, pointAt],
    by simp [scoredPoints],
    pruneFeatures_bucket_best insertionBucketSort
      scoredPoints 10 10
      (by norm_num) (by norm_num)
      (fun p hp => by
        obtain ⟨i, _, rfl⟩ := List.mem_map.mp hp
        simp [InBounds, pointAt])
      (by simp [scoredPoints])⟩

/-! ### Orientation: peak refinement and angle reduction -/

/-- At a strict local maximum the quadratic through the bin and its two neighbours opens
downwards and its vertex lies less than half a bin away. -/
theorem quadratic_at_peak (i hp hi hn : ℚ) (h1 : hp < hi) (h2 : hn < hi) :
    ∃ q, _quadratic3Points (i - 1, hp) (i, hi) (i + 1, hn) = some q ∧ q.A < 0 ∧
      i - 1 / 2 < -q.B / (2 * q.A) ∧ -q.B / (2 * q.A) < i + 1 / 2 := by
  have hd1 : (i + 1 - i) * (i + 1 - (i - 1)) = 2 := by ring
  have hd2 : (i - 1 - i) * (i + 1 - (i - 1)) = -2 := by ring
  have hd3 : i - 1 - i = -1 := by ring
  have hcond : ¬ ((i + 1 - i) * (i + 1 - (i - 1)) = 0 ∨ (i - 1 - i) * (i + 1 - (i - 1)) = 0 ∨
      i - 1 - i = 0) := by
    rw [hd1, hd2, hd3]; norm_num
  have hD : 0 < 2 * hi - hp - hn := by linarith
  have hA : (hn - hi) / ((i + 1 - i) * (i + 1 - (i - 1)))
      - (hp - hi) / ((i - 1 - i) * (i + 1 - (i - 1))) = -(2 * hi - hp - hn) / 2 := by
    rw [hd1, hd2]; ring
  have hAneg : -(2 * hi - hp - hn) / 2 < 0 := by linarith
  have hAne : -(2 * hi - hp - hn) / 2 ≠ 0 := hAneg.ne
  have hDne : 2 * hi - hp - hn ≠ 0 := hD.ne'
  have hvertex : -((hp - hi + -(2 * hi - hp - hn) / 2 * (i * i - (i - 1) * (i - 1))) / (i - 1 - i))
      / (2 * (-(2 * hi - hp - hn) / 2)) = i - 1 / 2 + (hi - hp) / (2 * hi - hp - hn) := by
    have hB : (hp - hi + -(2 * hi - hp - hn) / 2 * (i * i - (i - 1) * (i - 1))) / (i - 1 - i)
        = -(hp - hi + -(2 * hi - hp - hn) / 2 * (2 * i - 1)) := by
      rw [hd3]; ring
    have h2A : 2 * (-(2 * hi - hp - hn) / 2) = -(2 * hi - hp - hn) := by ring
    rw [hB, h2A, neg_neg, div_neg, eq_comm, ← sub_eq_zero]
    field_simp
    ring
  have hfrac0 : 0 < (hi - hp) / (2 * hi - hp - hn) := div_pos (by linarith) hD
  have hfrac1 : (hi - hp) / (2 * hi - hp - hn) < 1 := by
    rw [div_lt_one hD]; linarith
  refine ⟨_, if_neg hcond, ?_, ?_, ?_⟩
  · simp only []
    rw [hA]; exact hAneg
  · simp only []
    rw [hA, hvertex]; linarith
  · simp only []
    rw [hA, hvertex]; linarith

theorem two_pi_pos : (0 : ℚ) < 2 * PI := by norm_num [PI]

/-- One turn of the reduction loop is enough for an angle in `(2π, 4π]`. -/
theorem reduceAngle_once (an : ℚ) (h1 : 2 * PI < an) (h2 : an ≤ 4 * PI) :
    reduceAngle an = an - 2 * PI := by
  rw [reduceAngle, if_pos h1, reduceAngle, if_neg (by linarith)]

/-- The angle of a bin refined to within half a bin of `i` lies strictly between `2πi/36`
and `2π(i+1)/36`. -/
theorem binAngle_range (i : ℕ) (hi : i < 36) (fbin : ℚ) (h1 : (i : ℚ) - 1 / 2 < fbin)
    (h2 : fbin < (i : ℚ) + 1 / 2) : 0 ≤ binAngle fbin ∧ binAngle fbin < 2 * PI := by
  have hpi := two_pi_pos
  have hi0 : (0 : ℚ) ≤ i := Nat.cast_nonneg i
  have hi1 : (i : ℚ) ≤ 35 := by exact_mod_cast Nat.le_of_lt_succ hi
  have hlow : 1 < (fbin + 1 / 2 + 36) / 36 := by
    rw [lt_div_iff₀ (by norm_num)]; linarith
  have hhigh : (fbin + 1 / 2 + 36) / 36 < 2 := by
    rw [div_lt_iff₀ (by norm_num)]; linarith
  have e1 : 2 * PI < 2 * PI * ((fbin + 1 / 2 + 36) / 36) := by
    have := mul_lt_mul_of_pos_left hlow hpi
    linarith
  have e2 : 2 * PI * ((fbin + 1 / 2 + 36) / 36) < 4 * PI := by
    have := mul_lt_mul_of_pos_left hhigh hpi
    linarith
  have hcast : ((ORIENTATION_NUM_BINS : ℕ) : ℚ) = 36 := by norm_num [ORIENTATION_NUM_BINS]
  unfold binAngle
  rw [hcast, reduceAngle_once _ e1 e2.le]
  constructor <;> linarith

/-- Every bin that passes the peak test is turned into an angle of `[0, 2π)`. -/
theorem peak_angle_range (histogram : List ℚ) (maxHeight : ℚ) (i : ℕ) (hi : i < 36)
    (hpeak : isPeak histogram maxHeight i = true) :
    0 ≤ binAngle (refinedBin histogram i) ∧ binAngle (refinedBin histogram i) < 2 * PI := by
  have hpeak1 : binValue histogram i > ORIENTATION_PEAK_THRESHOLD * maxHeight
      ∧ binValue histogram i >
        binValue histogram (((i : ℤ) - 1 + histogram.length).tmod histogram.length)
      ∧ binValue histogram i > binValue histogram (((i : ℤ) + 1).tmod histogram.length) :=
    of_decide_eq_true hpeak
  obtain ⟨_, hprev, hnext⟩ := hpeak1
  obtain ⟨q, hq, hA, hlo, hhi⟩ := quadratic_at_peak (i : ℚ)
    (binValue histogram (((i : ℤ) - 1 + histogram.length).tmod histogram.length))
    (binValue histogram i)
    (binValue histogram (((i : ℤ) + 1).tmod histogram.length)) hprev hnext
  have href : refinedBin histogram i = -q.B / (2 * q.A) := by
    unfold refinedBin
    simp only []
    rw [hq]
    exact if_pos hA.ne
  rw [href]
  exact binAngle_range i hi _ hlo hhi

/-! ### Orientation: a window without gradient -/

theorem mem_intRange (lo hi v : ℤ) (hv : v ∈ intRange lo hi) : lo ≤ v ∧ v ≤ hi := by
  simp only [intRange, List.mem_map, List.mem_range] at hv
  obtain ⟨k, hk, rfl⟩ := hv
  omega

theorem addAt_zero (histogram : List ℚ) (b : ℤ) : addAt histogram b 0 = histogram := by
  unfold addAt
  split
  · rfl
  · have hid : (fun t : ℚ => t + 0) = id := by funext t; simp
    rw [hid]
    apply List.ext_getElem?
    intro n
    rw [List.getElem?_modify]
    split <;> simp

theorem GradientField.at?_isSome (g : GradientField)
    (hdense : g.values.length = g.width * g.height) (xp yp : ℤ)
    (hx0 : 0 ≤ xp) (hx1 : xp < g.width) (hy0 : 0 ≤ yp) (hy1 : yp < g.height) :
    ∃ v, g.at? xp yp = some v := by
  have hidx0 : 0 ≤ yp * g.width + xp := by positivity
  have hw0 : (0 : ℤ) ≤ g.width := Int.natCast_nonneg _
  have hidx1 : yp * g.width + xp < (g.width : ℤ) * g.height := by
    have hle : yp * g.width ≤ ((g.height : ℤ) - 1) * g.width :=
      mul_le_mul_of_nonneg_right (by omega) hw0
    nlinarith
  have hlt : (yp * g.width + xp).toNat < g.values.length := by
    rw [hdense]
    have : ((yp * g.width + xp).toNat : ℤ) < ((g.width * g.height : ℕ) : ℤ) := by
      rw [Int.toNat_of_nonneg hidx0]; push_cast; exact hidx1
    exact_mod_cast this
  refine ⟨g.values[(yp * g.width + xp).toNat], ?_⟩
  unfold GradientField.at?
  rw [if_neg (not_lt.mpr hidx0)]
  exact List.getElem?_eq_getElem hlt

theorem accumulatePixel_zero (dbg : DebugEnv) (x y : ℤ) (sigma : ℚ) (g : GradientField)
    (histogram : List ℚ) (yp xp : ℤ) (htrace : dbg.hasTrace = true)
    (hdense : g.values.length = g.width * g.height)
    (hzero : ∀ xp yp : ℤ, (xp - x) * (xp - x) + (yp - y) * (yp - y) ≤ radius2Of sigma →
      ∀ v, g.at? xp yp = some v → v.mag = 0)
    (hx0 : 0 ≤ xp) (hx1 : xp < g.width) (hy0 : 0 ≤ yp) (hy1 : yp < g.height) :
    accumulatePixel dbg x y sigma g histogram yp xp = some histogram := by
  unfold accumulatePixel
  by_cases hr : (xp - x) * (xp - x) + (yp - y) * (yp - y) > radius2Of sigma
  · simp only [hr, if_true, htrace]
  · obtain ⟨v, hv⟩ := g.at?_isSome hdense xp yp hx0 hx1 hy0 hy1
    have hmag := hzero xp yp (not_lt.mp hr) v hv
    simp only [hr, if_false, hv, hmag, mul_zero, addAt_zero]

theorem accumulateRow_zero (dbg : DebugEnv) (x y : ℤ) (sigma : ℚ) (g : GradientField)
    (yp : ℤ) (htrace : dbg.hasTrace = true)
    (hdense : g.values.length = g.width * g.height)
    (hzero : ∀ xp yp : ℤ, (xp - x) * (xp - x) + (yp - y) * (yp - y) ≤ radius2Of sigma →
      ∀ v, g.at? xp yp = some v → v.mag = 0)
    (hy0 : 0 ≤ yp) (hy1 : yp < g.height) (histogram : List ℚ) :
    ∀ xs : List ℤ, (∀ xp ∈ xs, 0 ≤ xp ∧ xp < g.width) →
      accumulateRow dbg x y sigma g yp xs histogram = some histogram
  | [], _ => rfl
  | xp :: rest, hxs => by
    have hxp := hxs xp (List.mem_cons_self _ _)
    rw [accumulateRow, accumulatePixel_zero dbg x y sigma g histogram yp xp htrace hdense hzero
      hxp.1 hxp.2 hy0 hy1]
    exact accumulateRow_zero dbg x y sigma g yp htrace hdense hzero hy0 hy1 histogram rest
      (fun v hv => hxs v (List.mem_cons_of_mem _ hv))

theorem accumulateRows_zero (dbg : DebugEnv) (x y : ℤ) (sigma : ℚ) (g : GradientField)
    (htrace : dbg.hasTrace = true) (hdense : g.values.length = g.width * g.height)
    (hzero : ∀ xp yp : ℤ, (xp - x) * (xp - x) + (yp - y) * (yp - y) ≤ radius2Of sigma →
      ∀ v, g.at? xp yp = some v → v.mag = 0)
    (xs : List ℤ) (hxs : ∀ xp ∈ xs, 0 ≤ xp ∧ xp < g.width) (histogram : List ℚ) :
    ∀ ys : List ℤ, (∀ yp ∈ ys, 0 ≤ yp ∧ yp < g.height) →
      accumulateRows dbg x y sigma g xs ys histogram = some histogram
  | [], _ => rfl
  | yp :: rest, hys => by
    have hyp := hys yp (List.mem_cons_self _ _)
    rw [accumulateRows, accumulateRow_zero dbg x y sigma g yp htrace hdense hzero hyp.1 hyp.2
      histogram xs hxs]
    exact accumulateRows_zero dbg x y sigma g htrace hdense hzero xs hxs histogram rest
      (fun v hv => hys v (List.mem_cons_of_mem _ hv))

theorem orientationHistogram_zero (dbg : DebugEnv) (x y : ℤ) (sigma : ℚ) (g : GradientField)
    (htrace : dbg.hasTrace = true) (hdense : g.values.length = g.width * g.height)
    (hzero : ∀ xp yp : ℤ, (xp - x) * (xp - x) + (yp - y) * (yp - y) ≤ radius2Of sigma →
      ∀ v, g.at? xp yp = some v → v.mag = 0) :
    orientationHistogram dbg x y sigma g = some (List.replicate ORIENTATION_NUM_BINS 0) := by
  unfold orientationHistogram
  apply accumulateRows_zero dbg x y sigma g htrace hdense hzero
  · intro xp hxp
    have := mem_intRange _ _ _ hxp
    have h0 := le_max_left (0 : ℤ) (x - ⌊radiusOf sigma + 1 / 2⌋)
    have h1 := min_le_left ((g.width : ℤ) - 1) (x + ⌊radiusOf sigma + 1 / 2⌋)
    omega
  · intro yp hyp
    have := mem_intRange _ _ _ hyp
    have h0 := le_max_left (0 : ℤ) (y - ⌊radiusOf sigma + 1 / 2⌋)
    have h1 := min_le_left ((g.height : ℤ) - 1) (y + ⌊radiusOf sigma + 1 / 2⌋)
    omega

theorem smoothHistogram_zero :
    smoothHistogram (List.replicate ORIENTATION_NUM_BINS 0) =
      List.replicate ORIENTATION_NUM_BINS 0 := by
  decide!

theorem histogramMax_zero : histogramMax (List.replicate ORIENTATION_NUM_BINS 0) = 0 := by
  decide!

/-! ### Orientation: the histogram keeps its 36 bins -/

theorem addAt_length (histogram : List ℚ) (b : ℤ) (v : ℚ) :
    (addAt histogram b v).length = histogram.length := by
  unfold addAt
  split
  · rfl
  · exact List.length_modify _ _ _

theorem accumulatePixel_length (dbg : DebugEnv) (x y : ℤ) (sigma : ℚ) (g : GradientField)
    (histogram histogram1 : List ℚ) (yp xp : ℤ)
    (h : accumulatePixel dbg x y sigma g histogram yp xp = some histogram1) :
    histogram1.length = histogram.length := by
  unfold accumulatePixel at h
  simp only [] at h
  split at h
  · split at h
    · rw [← Option.some.inj h]
    · exact absurd h (by simp)
  · split at h
    · exact absurd h (by simp)
    · rw [← Option.some.inj h, addAt_length, addAt_length]

theorem accumulateRow_length (dbg : DebugEnv) (x y : ℤ) (sigma : ℚ) (g : GradientField)
    (yp : ℤ) : ∀ (xs : List ℤ) (histogram histogram1 : List ℚ),
      accumulateRow dbg x y sigma g yp xs histogram = some histogram1 →
      histogram1.length = histogram.length
  | [], histogram, histogram1, h => by
    rw [accumulateRow] at h
    rw [← Option.some.inj h]
  | xp :: rest, histogram, histogram1, h => by
    rw [accumulateRow] at h
    split at h
    · exact absurd h (by simp)
    · rename_i mid hmid
      rw [accumulateRow_length dbg x y sigma g yp rest mid histogram1 h,
        accumulatePixel_length dbg x y sigma g histogram mid yp xp hmid]

theorem accumulateRows_length (dbg : DebugEnv) (x y : ℤ) (sigma : ℚ) (g : GradientField)
    (xs : List ℤ) : ∀ (ys : List ℤ) (histogram histogram1 : List ℚ),
      accumulateRows dbg x y sigma g xs ys histogram = some histogram1 →
      histogram1.length = histogram.length
  | [], histogram, histogram1, h => by
    rw [accumulateRows] at h
    rw [← Option.some.inj h]
  | yp :: rest, histogram, histogram1, h => by
    rw [accumulateRows] at h
    split at h
    · exact absurd h (by simp)
    · rename_i mid hmid
      rw [accumulateRows_length dbg x y sigma g xs rest mid histogram1 h,
        accumulateRow_length dbg x y sigma g yp xs histogram mid hmid]

/-- The histogram built by the accumulation loops has exactly `ORIENTATION_NUM_BINS` entries:
no write extends the array. -/
theorem orientationHistogram_length (dbg : DebugEnv) (x y : ℤ) (sigma : ℚ) (g : GradientField)
    (histogram : List ℚ) (h : orientationHistogram dbg x y sigma g = some histogram) :
    histogram.length = ORIENTATION_NUM_BINS := by
  unfold orientationHistogram at h
  rw [accumulateRows_length dbg x y sigma g _ _ _ histogram h, List.length_replicate]

theorem smoothOnce_length (old : List ℚ) : (smoothOnce old).length = old.length := by
  simp only [smoothOnce, List.length_map, List.length_range]

/-- Smoothing keeps the number of bins, so every read `histogram[i]`, `histogram[prev]` and
`histogram[next]` of the peak search is inside the array. -/
theorem smoothHistogram_length (histogram : List ℚ) :
    (smoothHistogram histogram).length = histogram.length := by
  unfold smoothHistogram
  generalize ORIENTATION_SMOOTHING_ITERATIONS = n
  induction n generalizing histogram with
  | zero => rfl
  | succ n ih => rw [Function.iterate_succ_apply, ih, smoothOnce_length]

/-! ### Orientation: the claims -/

/-- The angle range in exact arithmetic: every angle `_computeOrientation` returns lies in
`[0, 2π)`, for every centre, every sigma and every gradient field (whatever its magnitudes and
angles are). -/
theorem computeOrientation_angle_range (dbg : DebugEnv) (x y : ℤ) (sigma : ℚ)
    (gradient : GradientField) (angles : List ℚ)
    (hret : _computeOrientation dbg x y sigma gradient = some angles) :
    ∀ a ∈ angles, 0 ≤ a ∧ a < 2 * PI := by
  intro a ha
  unfold _computeOrientation at hret
  split at hret
  · exact absurd hret (by simp)
  · split at hret
    · exact absurd hret (by simp)
    · rename_i histogram0 _
      simp only [] at hret
      split at hret
      · have : angles = [] := by simpa using hret.symm
        rw [this] at ha
        simp at ha
      · have hang : findPeaks (smoothHistogram histogram0)
            (histogramMax (smoothHistogram histogram0)) = angles := by simpa using hret
        rw [← hang] at ha
        simp only [findPeaks, List.mem_map, List.mem_filter, List.mem_range] at ha
        obtain ⟨i, ⟨hi, hpeak⟩, rfl⟩ := ha
        exact peak_angle_range _ _ i hi hpeak

/-- C10: when every pixel of the orientation window has magnitude 0 (dense field, the
diagnostic read being harmless), `_computeOrientation` returns the empty list, and the loop of
`detect` emits nothing for such a feature point and goes on. -/
theorem computeOrientation_empty (dbg : DebugEnv) (x y : ℤ) (sigma : ℚ) (g : GradientField)
    (htrace : dbg.hasTrace = true) (hdense : g.values.length = g.width * g.height)
    (hzero : ∀ xp yp : ℤ, (xp - x) * (xp - x) + (yp - y) * (yp - y) ≤ radius2Of sigma →
      ∀ v, g.at? xp yp = some v → v.mag = 0) :
    _computeOrientation dbg x y sigma g = some [] ∧
    ∀ (n : ℕ) (gradients : List GradientField) (fp : FeaturePoint) (rest : List FeaturePoint),
      gradients[fp.octave * n + fp.scale]? = some g → fp.octaveX = x → fp.octaveY = y →
      fp.sigma * (1 / 2 ^ fp.octave) = sigma →
      orientFeature dbg n gradients fp = some [] ∧
      orientFeatures dbg n gradients (fp :: rest) = orientFeatures dbg n gradients rest := by
  have hmain : _computeOrientation dbg x y sigma g = some [] := by
    unfold _computeOrientation
    have hdbg : (dbg.DEBUG && !dbg.hasTrace) = false := by simp [htrace]
    rw [hdbg, orientationHistogram_zero dbg x y sigma g htrace hdense hzero]
    simp only [smoothHistogram_zero, histogramMax_zero]
    simp
  refine ⟨hmain, ?_⟩
  intro n gradients fp rest hg hx hy hs
  have hone : orientFeature dbg n gradients fp = some [] := by
    unfold orientFeature
    simp only [hg, hx, hy, hs, hmain, List.map_nil]
  refine ⟨hone, ?_⟩
  rw [orientFeatures, hone]
  cases orientFeatures dbg n gradients rest <;> simp

/-- The angle range in exact arithmetic on the 1x1 field `unitField` with centre (0, 0) and
sigma 0: one angle, `π/36`, is returned and it lies in `[0, 2π)`. -/
theorem computeOrientation_angle_range_witness :
    _computeOrientation ⟨false, false⟩ 0 0 0 unitField = some [PI / 36] ∧
    0 ≤ PI / 36 ∧ PI / 36 < 2 * PI := by
  have h1 : orientationHistogram ⟨false, false⟩ 0 0 0 unitField
      = some ((720 * (13888888 / 10000000000)) :: List.replicate 35 0) := by decide!
  have h2 : ¬ histogramMax (smoothHistogram ((720 * (13888888 / 10000000000))
      :: List.replicate 35 0)) = 0 := by decide!
  have h3 : (List.range ORIENTATION_NUM_BINS).filter
      (isPeak (smoothHistogram ((720 * (13888888 / 10000000000)) :: List.replicate 35 0))
        (histogramMax (smoothHistogram ((720 * (13888888 / 10000000000))
          :: List.replicate 35 0)))) = [0] := by decide!
  have h4 : refinedBin (smoothHistogram ((720 * (13888888 / 10000000000))
      :: List.replicate 35 0)) 0 = 0 := by decide!
  have h5 : binAngle 0 = PI / 36 := by
    unfold binAngle
    rw [reduceAngle_once _ (by norm_num [PI, ORIENTATION_NUM_BINS])
      (by norm_num [PI, ORIENTATION_NUM_BINS])]
    norm_num [PI, ORIENTATION_NUM_BINS]
  have h : _computeOrientation ⟨false, false⟩ 0 0 0 unitField = some [PI / 36] := by
    unfold _computeOrientation
    rw [h1]
    simp only [Bool.false_and, Bool.false_eq_true, if_false]
    rw [if_neg h2, findPeaks, h3, List.map_cons, List.map_nil, h4, h5]
  exact ⟨h, computeOrientation_angle_range ⟨false, false⟩ 0 0 0 unitField [PI / 36] h (PI / 36)
    (List.mem_singleton_self _)⟩

/-- C10 on the 2x2 field `flatField` with centre (0, 0) and sigma 0, and on a feature point of
octave 0 at that centre. -/
theorem computeOrientation_empty_witness :
    flatField.values.length = flatField.width * flatField.height ∧
    _computeOrientation ⟨false, true⟩ 0 0 0 flatField = some [] ∧
    orientFeature ⟨false, true⟩ 3 [flatField] (pointAt 0 0 3) = some [] ∧
    orientFeatures ⟨false, true⟩ 3 [flatField] [pointAt 0 0 3] = some [] := by
  have hzero : ∀ xp yp : ℤ, (xp - 0) * (xp - 0) + (yp - 0) * (yp - 0) ≤ radius2Of 0 →
      ∀ v, flatField.at? xp yp = some v → v.mag = 0 := by
    intro xp yp _ v hv
    unfold GradientField.at? at hv
    split at hv
    · cases hv
    · have hmem := List.getElem?_mem hv
      rw [List.eq_of_mem_replicate hmem]
  have hthm := computeOrientation_empty ⟨false, true⟩ 0 0 0 flatField rfl rfl hzero
  have hfp := hthm.2 3 [flatField] (pointAt 0 0 3) [] rfl rfl rfl (by norm_num [pointAt])
  exact ⟨rfl, hthm.1, hfp.1, hfp.2⟩

/-! ### Orientation: the unguarded diagnostic read -/

/-- C11 fails on the code: with `window.DEBUG` unset and no reference trace, centre (0, 0),
sigma 0 and a dense 3x3 field, the pixel (2, 0) of the bounding box lies outside the circular
window (`r2 = 4 > radius2 = 2`); the read of the trace on source lines 273-276 is not guarded by
`window.DEBUG` and `_computeOrientation` stops with a `TypeError`. -/
theorem computeOrientation_untraced_fails :
    radius2Of 0 = 2 ∧
    _computeOrientation ⟨false, false⟩ 0 0 0 blankField = none ∧
    _computeOrientation ⟨false, true⟩ 0 0 0 blankField = some [] := by
  decide!

/-! ### The fast exponential -/

/-- C17, the claim as stated fails: `_fastExp6(0)` is `0.999999936`, not 1, and differs from
the value 1 of the Taylor polynomial with the factor `1/720`. -/
theorem fastExp6_zero_counterexample :
    _fastExp6 0 = 999999936 / 1000000000 ∧ _fastExp6 0 ≠ 1 ∧
    _fastExp6 0 ≠ taylorExp6 0 ∧ taylorExp6 0 = 1 := by
  decide!

/-- C17 (amended): for every `x`, `_fastExp6(x)` is the polynomial
`720 + x(720 + x(360 + x(120 + x(30 + x(6 + x)))))` times the literal `0.0013888888`, which is
`0.999999936` times the Taylor polynomial of degree 6; in particular `_fastExp6(0)` is
`0.999999936`. -/
theorem fastExp6_eq (x : ℚ) :
    _fastExp6 x = (720 + x * (720 + x * (360 + x * (120 + x * (30 + x * (6 + x))))))
      * (13888888 / 10000000000) ∧
    _fastExp6 x = (999999936 / 1000000000) * taylorExp6 x ∧
    _fastExp6 0 = 999999936 / 1000000000 := by
  refine ⟨rfl, ?_, ?_⟩
  · simp only [_fastExp6, taylorExp6]; ring
  · simp only [_fastExp6]; norm_num

/-! ### Orientation: one pixel of the accumulation -/

/-- Inside the circular window `accumulatePixel` performs the two writes of source lines
313-314. -/
theorem accumulatePixel_inside (dbg : DebugEnv) (x y : ℤ) (sigma : ℚ) (g : GradientField)
    (histogram : List ℚ) (yp xp : ℤ) (v : GradientValue)
    (hwin : (xp - x) * (xp - x) + (yp - y) * (yp - y) ≤ radius2Of sigma)
    (hv : g.at? xp yp = some v) :
    accumulatePixel dbg x y sigma g histogram yp xp =
      some (addAt (addAt histogram (b1Of v.angle)
          (w1Of v.angle * (_fastExp6 ((((xp - x) * (xp - x) + (yp - y) * (yp - y) : ℤ) : ℚ)
            * gwScaleOf sigma) * v.mag)))
        (b2Of v.angle)
          (w2Of v.angle * (_fastExp6 ((((xp - x) * (xp - x) + (yp - y) * (yp - y) : ℤ) : ℚ)
            * gwScaleOf sigma) * v.mag))) := by
  unfold accumulatePixel
  simp only [gt_iff_lt, not_lt.mpr hwin, if_false, hv]
  rfl

theorem two_pi_scale_lt_one : 2 * PI * ONE_OVER_2PI < 1 := by
  norm_num [PI, ONE_OVER_2PI]

theorem fbinOf_range (angle : ℚ) (h0 : 0 ≤ angle) (h1 : angle ≤ 2 * PI) :
    0 ≤ fbinOf angle ∧ fbinOf angle < 36 := by
  have hc : (0 : ℚ) < ONE_OVER_2PI := by norm_num [ONE_OVER_2PI]
  have hcast : ((ORIENTATION_NUM_BINS : ℕ) : ℚ) = 36 := by norm_num [ORIENTATION_NUM_BINS]
  unfold fbinOf
  rw [hcast]
  constructor
  · positivity
  · have h2 : angle * ONE_OVER_2PI ≤ 2 * PI * ONE_OVER_2PI :=
      mul_le_mul_of_nonneg_right h1 hc.le
    have h3 := two_pi_scale_lt_one
    nlinarith

theorem binOf_range (angle : ℚ) (h0 : 0 ≤ angle) (h1 : angle ≤ 2 * PI) :
    -1 ≤ binOf angle ∧ binOf angle ≤ 35 := by
  obtain ⟨hf0, hf1⟩ := fbinOf_range angle h0 h1
  unfold binOf
  constructor
  · rw [Int.le_floor]; push_cast; linarith
  · have : ⌊fbinOf angle - 1 / 2⌋ < 36 := by
      rw [Int.floor_lt]; push_cast; linarith
    omega

theorem w2Of_range (angle : ℚ) : 0 ≤ w2Of angle ∧ w2Of angle < 1 := by
  unfold w2Of binOf
  have h1 := Int.floor_le (fbinOf angle - 1 / 2)
  have h2 := Int.lt_floor_add_one (fbinOf angle - 1 / 2)
  constructor <;> linarith

theorem w1Of_range (angle : ℚ) : 0 < w1Of angle ∧ w1Of angle ≤ 1 := by
  have := w2Of_range angle
  unfold w1Of
  constructor <;> linarith

theorem bins_range (angle : ℚ) (h0 : 0 ≤ angle) (h1 : angle ≤ 2 * PI) :
    (0 ≤ b1Of angle ∧ b1Of angle ≤ 35) ∧ (0 ≤ b2Of angle ∧ b2Of angle ≤ 35) ∧
      b2Of angle = (b1Of angle + 1) % 36 := by
  obtain ⟨hb0, hb1⟩ := binOf_range angle h0 h1
  have hcast : ((ORIENTATION_NUM_BINS : ℕ) : ℤ) = 36 := by norm_num [ORIENTATION_NUM_BINS]
  unfold b1Of b2Of
  rw [hcast, Int.tmod_eq_emod (by omega) (by norm_num), Int.tmod_eq_emod (by omega) (by norm_num)]
  omega

theorem sum_modify_add (v : ℚ) : ∀ (l : List ℚ) (n : ℕ), n < l.length →
    (l.modify (fun t => t + v) n).sum = l.sum + v
  | [], n, h => by simp at h
  | a :: l, 0, _ => by
    simp only [List.modify_zero_cons, List.sum_cons]
    ring
  | a :: l, n + 1, h => by
    have hn : n < l.length := by simpa using h
    have ih := sum_modify_add v l n hn
    simp only [List.modify_succ_cons, List.sum_cons, ih]
    ring

theorem addAt_sum (histogram : List ℚ) (b : ℤ) (v : ℚ) (h0 : 0 ≤ b)
    (h1 : b < histogram.length) : (addAt histogram b v).sum = histogram.sum + v := by
  unfold addAt
  rw [if_neg (not_lt.mpr h0)]
  apply sum_modify_add
  omega

theorem mem_modify (f : ℚ → ℚ) (b : ℚ) : ∀ (l : List ℚ) (n : ℕ), b ∈ l.modify f n →
    b ∈ l ∨ ∃ a ∈ l, b = f a
  | [], n, h => by simp at h
  | a :: l, 0, h => by
    rw [List.modify_zero_cons, List.mem_cons] at h
    rcases h with h | h
    · exact Or.inr ⟨a, List.mem_cons_self _ _, h⟩
    · exact Or.inl (List.mem_cons_of_mem _ h)
  | a :: l, n + 1, h => by
    rw [List.modify_succ_cons, List.mem_cons] at h
    rcases h with h | h
    · exact Or.inl (h ▸ List.mem_cons_self _ _)
    · rcases mem_modify f b l n h with h2 | ⟨c, hc, hbc⟩
      · exact Or.inl (List.mem_cons_of_mem _ h2)
      · exact Or.inr ⟨c, List.mem_cons_of_mem _ hc, hbc⟩

theorem addAt_nonneg (histogram : List ℚ) (b : ℤ) (v : ℚ) (hv : 0 ≤ v)
    (hH : ∀ t ∈ histogram, 0 ≤ t) : ∀ t ∈ addAt histogram b v, 0 ≤ t := by
  intro t ht
  unfold addAt at ht
  split at ht
  · exact hH t ht
  · rcases mem_modify _ t _ _ ht with h | ⟨a, ha, rfl⟩
    · exact hH t h
    · exact add_nonneg (hH a ha) hv

/-! ### Orientation: the Gaussian weight -/

theorem gwSigmaOf_ge_one (sigma : ℚ) : 1 ≤ gwSigmaOf sigma := le_max_left _ _

theorem radius2Of_ge_two (sigma : ℚ) : 2 ≤ radius2Of sigma := by
  have hg := gwSigmaOf_ge_one sigma
  unfold radius2Of radiusOf
  have h1 : (1 : ℚ) < ORIENTATION_REGION_EXPANSION_FACTOR * gwSigmaOf sigma *
      (ORIENTATION_REGION_EXPANSION_FACTOR * gwSigmaOf sigma) - 1 / 2 := by
    simp only [ORIENTATION_REGION_EXPANSION_FACTOR]
    nlinarith
  have h2 : (1 : ℤ) < ⌈ORIENTATION_REGION_EXPANSION_FACTOR * gwSigmaOf sigma *
      (ORIENTATION_REGION_EXPANSION_FACTOR * gwSigmaOf sigma) - 1 / 2⌉ := by
    rw [Int.lt_ceil]; exact_mod_cast h1
  omega

/-- Inside the circular window the argument of the fast exponential lies in `[-1.375, 0]`. -/
theorem window_argument_range (sigma : ℚ) (r2 : ℤ) (h0 : 0 ≤ r2)
    (hwin : r2 ≤ radius2Of sigma) :
    -(11 / 8) ≤ (r2 : ℚ) * gwScaleOf sigma ∧ (r2 : ℚ) * gwScaleOf sigma ≤ 0 := by
  have hg := gwSigmaOf_ge_one sigma
  have hgpos : (0 : ℚ) < 2 * gwSigmaOf sigma * gwSigmaOf sigma := by nlinarith
  have hr0 : (0 : ℚ) ≤ r2 := by exact_mod_cast h0
  have hceil := Int.ceil_lt_add_one (radiusOf sigma * radiusOf sigma - 1 / 2)
  have hr1 : (r2 : ℚ) ≤ (radius2Of sigma : ℤ) := by exact_mod_cast hwin
  have hr2 : (r2 : ℚ) < radiusOf sigma * radiusOf sigma - 1 / 2 + 1 :=
    lt_of_le_of_lt hr1 hceil
  have hrad : radiusOf sigma * radiusOf sigma
      = 9 / 4 * (gwSigmaOf sigma * gwSigmaOf sigma) := by
    simp only [radiusOf, ORIENTATION_REGION_EXPANSION_FACTOR]; ring
  rw [hrad] at hr2
  have hscale : (r2 : ℚ) * gwScaleOf sigma
      = -((r2 : ℚ) / (2 * gwSigmaOf sigma * gwSigmaOf sigma)) := by
    simp only [gwScaleOf]; field_simp
  rw [hscale]
  constructor
  · rw [neg_le_neg_iff, div_le_iff₀ hgpos]
    nlinarith
  · rw [neg_nonpos]
    exact div_nonneg hr0 hgpos.le

/-- The fast exponential is positive on `[-1.375, 0]`. -/
theorem fastExp6_pos (x : ℚ) (h1 : -(11 / 8) ≤ x) (_h2 : x ≤ 0) : 0 < _fastExp6 x := by
  have hcubic : 0 < 6 + 6 * x + 3 * x ^ 2 + x ^ 3 := by
    have hq : 0 ≤ x ^ 2 + 3 / 2 * x + 15 / 4 := by nlinarith [sq_nonneg (x + 3 / 4)]
    have hl : 0 ≤ 3 / 2 + x := by linarith
    nlinarith [mul_nonneg hl hq]
  have hquad : 0 ≤ 30 + 6 * x + x ^ 2 := by nlinarith [sq_nonneg (x + 3)]
  have hx4 : 0 ≤ x ^ 4 := by positivity
  have hpoly : 720 + x * (720 + x * (360 + x * (120 + x * (30 + x * (6 + x)))))
      = 120 * (6 + 6 * x + 3 * x ^ 2 + x ^ 3) + x ^ 4 * (30 + 6 * x + x ^ 2) := by ring
  unfold _fastExp6
  rw [hpoly]
  have := mul_nonneg hx4 hquad
  have hpos : 0 < 120 * (6 + 6 * x + 3 * x ^ 2 + x ^ 3) + x ^ 4 * (30 + 6 * x + x ^ 2) := by
    linarith
  exact mul_pos hpos (by norm_num)

/-- The weight of a pixel of the circular window is positive. -/
theorem window_weight_pos (sigma : ℚ) (dx dy : ℤ)
    (hwin : dx * dx + dy * dy ≤ radius2Of sigma) :
    0 < _fastExp6 (((dx * dx + dy * dy : ℤ) : ℚ) * gwScaleOf sigma) := by
  have h0 : 0 ≤ dx * dx + dy * dy := by nlinarith [mul_self_nonneg dx, mul_self_nonneg dy]
  obtain ⟨ha, hb⟩ := window_argument_range sigma _ h0 hwin
  exact fastExp6_pos _ ha hb

/-! ### Orientation: invariants of the accumulation loops -/

theorem accumulatePixel_outside (dbg : DebugEnv) (x y : ℤ) (sigma : ℚ) (g : GradientField)
    (histogram : List ℚ) (yp xp : ℤ)
    (hout : radius2Of sigma < (xp - x) * (xp - x) + (yp - y) * (yp - y)) :
    accumulatePixel dbg x y sigma g histogram yp xp =
      if dbg.hasTrace then some histogram else none := by
  unfold accumulatePixel
  simp only [gt_iff_lt, hout, if_true]

theorem GradientField.mem_of_at? (g : GradientField) (xp yp : ℤ) (v : GradientValue)
    (hv : g.at? xp yp = some v) : v ∈ g.values := by
  unfold GradientField.at? at hv
  split at hv
  · cases hv
  · exact List.getElem?_mem hv

/-- A property of the histogram kept by every pixel step is kept by a row of the loop. -/
theorem accumulateRow_invariant (P : List ℚ → Prop) (dbg : DebugEnv) (x y : ℤ) (sigma : ℚ)
    (g : GradientField) (yp : ℤ)
    (hstep : ∀ (H H1 : List ℚ) (xp : ℤ), P H →
      accumulatePixel dbg x y sigma g H yp xp = some H1 → P H1) :
    ∀ (xs : List ℤ) (H H1 : List ℚ), P H →
      accumulateRow dbg x y sigma g yp xs H = some H1 → P H1
  | [], H, H1, hP, h => by
    rw [accumulateRow] at h
    rw [← Option.some.inj h]; exact hP
  | xp :: rest, H, H1, hP, h => by
    rw [accumulateRow] at h
    split at h
    · exact absurd h (by simp)
    · rename_i mid hmid
      exact accumulateRow_invariant P dbg x y sigma g yp hstep rest mid H1
        (hstep H mid xp hP hmid) h

/-- A property of the histogram kept by every pixel step is kept by the whole loop. -/
theorem accumulateRows_invariant (P : List ℚ → Prop) (dbg : DebugEnv) (x y : ℤ) (sigma : ℚ)
    (g : GradientField) (xs : List ℤ)
    (hstep : ∀ (H H1 : List ℚ) (yp xp : ℤ), P H →
      accumulatePixel dbg x y sigma g H yp xp = some H1 → P H1) :
    ∀ (ys : List ℤ) (H H1 : List ℚ), P H →
      accumulateRows dbg x y sigma g xs ys H = some H1 → P H1
  | [], H, H1, hP, h => by
    rw [accumulateRows] at h
    rw [← Option.some.inj h]; exact hP
  | yp :: rest, H, H1, hP, h => by
    rw [accumulateRows] at h
    split at h
    · exact absurd h (by simp)
    · rename_i mid hmid
      exact accumulateRows_invariant P dbg x y sigma g xs hstep rest mid H1
        (accumulateRow_invariant P dbg x y sigma g yp (fun H H1 xp => hstep H H1 yp xp)
          xs H mid hP hmid) h

theorem accumulatePixel_nonneg (dbg : DebugEnv) (x y : ℤ) (sigma : ℚ) (g : GradientField)
    (hmag : ∀ v ∈ g.values, 0 ≤ v.mag) (H H1 : List ℚ) (yp xp : ℤ)
    (hH : ∀ t ∈ H, 0 ≤ t) (h : accumulatePixel dbg x y sigma g H yp xp = some H1) :
    ∀ t ∈ H1, 0 ≤ t := by
  by_cases hwin : (xp - x) * (xp - x) + (yp - y) * (yp - y) ≤ radius2Of sigma
  · cases hv : g.at? xp yp with
    | none =>
      unfold accumulatePixel at h
      simp only [gt_iff_lt, not_lt.mpr hwin, if_false, hv] at h
      exact absurd h (by simp)
    | some v =>
      rw [accumulatePixel_inside dbg x y sigma g H yp xp v hwin hv] at h
      rw [← Option.some.inj h]
      have hw := window_weight_pos sigma (xp - x) (yp - y) hwin
      have hm := hmag v (g.mem_of_at? xp yp v hv)
      have hwm : 0 ≤ _fastExp6 ((((xp - x) * (xp - x) + (yp - y) * (yp - y) : ℤ) : ℚ)
          * gwScaleOf sigma) * v.mag := mul_nonneg hw.le hm
      exact addAt_nonneg _ _ _ (mul_nonneg (w2Of_range v.angle).1 hwm)
        (addAt_nonneg _ _ _ (mul_nonneg (w1Of_range v.angle).1.le hwm) hH)
  · rw [accumulatePixel_outside dbg x y sigma g H yp xp (not_le.mp hwin)] at h
    split at h
    · rw [← Option.some.inj h]; exact hH
    · exact absurd h (by simp)

theorem orientationHistogram_nonneg (dbg : DebugEnv) (x y : ℤ) (sigma : ℚ) (g : GradientField)
    (hmag : ∀ v ∈ g.values, 0 ≤ v.mag) (H : List ℚ)
    (h : orientationHistogram dbg x y sigma g = some H) : ∀ t ∈ H, 0 ≤ t := by
  unfold orientationHistogram at h
  refine accumulateRows_invariant (fun H => ∀ t ∈ H, 0 ≤ t) dbg x y sigma g _
    (fun H H1 yp xp hH hstep => accumulatePixel_nonneg dbg x y sigma g hmag H H1 yp xp hH hstep)
    _ _ H ?_ h
  intro t ht
  rw [List.eq_of_mem_replicate ht]

theorem binValue_nonneg (histogram : List ℚ) (hH : ∀ t ∈ histogram, 0 ≤ t) (i : ℤ) :
    0 ≤ binValue histogram i := by
  unfold binValue
  rw [List.getD_eq_getElem?_getD]
  cases hi : histogram[i.toNat]? with
  | none => simp
  | some a => simpa using hH a (List.getElem?_mem hi)

theorem smoothOnce_nonneg (old : List ℚ) (hH : ∀ t ∈ old, 0 ≤ t) :
    ∀ t ∈ smoothOnce old, 0 ≤ t := by
  intro t ht
  simp only [smoothOnce, List.mem_map, List.mem_range] at ht
  obtain ⟨j, _, rfl⟩ := ht
  have h1 := binValue_nonneg old hH (((j : ℤ) - 1 + old.length).tmod old.length)
  have h2 := binValue_nonneg old hH (j : ℤ)
  have h3 := binValue_nonneg old hH (((j : ℤ) + 1).tmod old.length)
  positivity

theorem smoothHistogram_nonneg (histogram : List ℚ) (hH : ∀ t ∈ histogram, 0 ≤ t) :
    ∀ t ∈ smoothHistogram histogram, 0 ≤ t := by
  unfold smoothHistogram
  generalize ORIENTATION_SMOOTHING_ITERATIONS = n
  induction n generalizing histogram with
  | zero => exact hH
  | succ n ih =>
    rw [Function.iterate_succ_apply]
    exact ih _ (smoothOnce_nonneg histogram hH)

/-! ### Orientation: the claims on the accumulation -/

/-- C19: for a gradient angle in `[0, 2π]` the two bin indices lie in 0..35 and are circular
neighbours, the weights satisfy `0 ≤ w2 < 1` and `w1 + w2 = 1`, and an in-window pixel with
that angle leaves a 36-bin histogram with 36 bins and raises its total by exactly
`weight * magnitude`. -/
theorem accumulate_wellformed (angle : ℚ) (h0 : 0 ≤ angle) (h1 : angle ≤ 2 * PI) :
    (0 ≤ b1Of angle ∧ b1Of angle ≤ 35) ∧ (0 ≤ b2Of angle ∧ b2Of angle ≤ 35) ∧
    b2Of angle = (b1Of angle + 1) % 36 ∧
    (0 ≤ w2Of angle ∧ w2Of angle < 1) ∧ w1Of angle + w2Of angle = 1 ∧
    ∀ (dbg : DebugEnv) (x y : ℤ) (sigma : ℚ) (g : GradientField) (H : List ℚ) (yp xp : ℤ)
      (mag : ℚ), H.length = ORIENTATION_NUM_BINS →
      (xp - x) * (xp - x) + (yp - y) * (yp - y) ≤ radius2Of sigma →
      g.at? xp yp = some ⟨angle, mag⟩ →
      ∃ H1, accumulatePixel dbg x y sigma g H yp xp = some H1 ∧
        H1.length = ORIENTATION_NUM_BINS ∧
        H1.sum = H.sum + _fastExp6 ((((xp - x) * (xp - x) + (yp - y) * (yp - y) : ℤ) : ℚ)
          * gwScaleOf sigma) * mag := by
  obtain ⟨hb1, hb2, hnext⟩ := bins_range angle h0 h1
  refine ⟨hb1, hb2, hnext, w2Of_range angle, by unfold w1Of; ring, ?_⟩
  intro dbg x y sigma g H yp xp mag hlen hwin hv
  refine ⟨_, accumulatePixel_inside dbg x y sigma g H yp xp ⟨angle, mag⟩ hwin hv, ?_, ?_⟩
  · rw [addAt_length, addAt_length, hlen]
  · have hlen36 : (H.length : ℤ) = 36 := by rw [hlen]; rfl
    rw [addAt_sum _ _ _ hb2.1 (by rw [addAt_length, hlen36]; omega),
      addAt_sum _ _ _ hb1.1 (by rw [hlen36]; omega)]
    simp only [w1Of]
    ring

/-- C19 at the endpoint `2π`: the bins are 35 and 0, and the pixel of `fullTurnField` adds its
weight times its magnitude to an empty histogram. -/
theorem accumulate_wellformed_witness :
    (0 : ℚ) ≤ 2 * PI ∧ b1Of (2 * PI) = 35 ∧ b2Of (2 * PI) = 0 ∧
    ∃ H1, accumulatePixel ⟨false, false⟩ 0 0 0 fullTurnField
        (List.replicate ORIENTATION_NUM_BINS 0) 0 0 = some H1 ∧
      H1.length = ORIENTATION_NUM_BINS ∧
      H1.sum = (List.replicate ORIENTATION_NUM_BINS (0 : ℚ)).sum
        + _fastExp6 ((((0 - 0) * (0 - 0) + (0 - 0) * (0 - 0) : ℤ) : ℚ) * gwScaleOf 0) * 1 :=
  ⟨by decide!, by decide!, by decide!,
    (accumulate_wellformed (2 * PI) (by decide!) (le_refl _)).2.2.2.2.2
      ⟨false, false⟩ 0 0 0 fullTurnField (List.replicate ORIENTATION_NUM_BINS 0) 0 0 1
      (by decide!) (by decide!) (by decide!)⟩

/-- C20: for every sigma, a pixel that passes the circular-window test calls the fast
exponential with an argument in `[-1.375, 0]` and gets a strictly positive weight; hence with
magnitudes `≥ 0` every bin of the histogram, before and after smoothing, is `≥ 0`. -/
theorem fastExp6_window (sigma : ℚ) :
    (∀ dx dy : ℤ, dx * dx + dy * dy ≤ radius2Of sigma →
      -(11 / 8) ≤ ((dx * dx + dy * dy : ℤ) : ℚ) * gwScaleOf sigma ∧
      ((dx * dx + dy * dy : ℤ) : ℚ) * gwScaleOf sigma ≤ 0 ∧
      0 < _fastExp6 (((dx * dx + dy * dy : ℤ) : ℚ) * gwScaleOf sigma)) ∧
    (∀ (dbg : DebugEnv) (x y : ℤ) (g : GradientField) (H : List ℚ),
      (∀ v ∈ g.values, 0 ≤ v.mag) → orientationHistogram dbg x y sigma g = some H →
      (∀ t ∈ H, 0 ≤ t) ∧ ∀ t ∈ smoothHistogram H, 0 ≤ t) := by
  constructor
  · intro dx dy hwin
    have h0 : 0 ≤ dx * dx + dy * dy := by nlinarith [mul_self_nonneg dx, mul_self_nonneg dy]
    obtain ⟨ha, hb⟩ := window_argument_range sigma _ h0 hwin
    exact ⟨ha, hb, fastExp6_pos _ ha hb⟩
  · intro dbg x y g H hmag h
    have hH := orientationHistogram_nonneg dbg x y sigma g hmag H h
    exact ⟨hH, smoothHistogram_nonneg H hH⟩

/-- C20 at sigma 0: the pixel at offset (1, 1) is inside the window (`r2 = 2 = radius2`), its
argument is `-1`, and the histogram of `unitField` has no negative bin. -/
theorem fastExp6_window_witness :
    (1 : ℤ) * 1 + 1 * 1 ≤ radius2Of 0 ∧
    (((1 * 1 + 1 * 1 : ℤ) : ℚ) * gwScaleOf 0 = -1) ∧
    0 < _fastExp6 (((1 * 1 + 1 * 1 : ℤ) : ℚ) * gwScaleOf 0) ∧
    (∀ v ∈ unitField.values, 0 ≤ v.mag) ∧
    ∀ t ∈ (720 * (13888888 / 10000000000) : ℚ) :: List.replicate 35 0, 0 ≤ t :=
  ⟨by decide!, by decide!, ((fastExp6_window 0).1 1 1 (by decide!)).2.2, by decide!,
    ((fastExp6_window 0).2 ⟨false, false⟩ 0 0 unitField _ (by decide!) (by decide!)).1⟩

/-! ### Orientation: the peak search does not depend on the scale of the histogram -/

theorem scaleHist_length (M : ℚ) (h : List ℚ) : (scaleHist M h).length = h.length := by
  simp only [scaleHist, List.length_map]

theorem binValue_scale (M : ℚ) (h : List ℚ) (i : ℤ) :
    binValue (scaleHist M h) i = M * binValue h i := by
  unfold binValue scaleHist
  rw [List.getD_eq_getElem?_getD, List.getD_eq_getElem?_getD, List.getElem?_map]
  cases h[i.toNat]? <;> simp

theorem smoothOnce_scale (M : ℚ) (h : List ℚ) :
    smoothOnce (scaleHist M h) = scaleHist M (smoothOnce h) := by
  unfold smoothOnce
  rw [scaleHist_length]
  simp only [binValue_scale]
  unfold scaleHist
  rw [List.map_map]
  apply List.map_congr_left
  intro j _
  simp only [Function.comp]
  ring

theorem smoothHistogram_scale (M : ℚ) (h : List ℚ) :
    smoothHistogram (scaleHist M h) = scaleHist M (smoothHistogram h) := by
  unfold smoothHistogram
  generalize ORIENTATION_SMOOTHING_ITERATIONS = n
  induction n generalizing h with
  | zero => rfl
  | succ n ih => rw [Function.iterate_succ_apply, Function.iterate_succ_apply, smoothOnce_scale, ih]

theorem foldMax_scale (M : ℚ) (hM : 0 < M) (h : List ℚ) : ∀ (l : List ℕ) (mx : ℚ),
    l.foldl (fun maxHeight (i : ℕ) =>
        if binValue (scaleHist M h) i > maxHeight then binValue (scaleHist M h) i
        else maxHeight) (M * mx)
      = M * l.foldl (fun maxHeight (i : ℕ) =>
        if binValue h i > maxHeight then binValue h i else maxHeight) mx
  | [], mx => rfl
  | i :: l, mx => by
    rw [List.foldl_cons, List.foldl_cons, binValue_scale]
    by_cases hc : binValue h i > mx
    · have hc2 : M * binValue h i > M * mx := mul_lt_mul_of_pos_left hc hM
      rw [if_pos hc, if_pos hc2]
      exact foldMax_scale M hM h l _
    · have hc2 : ¬ M * binValue h i > M * mx := by
        intro hlt
        exact hc (lt_of_mul_lt_mul_left hlt hM.le)
      rw [if_neg hc, if_neg hc2]
      exact foldMax_scale M hM h l _

theorem histogramMax_scale (M : ℚ) (hM : 0 < M) (h : List ℚ) :
    histogramMax (scaleHist M h) = M * histogramMax h := by
  unfold histogramMax
  have := foldMax_scale M hM h (List.range ORIENTATION_NUM_BINS) 0
  rw [mul_zero] at this
  exact this

theorem isPeak_scale (M : ℚ) (hM : 0 < M) (h : List ℚ) (m : ℚ) (i : ℕ) :
    isPeak (scaleHist M h) (M * m) i = isPeak h m i := by
  unfold isPeak
  simp only [scaleHist_length, binValue_scale]
  have e : ORIENTATION_PEAK_THRESHOLD * (M * m) = M * (ORIENTATION_PEAK_THRESHOLD * m) := by ring
  rw [e]
  simp only [gt_iff_lt, mul_lt_mul_left hM]

theorem quadratic3Points_scale (M : ℚ) (p1 p2 p3 : ℚ × ℚ) :
    _quadratic3Points (p1.1, M * p1.2) (p2.1, M * p2.2) (p3.1, M * p3.2) =
      (_quadratic3Points p1 p2 p3).map fun q => ⟨M * q.A, M * q.B, M * q.C⟩ := by
  unfold _quadratic3Points
  simp only []
  split
  · rfl
  · simp only [Option.map_some', Option.some.injEq, Quadratic.mk.injEq]
    refine ⟨by ring, by ring, by ring⟩

theorem refinedBin_scale (M : ℚ) (hM : M ≠ 0) (h : List ℚ) (i : ℕ) :
    refinedBin (scaleHist M h) i = refinedBin h i := by
  unfold refinedBin
  simp only [scaleHist_length, binValue_scale]
  have hq := quadratic3Points_scale M
    ((i : ℚ) - 1, binValue h (((i : ℤ) - 1 + h.length).tmod h.length))
    ((i : ℚ), binValue h i)
    ((i : ℚ) + 1, binValue h (((i : ℤ) + 1).tmod h.length))
  simp only [] at hq
  rw [hq]
  cases _quadratic3Points ((i : ℚ) - 1, binValue h (((i : ℤ) - 1 + h.length).tmod h.length))
    ((i : ℚ), binValue h i) ((i : ℚ) + 1, binValue h (((i : ℤ) + 1).tmod h.length)) with
  | none => rfl
  | some q =>
    simp only [Option.map_some']
    by_cases hA : q.A = 0
    · simp [hA]
    · have hMA : M * q.A ≠ 0 := mul_ne_zero hM hA
      simp only [ne_eq, hA, hMA, not_false_eq_true, if_true]
      field_simp
      ring

theorem findPeaks_scale (M : ℚ) (hM : 0 < M) (h : List ℚ) (m : ℚ) :
    findPeaks (scaleHist M h) (M * m) = findPeaks h m := by
  unfold findPeaks
  have hf : isPeak (scaleHist M h) (M * m) = isPeak h m := funext (isPeak_scale M hM h m)
  rw [hf]
  apply List.map_congr_left
  intro i _
  rw [refinedBin_scale M hM.ne' h i]

/-- The angles found do not change when every bin of the raw histogram is multiplied by the
same positive number. -/
theorem peaks_of_scaled (M : ℚ) (hM : 0 < M) (h : List ℚ) :
    histogramMax (smoothHistogram (scaleHist M h)) = M * histogramMax (smoothHistogram h) ∧
    findPeaks (smoothHistogram (scaleHist M h)) (histogramMax (smoothHistogram (scaleHist M h)))
      = findPeaks (smoothHistogram h) (histogramMax (smoothHistogram h)) := by
  rw [smoothHistogram_scale, histogramMax_scale M hM]
  exact ⟨rfl, findPeaks_scale M hM _ _⟩

/-! ### Orientation: a window of uniform gradient angle -/

theorem mem_intRange_of_le (lo hi v : ℤ) (h1 : lo ≤ v) (h2 : v ≤ hi) : v ∈ intRange lo hi := by
  simp only [intRange, List.mem_map, List.mem_range]
  refine ⟨(v - lo).toNat, ?_, ?_⟩ <;> omega

theorem accumulateRow_total (dbg : DebugEnv) (x y : ℤ) (sigma : ℚ) (g : GradientField)
    (yp : ℤ) : ∀ (xs : List ℤ),
      (∀ (H : List ℚ) (xp : ℤ), xp ∈ xs →
        ∃ H1, accumulatePixel dbg x y sigma g H yp xp = some H1) →
      ∀ H : List ℚ, ∃ H1, accumulateRow dbg x y sigma g yp xs H = some H1
  | [], _, H => ⟨H, rfl⟩
  | xp :: rest, hstep, H => by
    obtain ⟨mid, hmid⟩ := hstep H xp (List.mem_cons_self _ _)
    obtain ⟨H1, hH1⟩ := accumulateRow_total dbg x y sigma g yp rest
      (fun H xq hq => hstep H xq (List.mem_cons_of_mem _ hq)) mid
    exact ⟨H1, by rw [accumulateRow, hmid]; exact hH1⟩

theorem accumulateRows_total (dbg : DebugEnv) (x y : ℤ) (sigma : ℚ) (g : GradientField)
    (xs : List ℤ) : ∀ (ys : List ℤ),
      (∀ (H : List ℚ) (yp xp : ℤ), yp ∈ ys → xp ∈ xs →
        ∃ H1, accumulatePixel dbg x y sigma g H yp xp = some H1) →
      ∀ H : List ℚ, ∃ H1, accumulateRows dbg x y sigma g xs ys H = some H1
  | [], _, H => ⟨H, rfl⟩
  | yp :: rest, hstep, H => by
    obtain ⟨mid, hmid⟩ := accumulateRow_total dbg x y sigma g yp xs
      (fun H xp hx => hstep H yp xp (List.mem_cons_self _ _) hx) H
    obtain ⟨H1, hH1⟩ := accumulateRows_total dbg x y sigma g xs rest
      (fun H yq xq hy hx => hstep H yq xq (List.mem_cons_of_mem _ hy) hx) mid
    exact ⟨H1, by rw [accumulateRows, hmid]; exact hH1⟩

/-- When the step at column `x0` turns `P` into `Q` and every step keeps `P` and keeps `Q`, a
row that visits `x0` turns `P` into `Q`. -/
theorem accumulateRow_reaches (P Q : List ℚ → Prop) (dbg : DebugEnv) (x y : ℤ) (sigma : ℚ)
    (g : GradientField) (yp x0 : ℤ)
    (hP : ∀ (H H1 : List ℚ) (xp : ℤ), P H →
      accumulatePixel dbg x y sigma g H yp xp = some H1 → P H1)
    (hQ : ∀ (H H1 : List ℚ) (xp : ℤ), Q H →
      accumulatePixel dbg x y sigma g H yp xp = some H1 → Q H1)
    (hC : ∀ (H H1 : List ℚ), P H → accumulatePixel dbg x y sigma g H yp x0 = some H1 → Q H1) :
    ∀ (xs : List ℤ), x0 ∈ xs → ∀ (H H1 : List ℚ), P H →
      accumulateRow dbg x y sigma g yp xs H = some H1 → Q H1
  | [], hmem, _, _, _, _ => absurd hmem (List.not_mem_nil _)
  | xp :: rest, hmem, H, H1, hPH, h => by
    rw [accumulateRow] at h
    split at h
    · exact absurd h (by simp)
    · rename_i mid hmid
      by_cases hx : xp = x0
      · subst hx
        exact accumulateRow_invariant Q dbg x y sigma g yp hQ rest mid H1 (hC H mid hPH hmid) h
      · have hrest : x0 ∈ rest := by
          rcases List.mem_cons.mp hmem with h1 | h1
          · exact absurd h1.symm hx
          · exact h1
        exact accumulateRow_reaches P Q dbg x y sigma g yp x0 hP hQ hC rest hrest mid H1
          (hP H mid xp hPH hmid) h

/-- The two-dimensional form of `accumulateRow_reaches`: a scan that visits `(x0, y0)`. -/
theorem accumulateRows_reaches (P Q : List ℚ → Prop) (dbg : DebugEnv) (x y : ℤ) (sigma : ℚ)
    (g : GradientField) (xs : List ℤ) (x0 y0 : ℤ) (hx0 : x0 ∈ xs)
    (hP : ∀ (H H1 : List ℚ) (yp xp : ℤ), P H →
      accumulatePixel dbg x y sigma g H yp xp = some H1 → P H1)
    (hQ : ∀ (H H1 : List ℚ) (yp xp : ℤ), Q H →
      accumulatePixel dbg x y sigma g H yp xp = some H1 → Q H1)
    (hC : ∀ (H H1 : List ℚ), P H → accumulatePixel dbg x y sigma g H y0 x0 = some H1 → Q H1) :
    ∀ (ys : List ℤ), y0 ∈ ys → ∀ (H H1 : List ℚ), P H →
      accumulateRows dbg x y sigma g xs ys H = some H1 → Q H1
  | [], hmem, _, _, _, _ => absurd hmem (List.not_mem_nil _)
  | yp :: rest, hmem, H, H1, hPH, h => by
    rw [accumulateRows] at h
    split at h
    · exact absurd h (by simp)
    · rename_i mid hmid
      by_cases hy : yp = y0
      · subst hy
        have hmidQ : Q mid := accumulateRow_reaches P Q dbg x y sigma g yp x0
          (fun H H1 xp => hP H H1 yp xp) (fun H H1 xp => hQ H H1 yp xp) hC xs hx0 H mid hPH hmid
        exact accumulateRows_invariant Q dbg x y sigma g xs hQ rest mid H1 hmidQ h
      · have hrest : y0 ∈ rest := by
          rcases List.mem_cons.mp hmem with h1 | h1
          · exact absurd h1.symm hy
          · exact h1
        have hmidP : P mid := accumulateRow_invariant P dbg x y sigma g yp
          (fun H H1 xp => hP H H1 yp xp) xs H mid hPH hmid
        exact accumulateRows_reaches P Q dbg x y sigma g xs x0 y0 hx0 hP hQ hC rest hrest mid H1
          hmidP h

theorem quarter_bins : b1Of (PI / 2) = 8 ∧ b2Of (PI / 2) = 9 := by decide!

theorem twoBinHist_step (a b u v : ℚ) :
    addAt (addAt (twoBinHist a b) 8 u) 9 v = twoBinHist (a + u) (b + v) := rfl

theorem twoBinHist_scale (t a b : ℚ) :
    twoBinHist (t * a) (t * b) = scaleHist t (twoBinHist a b) := by
  simp [twoBinHist, scaleHist]

theorem twoBinHist_zero : List.replicate ORIENTATION_NUM_BINS (0 : ℚ) = twoBinHist 0 0 := rfl

/-- One pixel step on a histogram of a uniform `π/2` window: the weight total grows by a
non-negative amount, which is positive when the pixel lies inside the circular window. -/
theorem accumulatePixel_uniform (dbg : DebugEnv) (x y : ℤ) (sigma : ℚ) (g : GradientField)
    (huni : UniformWindow x y sigma g (PI / 2)) (t : ℚ) (yp xp : ℤ) (H1 : List ℚ)
    (h : accumulatePixel dbg x y sigma g
      (twoBinHist (t * w1Of (PI / 2)) (t * w2Of (PI / 2))) yp xp = some H1) :
    ∃ m, 0 ≤ m ∧
      ((xp - x) * (xp - x) + (yp - y) * (yp - y) ≤ radius2Of sigma → 0 < m) ∧
      H1 = twoBinHist ((t + m) * w1Of (PI / 2)) ((t + m) * w2Of (PI / 2)) := by
  by_cases hwin : (xp - x) * (xp - x) + (yp - y) * (yp - y) ≤ radius2Of sigma
  · cases hv : g.at? xp yp with
    | none =>
      unfold accumulatePixel at h
      simp only [gt_iff_lt, not_lt.mpr hwin, if_false, hv] at h
      exact absurd h (by simp)
    | some v =>
      obtain ⟨hang, hmag⟩ := huni xp yp hwin v hv
      rw [accumulatePixel_inside dbg x y sigma g _ yp xp v hwin hv, hang, quarter_bins.1,
        quarter_bins.2, twoBinHist_step] at h
      have hw := window_weight_pos sigma (xp - x) (yp - y) hwin
      refine ⟨_fastExp6 ((((xp - x) * (xp - x) + (yp - y) * (yp - y) : ℤ) : ℚ)
          * gwScaleOf sigma) * v.mag, (mul_pos hw hmag).le, fun _ => mul_pos hw hmag, ?_⟩
      rw [← Option.some.inj h]
      congr 1 <;> ring
  · rw [accumulatePixel_outside dbg x y sigma g _ yp xp (not_le.mp hwin)] at h
    split at h
    · refine ⟨0, le_refl _, fun hc => absurd hc hwin, ?_⟩
      rw [← Option.some.inj h, add_zero]
    · exact absurd h (by simp)

/-- The raw histogram of a uniform `π/2` window around a centre inside a dense field is a
positive multiple of `quarterTurnHist`. -/
theorem orientationHistogram_uniform (dbg : DebugEnv) (x y : ℤ) (sigma : ℚ)
    (g : GradientField) (htrace : dbg.hasTrace = true)
    (hdense : g.values.length = g.width * g.height)
    (hx : 0 ≤ x ∧ x < g.width) (hy : 0 ≤ y ∧ y < g.height)
    (huni : UniformWindow x y sigma g (PI / 2)) :
    ∃ M, 0 < M ∧ orientationHistogram dbg x y sigma g = some (scaleHist M quarterTurnHist) := by
  have hR : 0 ≤ ⌊radiusOf sigma + 1 / 2⌋ := by
    rw [Int.floor_nonneg]
    have := gwSigmaOf_ge_one sigma
    simp only [radiusOf, ORIENTATION_REGION_EXPANSION_FACTOR]
    linarith
  have hxs : ∀ xp ∈ intRange (max 0 (x - ⌊radiusOf sigma + 1 / 2⌋))
      (min ((g.width : ℤ) - 1) (x + ⌊radiusOf sigma + 1 / 2⌋)), 0 ≤ xp ∧ xp < g.width := by
    intro xp hxp
    have := mem_intRange _ _ _ hxp
    have h0 := le_max_left (0 : ℤ) (x - ⌊radiusOf sigma + 1 / 2⌋)
    have h1 := min_le_left ((g.width : ℤ) - 1) (x + ⌊radiusOf sigma + 1 / 2⌋)
    omega
  have hys : ∀ yp ∈ intRange (max 0 (y - ⌊radiusOf sigma + 1 / 2⌋))
      (min ((g.height : ℤ) - 1) (y + ⌊radiusOf sigma + 1 / 2⌋)), 0 ≤ yp ∧ yp < g.height := by
    intro yp hyp
    have := mem_intRange _ _ _ hyp
    have h0 := le_max_left (0 : ℤ) (y - ⌊radiusOf sigma + 1 / 2⌋)
    have h1 := min_le_left ((g.height : ℤ) - 1) (y + ⌊radiusOf sigma + 1 / 2⌋)
    omega
  have hxmem : x ∈ intRange (max 0 (x - ⌊radiusOf sigma + 1 / 2⌋))
      (min ((g.width : ℤ) - 1) (x + ⌊radiusOf sigma + 1 / 2⌋)) := by
    apply mem_intRange_of_le
    · exact max_le hx.1 (by omega)
    · exact le_min (by omega) (by omega)
  have hymem : y ∈ intRange (max 0 (y - ⌊radiusOf sigma + 1 / 2⌋))
      (min ((g.height : ℤ) - 1) (y + ⌊radiusOf sigma + 1 / 2⌋)) := by
    apply mem_intRange_of_le
    · exact max_le hy.1 (by omega)
    · exact le_min (by omega) (by omega)
  have htotal : ∀ (H : List ℚ) (yp xp : ℤ),
      yp ∈ intRange (max 0 (y - ⌊radiusOf sigma + 1 / 2⌋))
        (min ((g.height : ℤ) - 1) (y + ⌊radiusOf sigma + 1 / 2⌋)) →
      xp ∈ intRange (max 0 (x - ⌊radiusOf sigma + 1 / 2⌋))
        (min ((g.width : ℤ) - 1) (x + ⌊radiusOf sigma + 1 / 2⌋)) →
      ∃ H1, accumulatePixel dbg x y sigma g H yp xp = some H1 := by
    intro H yp xp hyp hxp
    by_cases hwin : (xp - x) * (xp - x) + (yp - y) * (yp - y) ≤ radius2Of sigma
    · obtain ⟨v, hv⟩ := g.at?_isSome hdense xp yp (hxs xp hxp).1 (hxs xp hxp).2
        (hys yp hyp).1 (hys yp hyp).2
      exact ⟨_, accumulatePixel_inside dbg x y sigma g H yp xp v hwin hv⟩
    · exact ⟨H, by rw [accumulatePixel_outside dbg x y sigma g H yp xp (not_le.mp hwin), htrace,
        if_pos rfl]⟩
  unfold orientationHistogram
  obtain ⟨H1, hH1⟩ := accumulateRows_total dbg x y sigma g _ _ htotal
    (List.replicate ORIENTATION_NUM_BINS 0)
  have hcentre : (x - x) * (x - x) + (y - y) * (y - y) ≤ radius2Of sigma := by
    have := radius2Of_ge_two sigma
    simp only [sub_self, mul_zero, add_zero]
    omega
  have hfinal := accumulateRows_reaches
    (fun H => ∃ t, 0 ≤ t ∧ H = twoBinHist (t * w1Of (PI / 2)) (t * w2Of (PI / 2)))
    (fun H => ∃ t, 0 < t ∧ H = twoBinHist (t * w1Of (PI / 2)) (t * w2Of (PI / 2)))
    dbg x y sigma g _ x y hxmem
    (by
      rintro H H2 yp xp ⟨t, ht, rfl⟩ hstep
      obtain ⟨m, hm, _, hH2⟩ := accumulatePixel_uniform dbg x y sigma g huni t yp xp H2 hstep
      exact ⟨t + m, by linarith, hH2⟩)
    (by
      rintro H H2 yp xp ⟨t, ht, rfl⟩ hstep
      obtain ⟨m, hm, _, hH2⟩ := accumulatePixel_uniform dbg x y sigma g huni t yp xp H2 hstep
      exact ⟨t + m, by linarith, hH2⟩)
    (by
      rintro H H2 ⟨t, ht, rfl⟩ hstep
      obtain ⟨m, _, hm, hH2⟩ := accumulatePixel_uniform dbg x y sigma g huni t y x H2 hstep
      exact ⟨t + m, by linarith [hm hcentre], hH2⟩)
    _ hymem (List.replicate ORIENTATION_NUM_BINS 0) H1
    ⟨0, le_refl _, by rw [zero_mul, zero_mul]; exact twoBinHist_zero⟩ hH1
  obtain ⟨M, hM, hEq⟩ := hfinal
  refine ⟨M, hM, ?_⟩
  rw [hH1, hEq, twoBinHist_scale]
  rfl

/-- The angle of a bin refined to within half a bin of `i`, with its bounds. -/
theorem binAngle_bounds (i : ℕ) (hi : i < 36) (fbin : ℚ) (h1 : (i : ℚ) - 1 / 2 < fbin)
    (h2 : fbin < (i : ℚ) + 1 / 2) :
    2 * PI * i / 36 < binAngle fbin ∧ binAngle fbin < 2 * PI * (i + 1) / 36 := by
  have hpi := two_pi_pos
  have hi0 : (0 : ℚ) ≤ i := Nat.cast_nonneg i
  have hi1 : (i : ℚ) ≤ 35 := by exact_mod_cast Nat.le_of_lt_succ hi
  have hlow : 1 < (fbin + 1 / 2 + 36) / 36 := by
    rw [lt_div_iff₀ (by norm_num)]; linarith
  have hhigh : (fbin + 1 / 2 + 36) / 36 < 2 := by
    rw [div_lt_iff₀ (by norm_num)]; linarith
  have e1 : 2 * PI < 2 * PI * ((fbin + 1 / 2 + 36) / 36) := by
    have := mul_lt_mul_of_pos_left hlow hpi
    linarith
  have e2 : 2 * PI * ((fbin + 1 / 2 + 36) / 36) < 4 * PI := by
    have := mul_lt_mul_of_pos_left hhigh hpi
    linarith
  have hcast : ((ORIENTATION_NUM_BINS : ℕ) : ℚ) = 36 := by norm_num [ORIENTATION_NUM_BINS]
  unfold binAngle
  rw [hcast, reduceAngle_once _ e1 e2.le]
  have e3 : 2 * PI * ((fbin + 1 / 2 + 36) / 36) - 2 * PI = 2 * PI * (fbin + 1 / 2) / 36 := by
    ring
  rw [e3]
  constructor
  · rw [div_lt_div_iff_of_pos_right (by norm_num)]
    exact mul_lt_mul_of_pos_left (by linarith) hpi
  · rw [div_lt_div_iff_of_pos_right (by norm_num)]
    exact mul_lt_mul_of_pos_left (by linarith) hpi

/-- The smoothed histogram of a `π/2` pixel has its only peak in bin 8. -/
theorem quarterTurn_peaks :
    histogramMax (smoothHistogram quarterTurnHist) ≠ 0 ∧
    (List.range ORIENTATION_NUM_BINS).filter
      (isPeak (smoothHistogram quarterTurnHist)
        (histogramMax (smoothHistogram quarterTurnHist))) = [8] ∧
    isPeak (smoothHistogram quarterTurnHist)
      (histogramMax (smoothHistogram quarterTurnHist)) 8 = true := by
  decide!

/-- For a uniform `π/2` window the function returns the one angle refined from bin 8 of the
smoothed single-pixel histogram. -/
theorem computeOrientation_quarter_eq (dbg : DebugEnv) (x y : ℤ) (sigma : ℚ)
    (g : GradientField) (htrace : dbg.hasTrace = true)
    (hdense : g.values.length = g.width * g.height)
    (hx : 0 ≤ x ∧ x < g.width) (hy : 0 ≤ y ∧ y < g.height)
    (huni : UniformWindow x y sigma g (PI / 2)) :
    _computeOrientation dbg x y sigma g
      = some [binAngle (refinedBin (smoothHistogram quarterTurnHist) 8)] := by
  obtain ⟨M, hM, hhist⟩ := orientationHistogram_uniform dbg x y sigma g htrace hdense hx hy huni
  obtain ⟨hmax, hpeaks⟩ := peaks_of_scaled M hM quarterTurnHist
  obtain ⟨hne, hfilter, _⟩ := quarterTurn_peaks
  have hdbg : (dbg.DEBUG && !dbg.hasTrace) = false := by simp [htrace]
  have hmaxne : ¬ histogramMax (smoothHistogram (scaleHist M quarterTurnHist)) = 0 := by
    rw [hmax]
    exact mul_ne_zero hM.ne' hne
  unfold _computeOrientation
  rw [hdbg, hhist]
  simp only [Bool.false_eq_true, if_false]
  rw [if_neg hmaxne, hpeaks, findPeaks, hfilter, List.map_cons, List.map_nil]

/-- The angle refined from bin 8 of the smoothed single-pixel histogram is within one bin of
`π/2`. -/
theorem quarterTurn_angle :
    |binAngle (refinedBin (smoothHistogram quarterTurnHist) 8) - PI / 2| ≤ 2 * PI / 36 := by
  obtain ⟨_, _, hpeak8⟩ := quarterTurn_peaks
  have hpeak : binValue (smoothHistogram quarterTurnHist) (8 : ℕ) >
        ORIENTATION_PEAK_THRESHOLD * histogramMax (smoothHistogram quarterTurnHist)
      ∧ binValue (smoothHistogram quarterTurnHist) (8 : ℕ) >
        binValue (smoothHistogram quarterTurnHist)
          ((((8 : ℕ) : ℤ) - 1 + (smoothHistogram quarterTurnHist).length).tmod
            (smoothHistogram quarterTurnHist).length)
      ∧ binValue (smoothHistogram quarterTurnHist) (8 : ℕ) >
        binValue (smoothHistogram quarterTurnHist)
          ((((8 : ℕ) : ℤ) + 1).tmod (smoothHistogram quarterTurnHist).length) :=
    of_decide_eq_true hpeak8
  obtain ⟨_, hprev, hnext⟩ := hpeak
  obtain ⟨q, hq, hA, hlo, hhi⟩ := quadratic_at_peak ((8 : ℕ) : ℚ) _ _ _ hprev hnext
  have href : refinedBin (smoothHistogram quarterTurnHist) 8 = -q.B / (2 * q.A) := by
    unfold refinedBin
    simp only []
    rw [hq]
    exact if_pos hA.ne
  rw [href]
  obtain ⟨hb1, hb2⟩ := binAngle_bounds 8 (by norm_num) _ hlo hhi
  have hpi := two_pi_pos
  rw [abs_le]
  push_cast at hb1 hb2
  constructor <;> linarith

/-- C18 (amended): in exact arithmetic, for an integer centre inside a dense gradient field,
any sigma, and a circular window in which every pixel has the angle `Math.PI / 2` and a
positive magnitude (the diagnostic read being harmless), `_computeOrientation` returns
exactly one angle `a`, and `|a - π/2| ≤ 2π/36`. -/
theorem computeOrientation_quarter_turn (dbg : DebugEnv) (x y : ℤ) (sigma : ℚ)
    (g : GradientField) (htrace : dbg.hasTrace = true)
    (hdense : g.values.length = g.width * g.height)
    (hx : 0 ≤ x ∧ x < g.width) (hy : 0 ≤ y ∧ y < g.height)
    (huni : UniformWindow x y sigma g (PI / 2)) :
    ∃ a, _computeOrientation dbg x y sigma g = some [a] ∧ |a - PI / 2| ≤ 2 * PI / 36 :=
  ⟨_, computeOrientation_quarter_eq dbg x y sigma g htrace hdense hx hy huni,
    quarterTurn_angle⟩

theorem sampleGradient_uniform (x y : ℤ) (sigma : ℚ) :
    UniformWindow x y sigma sampleGradient (PI / 2) := by
  intro xp yp _ v hv
  have hmem := sampleGradient.mem_of_at? xp yp v hv
  have hall : ∀ w ∈ sampleGradient.values, w.angle = PI / 2 ∧ 0 < w.mag := by decide!
  exact hall v hmem

/-- C18 (amended) on the 5x5 field `diskField` with centre (2, 2) and sigma 1/4: the radius
is 3/2, the loops run over `0..4` in both directions, so the field holds the whole window,
and the circular window `r2 <= 2` is the disk of positive magnitudes. -/
theorem computeOrientation_quarter_turn_witness :
    (0 : ℚ) < 1 / 4 ∧
    diskField.values.length = diskField.width * diskField.height ∧
    ((0 : ℤ) ≤ 2 - ⌊radiusOf (1 / 4) + 1 / 2⌋ ∧
      2 + ⌊radiusOf (1 / 4) + 1 / 2⌋ ≤ (diskField.width : ℤ) - 1 ∧
      2 + ⌊radiusOf (1 / 4) + 1 / 2⌋ ≤ (diskField.height : ℤ) - 1) ∧
    UniformWindow 2 2 (1 / 4) diskField (PI / 2) ∧
    ∃ a, _computeOrientation ⟨false, true⟩ 2 2 (1 / 4) diskField = some [a] ∧
      |a - PI / 2| ≤ 2 * PI / 36 := by
  have huni : UniformWindow 2 2 (1 / 4) diskField (PI / 2) := by
    have hr : radius2Of (1 / 4) = 2 := by decide!
    intro xp yp hwin v hv
    rw [hr] at hwin
    have hx : 1 ≤ xp ∧ xp ≤ 3 := by constructor <;> nlinarith
    have hy : 1 ≤ yp ∧ yp ≤ 3 := by constructor <;> nlinarith
    obtain ⟨hx1, hx2⟩ := hx
    obtain ⟨hy1, hy2⟩ := hy
    have hall : ∀ a ∈ [(1 : ℤ), 2, 3], ∀ b ∈ [(1 : ℤ), 2, 3], ∀ w,
        diskField.at? a b = some w → w.angle = PI / 2 ∧ 0 < w.mag := by
      decide!
    exact hall xp (by simp; omega) yp (by simp; omega) v hv
  exact ⟨by norm_num, rfl, by decide!, huni,
    computeOrientation_quarter_turn ⟨false, true⟩ 2 2 (1 / 4) diskField rfl rfl
      ⟨by decide, by decide⟩ ⟨by decide, by decide⟩ huni⟩

/-! ## The extrema stage and `detect` -/

/-! ### Lists of optional results -/

theorem concatOption_mem {α β : Type} (f : α → Option (List β)) :
    ∀ (l : List α) (out : List β), concatOption f l = some out →
      ∀ b ∈ out, ∃ a ∈ l, ∃ r, f a = some r ∧ b ∈ r
  | [], out, h, b, hb => by
    rw [concatOption] at h
    rw [← Option.some.inj h] at hb
    exact absurd hb (List.not_mem_nil _)
  | a :: rest, out, h, b, hb => by
    rw [concatOption] at h
    split at h
    · exact absurd h (by simp)
    · rename_i l hl
      split at h
      · exact absurd h (by simp)
      · rename_i more hmore
        rw [← Option.some.inj h] at hb
        rcases List.mem_append.mp hb with h1 | h1
        · exact ⟨a, List.mem_cons_self _ _, l, hl, h1⟩
        · obtain ⟨a2, ha2, r, hr, hbr⟩ := concatOption_mem f rest more hmore b h1
          exact ⟨a2, List.mem_cons_of_mem _ ha2, r, hr, hbr⟩

theorem optionList_all {α : Type} :
    ∀ (l : List (Option α)), (∀ o ∈ l, ∃ b, o = some b) →
      ∃ r, optionList l = some r ∧ r.length = l.length ∧
        (∀ b ∈ r, some b ∈ l) ∧
        ∀ (k : ℕ) (o : Option α), l[k]? = some o → ∃ b, r[k]? = some b ∧ o = some b
  | [], _ => ⟨[], rfl, rfl, fun b hb => absurd hb (List.not_mem_nil _),
      fun k a h => by simp at h⟩
  | o :: rest, hall => by
    obtain ⟨b, hb⟩ := hall o (List.mem_cons_self _ _)
    obtain ⟨r, hr, hlen, hmem, hget⟩ := optionList_all rest
      (fun c hc => hall c (List.mem_cons_of_mem _ hc))
    refine ⟨b :: r, ?_, ?_, ?_, ?_⟩
    · rw [hb, optionList, hr]
    · simp [hlen]
    · intro c hc
      rcases List.mem_cons.mp hc with h1 | h1
      · rw [h1, ← hb]
        exact List.mem_cons_self _ _
      · exact List.mem_cons_of_mem _ (hmem c h1)
    · intro k c hk
      cases k with
      | zero =>
        simp only [List.getElem?_cons_zero, Option.some.injEq] at hk
        exact ⟨b, by simp, hk ▸ hb⟩
      | succ k =>
        simp only [List.getElem?_cons_succ] at hk
        obtain ⟨b2, hb2, hfb⟩ := hget k c hk
        exact ⟨b2, by simpa using hb2, hfb⟩

theorem length_flatMap_const {α β : Type} (f : α → List β) (c : ℕ) :
    ∀ (l : List α), (∀ a ∈ l, (f a).length = c) → (l.flatMap f).length = l.length * c
  | [], _ => by simp
  | a :: rest, h => by
    rw [List.flatMap_cons, List.length_append, h a (List.mem_cons_self _ _),
      length_flatMap_const f c rest (fun b hb => h b (List.mem_cons_of_mem _ hb)),
      List.length_cons]
    ring

/-! ### What an emitted candidate satisfies -/

/-- A feature point pushed by `emitCandidate` carries the score of source line 138, passed the
score test and the bounds test, and has the coordinates of source lines 146-147. -/
theorem emitCandidate_some (host : Host) (gaussN dogN : ℕ) (originalWidth originalHeight : ℕ)
    (octave scale : ℕ) (i j : ℤ) (v : ℚ) (d : Derivatives) (u : Fin 3 → ℚ)
    (fp : FeaturePoint)
    (h : emitCandidate host gaussN dogN originalWidth originalHeight octave scale i j v d u
      = some (some fp)) :
    fp.score = scoreOf v d u ∧ 9 ≤ fp.score * fp.score ∧
    InBounds originalWidth originalHeight fp := by
  unfold emitCandidate at h
  simp only [] at h
  split at h
  · exact absurd h (by simp)
  · rename_i hscore
    split at h
    · exact absurd h (by simp)
    · rename_i hbounds
      split at h
      · exact absurd h (by simp)
      · have hfp := Option.some.inj (Option.some.inj h)
        rw [← hfp]
        simp only [ge_iff_le, not_or, not_lt, not_le] at hbounds
        refine ⟨rfl, ?_, ?_⟩
        · have h9 : LAPLACIAN_SQR_THRESHOLD = 9 := by norm_num [LAPLACIAN_SQR_THRESHOLD]
          rw [h9] at hscore
          exact not_lt.mp hscore
        · exact ⟨hbounds.1, hbounds.2.1, hbounds.2.2.1, hbounds.2.2.2⟩

/-- A feature point pushed by `refineCandidate` comes from a successful linear solve whose
offset passed the sub-pixel distance test and the edge test. -/
theorem refineCandidate_some (host : Host) (gaussN dogN : ℕ) (originalWidth originalHeight : ℕ)
    (octave scale : ℕ) (i j : ℤ) (v : ℚ) (d : Derivatives) (fp : FeaturePoint)
    (h : refineCandidate host gaussN dogN originalWidth originalHeight octave scale i j v d
      = some (some fp)) :
    ∃ u, _solveSymmetric33 (hessianOf d) (bOf d) = some u ∧
      ¬ (u 0 * u 0 + u 1 * u 1 > MAX_SUBPIXEL_DISTANCE_SQR) ∧
      edgeRejected d.dxx d.dyy d.dxy = false ∧
      emitCandidate host gaussN dogN originalWidth originalHeight octave scale i j v d u
        = some (some fp) := by
  unfold refineCandidate at h
  split at h
  · exact absurd h (by simp)
  · rename_i u hu
    split at h
    · exact absurd h (by simp)
    · rename_i hsub
      split at h
      · exact absurd h (by simp)
      · rename_i hedge
        exact ⟨u, hu, hsub, by simpa using hedge, h⟩

/-- A feature point pushed for the pixel `(i, j)`: the value, the three stencils and the
sub-pixel offset it was computed from. -/
theorem candidateAt_some (host : Host) (gaussN dogN : ℕ) (originalWidth originalHeight : ℕ)
    (octave scale : ℕ) (image0 image1 image2 : Image) (i j : ℤ) (fp : FeaturePoint)
    (h : candidateAt host gaussN dogN originalWidth originalHeight octave scale
      image0 image1 image2 i j = some (some fp)) :
    ∃ (v : ℚ) (s0 s1 s2 : Stencil),
      image1.get? (j * image1.width + i) = some v ∧
      image0.stencil? (j * image1.width + i) image1.width = some s0 ∧
      image1.stencil? (j * image1.width + i) image1.width = some s1 ∧
      image2.stencil? (j * image1.width + i) image1.width = some s2 ∧
      refineCandidate host gaussN dogN originalWidth originalHeight octave scale i j v
        (derivativesOf s0 s1 s2) = some (some fp) := by
  unfold candidateAt at h
  simp only [] at h
  split at h
  · exact absurd h (by simp)
  · rename_i v hv
    split at h
    · exact absurd h (by simp)
    · split at h
      · rename_i s0 s1 s2 h0 h1 h2
        split at h
        · exact absurd h (by simp)
        · exact ⟨v, s0, s1, s2, hv, h0, h1, h2, h⟩
      · exact absurd h (by simp)

/-! ### From the stage to the pixel -/

/-- Every feature point of a level was pushed by the pixel body at some pixel of that level. -/
theorem extremaLevel_mem (host : Host) (gaussN : ℕ) (dogPyramid : Pyramid)
    (originalWidth originalHeight : ℕ) (k : ℕ) (l : List FeaturePoint) (fp : FeaturePoint)
    (h : extremaLevel host gaussN dogPyramid originalWidth originalHeight k = some l)
    (hfp : fp ∈ l) :
    ∃ (image0 image1 image2 : Image) (octave scale : ℕ) (i j : ℤ),
      dogPyramid.images[k]? = some image1 ∧
      candidateAt host gaussN dogPyramid.numScalesPerOctaves originalWidth originalHeight
        octave scale image0 image1 image2 i j = some (some fp) := by
  unfold extremaLevel at h
  split at h
  · rename_i level0 image1 level2 h0 h1 h2
    split at h
    · exact absurd h (by simp)
    · simp only [] at h
      obtain ⟨j, _, row, hrow, hfprow⟩ := concatOption_mem _ _ _ h fp hfp
      obtain ⟨i, _, r, hr, hfpr⟩ := concatOption_mem _ _ _ hrow fp hfprow
      rw [Option.map_eq_some'] at hr
      obtain ⟨c, hc, hcr⟩ := hr
      rw [← hcr, Option.mem_toList] at hfpr
      have hc2 : c = some fp := hfpr
      rw [hc2] at hc
      exact ⟨_, image1, _, _, _, i, j, h1, hc⟩
  · exact absurd h (by simp)

/-- Every feature point of the extrema stage was pushed by the pixel body at some pixel of
some DoG level, with the dimensions of the first DoG image as bounds. -/
theorem extremaStage_mem (host : Host) (gaussN : ℕ) (dogPyramid : Pyramid)
    (fps : List FeaturePoint) (fp : FeaturePoint)
    (h : extremaStage host gaussN dogPyramid = some fps) (hfp : fp ∈ fps) :
    ∃ first, dogPyramid.images[0]? = some first ∧
      ∃ (k : ℕ) (image0 image1 image2 : Image) (octave scale : ℕ) (i j : ℤ),
        dogPyramid.images[k]? = some image1 ∧
        candidateAt host gaussN dogPyramid.numScalesPerOctaves first.width first.height
          octave scale image0 image1 image2 i j = some (some fp) := by
  unfold extremaStage at h
  split at h
  · exact absurd h (by simp)
  · rename_i first hfirst
    obtain ⟨k, _, l, hl, hfpl⟩ := concatOption_mem _ _ _ h fp hfp
    obtain ⟨image0, image1, image2, octave, scale, i, j, h1, hc⟩ :=
      extremaLevel_mem host gaussN dogPyramid _ _ k l fp hl hfpl
    exact ⟨first, hfirst, k, image0, image1, image2, octave, scale, i, j, h1, hc⟩

/-- A feature point pushed by the pixel body passed the score test and the bounds test. -/
theorem candidateAt_sound (host : Host) (gaussN dogN : ℕ) (originalWidth originalHeight : ℕ)
    (octave scale : ℕ) (image0 image1 image2 : Image) (i j : ℤ) (fp : FeaturePoint)
    (h : candidateAt host gaussN dogN originalWidth originalHeight octave scale
      image0 image1 image2 i j = some (some fp)) :
    9 ≤ fp.score * fp.score ∧ InBounds originalWidth originalHeight fp := by
  obtain ⟨v, s0, s1, s2, _, _, _, _, hr⟩ := candidateAt_some _ _ _ _ _ _ _ _ _ _ _ _ _ h
  obtain ⟨u, _, _, _, he⟩ := refineCandidate_some _ _ _ _ _ _ _ _ _ _ _ _ hr
  exact (emitCandidate_some _ _ _ _ _ _ _ _ _ _ _ _ _ he).2

/-- Every feature point of the extrema stage passed the score test and lies inside the first
DoG image. -/
theorem extremaStage_sound (host : Host) (gaussN : ℕ) (dogPyramid : Pyramid)
    (fps : List FeaturePoint) (h : extremaStage host gaussN dogPyramid = some fps) :
    ∃ first, dogPyramid.images[0]? = some first ∧
      ∀ fp ∈ fps, 9 ≤ fp.score * fp.score ∧ InBounds first.width first.height fp := by
  unfold extremaStage at h
  split at h
  · exact absurd h (by simp)
  · rename_i first hfirst
    refine ⟨first, hfirst, ?_⟩
    intro fp hfp
    obtain ⟨k, _, l, hl, hfpl⟩ := concatOption_mem _ _ _ h fp hfp
    obtain ⟨image0, image1, image2, octave, scale, i, j, _, hc⟩ :=
      extremaLevel_mem host gaussN dogPyramid _ _ k l fp hl hfpl
    exact candidateAt_sound _ _ _ _ _ _ _ _ _ _ _ _ _ hc

/-! ### The stages of `detect` -/

/-- With every input inside the image, pruning only removes points. -/
theorem pruneFeatures_mem (S : BucketSort) (fps : List FeaturePoint) (w h : ℚ)
    (hb : ∀ p ∈ fps, InBounds w h p) (pruned : List FeaturePoint)
    (hp : _pruneFeatures S fps w h = some pruned) : ∀ p ∈ pruned, p ∈ fps := by
  by_cases hlen : fps.length ≤ MAX_FEATURE_POINTS
  · unfold _pruneFeatures at hp
    rw [if_pos hlen] at hp
    rw [← Option.some.inj hp]
    exact fun p hp => hp
  · have hlen2 : MAX_FEATURE_POINTS < fps.length := not_le.mp hlen
    have hne : fps ≠ [] := by
      intro h0
      rw [h0] at hlen2
      exact absurd hlen2 (by simp)
    obtain ⟨q, hq⟩ := List.exists_mem_of_ne_nil fps hne
    obtain ⟨hx0, hx1, hy0, hy1⟩ := hb q hq
    have hw : 0 < w := lt_of_le_of_lt hx0 hx1
    have hh : 0 < h := lt_of_le_of_lt hy0 hy1
    rw [pruneFeatures_trim S fps w h hw hh hb hlen2] at hp
    rw [← Option.some.inj hp]
    intro p hmem
    obtain ⟨k, _, hk⟩ := List.mem_flatMap.mp hmem
    have hbk := selectBucket_mem S 5 _ p hk
    unfold bucketOf at hbk
    exact (List.mem_filter.mp hbk).1

/-- Every oriented feature point extends one of the feature points given to the loop. -/
theorem orientFeatures_mem (dbg : DebugEnv) (numScalesPerOctaves : ℕ)
    (gradients : List GradientField) :
    ∀ (l : List FeaturePoint) (out : List OrientedFeaturePoint),
      orientFeatures dbg numScalesPerOctaves gradients l = some out →
      ∀ o ∈ out, o.toFeaturePoint ∈ l
  | [], out, h, o, ho => by
    rw [orientFeatures] at h
    rw [← Option.some.inj h] at ho
    exact absurd ho (List.not_mem_nil _)
  | fp :: rest, out, h, o, ho => by
    rw [orientFeatures] at h
    split at h
    · exact absurd h (by simp)
    · rename_i oriented horiented
      split at h
      · exact absurd h (by simp)
      · rename_i more hmore
        rw [← Option.some.inj h] at ho
        rcases List.mem_append.mp ho with h1 | h1
        · unfold orientFeature at horiented
          simp only [] at horiented
          split at horiented
          · exact absurd horiented (by simp)
          · split at horiented
            · exact absurd horiented (by simp)
            · rw [← Option.some.inj horiented] at h1
              obtain ⟨a, _, ha⟩ := List.mem_map.mp h1
              rw [← ha]
              exact List.mem_cons_self _ _
        · exact List.mem_cons_of_mem _
            (orientFeatures_mem dbg numScalesPerOctaves gradients rest more hmore o h1)

/-- A run of `detect` that returns went through its four stages. -/
theorem detect_stages (host : Host) (dbg : DebugEnv) (S : BucketSort)
    (gaussianPyramid dogPyramid : Pyramid) (out : List OrientedFeaturePoint)
    (h : detect host dbg S gaussianPyramid dogPyramid = some out) :
    ∃ (first : Image) (fps pruned : List FeaturePoint) (gradients : List GradientField),
      dogPyramid.images[0]? = some first ∧
      extremaStage host gaussianPyramid.numScalesPerOctaves dogPyramid = some fps ∧
      _pruneFeatures S fps first.width first.height = some pruned ∧
      _computeGradients host gaussianPyramid = some gradients ∧
      orientFeatures dbg gaussianPyramid.numScalesPerOctaves gradients pruned = some out := by
  unfold detect at h
  split at h
  · exact absurd h (by simp)
  · rename_i first hfirst
    split at h
    · exact absurd h (by simp)
    · rename_i fps hfps
      split at h
      · exact absurd h (by simp)
      · split at h
        · exact absurd h (by simp)
        · rename_i pruned hpruned
          split at h
          · exact absurd h (by simp)
          · rename_i gradients hgradients
            exact ⟨first, fps, pruned, gradients, hfirst, hfps, hpruned, hgradients, h⟩

/-- Every feature point `detect` returns extends a candidate of the extrema stage, which
passed the score test and lies inside the first DoG image. -/
theorem detect_sound (host : Host) (dbg : DebugEnv) (S : BucketSort)
    (gaussianPyramid dogPyramid : Pyramid) (out : List OrientedFeaturePoint)
    (h : detect host dbg S gaussianPyramid dogPyramid = some out) :
    ∃ (first : Image) (fps : List FeaturePoint),
      dogPyramid.images[0]? = some first ∧
      extremaStage host gaussianPyramid.numScalesPerOctaves dogPyramid = some fps ∧
      (∀ p ∈ fps, 9 ≤ p.score * p.score ∧ InBounds first.width first.height p) ∧
      ∀ o ∈ out, o.toFeaturePoint ∈ fps := by
  obtain ⟨first, fps, pruned, gradients, hfirst, hfps, hpruned, _, horient⟩ :=
    detect_stages host dbg S gaussianPyramid dogPyramid out h
  obtain ⟨first2, hfirst2, hsound⟩ := extremaStage_sound host _ dogPyramid fps hfps
  have hsame : first2 = first := Option.some.inj (hfirst2.symm.trans hfirst)
  rw [hsame] at hsound
  refine ⟨first, fps, hfirst, hfps, hsound, ?_⟩
  intro o ho
  exact pruneFeatures_mem S fps first.width first.height (fun p hp => (hsound p hp).2) pruned
    hpruned _ (orientFeatures_mem dbg _ gradients pruned out horient o ho)

/-! ### A complete run of `detect` -/

/-- With `sampleHost`, a reference trace and `window.DEBUG` unset, `detect` on
`sampleGaussian` and `slopeDog` returns the single point `sampleOriented`. -/
theorem sample_detect :
    detect sampleHost ⟨false, true⟩ insertionBucketSort sampleGaussian slopeDog
      = some [sampleOriented] := by
  have h0 : slopeDog.images[0]? = some zeroImage := rfl
  have h1 : extremaStage sampleHost sampleGaussian.numScalesPerOctaves slopeDog
      = some [slopePoint] := by decide!
  have h2 : _pruneFeatures insertionBucketSort [slopePoint] zeroImage.width zeroImage.height
      = some [slopePoint] := by
    unfold _pruneFeatures
    exact if_pos (by decide)
  have h3 : _computeGradients sampleHost sampleGaussian
      = some [⟨3, 3, List.replicate 9 ⟨PI, 0⟩⟩, sampleGradient] := by decide!
  have h4 : _computeOrientation ⟨false, true⟩ slopePoint.octaveX slopePoint.octaveY
      (slopePoint.sigma * (1 / 2 ^ slopePoint.octave)) sampleGradient
      = some [binAngle (refinedBin (smoothHistogram quarterTurnHist) 8)] :=
    computeOrientation_quarter_eq ⟨false, true⟩ _ _ _ sampleGradient rfl rfl
      ⟨by decide, by decide⟩ ⟨by decide, by decide⟩ (sampleGradient_uniform _ _ _)
  have h5 : ([⟨3, 3, List.replicate 9 ⟨PI, 0⟩⟩, sampleGradient] : List GradientField)[
      slopePoint.octave * sampleGaussian.numScalesPerOctaves + slopePoint.scale]?
      = some sampleGradient := rfl
  unfold detect
  simp only [h0, h1, h2, h3]
  rw [orientFeatures, orientFeature]
  simp only [h5, h4, orientFeatures]
  rfl

/-! ### The score of an emitted candidate, level by level -/

/-- Every feature point of a level was pushed by the pixel body at a pixel of that level,
with the level below and the level above aligned as source lines 38-47 do. -/
theorem extremaLevel_pixel (host : Host) (gaussN : ℕ) (dogPyramid : Pyramid)
    (originalWidth originalHeight : ℕ) (k : ℕ) (l : List FeaturePoint) (fp : FeaturePoint)
    (h : extremaLevel host gaussN dogPyramid originalWidth originalHeight k = some l)
    (hfp : fp ∈ l) :
    ∃ (level0 image1 level2 : Image) (i j : ℤ),
      dogPyramid.images[k - 1]? = some level0 ∧ dogPyramid.images[k]? = some image1 ∧
      dogPyramid.images[k + 1]? = some level2 ∧
      (1 ≤ i ∧ i + 1 < image1.width) ∧ (1 ≤ j ∧ j + 1 < image1.height) ∧
      candidateAt host gaussN dogPyramid.numScalesPerOctaves originalWidth originalHeight
        (k / dogPyramid.numScalesPerOctaves) (k % dogPyramid.numScalesPerOctaves)
        (imageBelow host level0 image1) image1 (imageAbove host image1 level2) i j
        = some (some fp) := by
  unfold extremaLevel at h
  split at h
  · rename_i level0 image1 level2 h0 h1 h2
    split at h
    · exact absurd h (by simp)
    · simp only [] at h
      obtain ⟨j, hj, row, hrow, hfprow⟩ := concatOption_mem _ _ _ h fp hfp
      obtain ⟨i, hi, r, hr, hfpr⟩ := concatOption_mem _ _ _ hrow fp hfprow
      rw [Option.map_eq_some'] at hr
      obtain ⟨c, hc, hcr⟩ := hr
      rw [← hcr, Option.mem_toList] at hfpr
      have hc2 : c = some fp := hfpr
      rw [hc2] at hc
      have hi2 := mem_intRange _ _ _ hi
      have hj2 := mem_intRange _ _ _ hj
      refine ⟨level0, image1, level2, i, j, h0, h1, h2, ?_, ?_, ?_⟩
      · obtain ⟨ha, hb⟩ := hi2
        constructor
        · split_ifs at ha <;> omega
        · split_ifs at hb <;> omega
      · obtain ⟨ha, hb⟩ := hj2
        constructor
        · split_ifs at ha <;> omega
        · split_ifs at hb <;> omega
      unfold imageBelow imageAbove
      by_cases hup : image1.width / 2 = level2.width
      · simpa [hup] using hc
      · simpa [hup] using hc
  · exact absurd h (by simp)

/-- The score the pixel body gives the feature point it pushes: `v - (b . u)` with
`b = -gradient`, that is `v + (dx*u0 + dy*u1 + ds*u2)`, for the value, the stencils and the
solution read and computed at that pixel. -/
theorem candidateAt_score (host : Host) (gaussN dogN : ℕ) (originalWidth originalHeight : ℕ)
    (octave scale : ℕ) (image0 image1 image2 : Image) (i j : ℤ) (fp : FeaturePoint)
    (h : candidateAt host gaussN dogN originalWidth originalHeight octave scale
      image0 image1 image2 i j = some (some fp)) :
    ∃ (v : ℚ) (s0 s1 s2 : Stencil) (u : Fin 3 → ℚ),
      image1.get? (j * image1.width + i) = some v ∧
      image0.stencil? (j * image1.width + i) image1.width = some s0 ∧
      image1.stencil? (j * image1.width + i) image1.width = some s1 ∧
      image2.stencil? (j * image1.width + i) image1.width = some s2 ∧
      _solveSymmetric33 (hessianOf (derivativesOf s0 s1 s2))
        ![-(derivativesOf s0 s1 s2).dx, -(derivativesOf s0 s1 s2).dy,
          -(derivativesOf s0 s1 s2).ds] = some u ∧
      fp.score = v + ((derivativesOf s0 s1 s2).dx * u 0 + (derivativesOf s0 s1 s2).dy * u 1
        + (derivativesOf s0 s1 s2).ds * u 2) := by
  obtain ⟨v, s0, s1, s2, hv, h0, h1, h2, hr⟩ := candidateAt_some _ _ _ _ _ _ _ _ _ _ _ _ _ h
  obtain ⟨u, hu, _, _, he⟩ := refineCandidate_some _ _ _ _ _ _ _ _ _ _ _ _ hr
  obtain ⟨hscore, _, _⟩ := emitCandidate_some _ _ _ _ _ _ _ _ _ _ _ _ _ he
  refine ⟨v, s0, s1, s2, u, hv, h0, h1, h2, hu, ?_⟩
  rw [hscore]
  simp only [scoreOf, bOf, Matrix.cons_val_zero, Matrix.cons_val_one, Matrix.head_cons,
    Matrix.cons_val_two, Matrix.tail_cons]
  ring

/-! ### The gradient fields -/

theorem Image.get?_some (image : Image) (pos : ℤ) (h0 : 0 ≤ pos)
    (h1 : pos < image.data.length) : ∃ v, image.get? pos = some v := by
  unfold Image.get?
  rw [if_neg (not_lt.mpr h0)]
  have hlt : pos.toNat < image.data.length := by omega
  exact ⟨image.data[pos.toNat], List.getElem?_eq_getElem hlt⟩

theorem pixel_index_range (w h : ℕ) (a b : ℤ) (ha0 : 0 ≤ a) (ha1 : a < h) (hb0 : 0 ≤ b)
    (hb1 : b < w) : 0 ≤ a * w + b ∧ a * w + b < ((w * h : ℕ) : ℤ) := by
  have hw : (0 : ℤ) ≤ w := Int.natCast_nonneg w
  constructor
  · have := mul_nonneg ha0 hw
    linarith
  · push_cast
    have h1 : a + 1 ≤ h := by omega
    have h2 : (a + 1) * w ≤ h * w := mul_le_mul_of_nonneg_right h1 hw
    nlinarith

/-- On an image that holds all its pixels the four reads of source lines 453-454 succeed, and
the entry pushed is the one of source lines 456-459, computed from these four values. -/
theorem gradientAt_some (host : Host) (image : Image) (j i : ℕ) (hj : j < image.height)
    (hi : i < image.width) (hdense : image.width * image.height ≤ image.data.length) :
    ∃ right left down up : ℚ,
      image.get? (j * image.width + nextIndex i image.width) = some right ∧
      image.get? (j * image.width + prevIndex i) = some left ∧
      image.get? (nextIndex j image.height * image.width + i) = some down ∧
      image.get? (prevIndex j * image.width + i) = some up ∧
      gradientAt host image j i
        = some ⟨host.atan2 (down - up) (right - left) + PI,
            host.sqrt ((right - left) * (right - left) + (down - up) * (down - up))⟩ := by
  have hjz : ((j : ℕ) : ℤ) < image.height := by exact_mod_cast hj
  have hiz : ((i : ℕ) : ℤ) < image.width := by exact_mod_cast hi
  have hj0 : (0 : ℤ) ≤ j := Int.natCast_nonneg j
  have hi0 : (0 : ℤ) ≤ i := Int.natCast_nonneg i
  have hlen : ((image.width * image.height : ℕ) : ℤ) ≤ image.data.length := by
    exact_mod_cast hdense
  have hread : ∀ a b : ℤ, 0 ≤ a → a < image.height → 0 ≤ b → b < image.width →
      ∃ v, image.get? (a * image.width + b) = some v := by
    intro a b ha0 ha1 hb0 hb1
    obtain ⟨h1, h2⟩ := pixel_index_range image.width image.height a b ha0 ha1 hb0 hb1
    exact image.get?_some _ h1 (lt_of_lt_of_le h2 hlen)
  obtain ⟨right, hright⟩ := hread j (nextIndex i image.width) hj0 hjz
    (by unfold nextIndex; split_ifs <;> omega) (by unfold nextIndex; split_ifs <;> omega)
  obtain ⟨left, hleft⟩ := hread j (prevIndex i) hj0 hjz
    (by unfold prevIndex; split_ifs <;> omega) (by unfold prevIndex; split_ifs <;> omega)
  obtain ⟨down, hdown⟩ := hread (nextIndex j image.height) i
    (by unfold nextIndex; split_ifs <;> omega) (by unfold nextIndex; split_ifs <;> omega)
    hi0 hiz
  obtain ⟨up, hup⟩ := hread (prevIndex j) i
    (by unfold prevIndex; split_ifs <;> omega) (by unfold prevIndex; split_ifs <;> omega)
    hi0 hiz
  refine ⟨right, left, down, up, hright, hleft, hdown, hup, ?_⟩
  unfold nextIndex at hright hdown
  unfold prevIndex at hleft hup
  unfold gradientAt
  simp only [hright, hleft, hdown, hup]

/-- The range of an entry: the magnitude is not negative and the angle lies in `[0, 2π]`. -/
theorem gradient_entry_range (host : Host) (dx dy : ℚ) :
    0 ≤ host.sqrt (dx * dx + dy * dy) ∧ 0 ≤ host.atan2 dy dx + PI ∧
      host.atan2 dy dx + PI ≤ 2 * PI := by
  have h1 := host.atan2_ge dy dx
  have h2 := host.atan2_le dy dx
  exact ⟨host.sqrt_nonneg _, by linarith, by linarith⟩

/-- Entry `j * w + i` of a list built row by row from rows of `w` entries. -/
theorem rows_getElem? {α : Type} (f : ℕ → ℕ → α) (w : ℕ) :
    ∀ (h j i : ℕ), j < h → i < w →
      ((List.range h).flatMap fun (j : ℕ) => (List.range w).map fun (i : ℕ) => f j i)[
        j * w + i]? = some (f j i)
  | 0, j, i, hj, _ => absurd hj (Nat.not_lt_zero j)
  | h + 1, j, i, hj, hi => by
    have hlen : ((List.range h).flatMap fun (j : ℕ) =>
        (List.range w).map fun (i : ℕ) => f j i).length = h * w := by
      rw [length_flatMap_const _ w _ (fun j _ => by simp), List.length_range]
    rw [List.range_succ, List.flatMap_append]
    rcases Nat.lt_succ_iff_lt_or_eq.mp hj with hlt | heq
    · have hidx : j * w + i < h * w := by
        have : (j + 1) * w ≤ h * w := Nat.mul_le_mul_right w hlt
        nlinarith
      rw [List.getElem?_append_left (by rw [hlen]; exact hidx)]
      exact rows_getElem? f w h j i hlt hi
    · rw [heq, List.getElem?_append_right (by rw [hlen]; exact Nat.le_add_right _ _), hlen,
        Nat.add_sub_cancel_left]
      simp [hi]

/-- On an image that holds all its pixels `gradientField` returns a field of the image's size
whose entry for the pixel `(i, j)` is the one `gradientAt` computes there. -/
theorem gradientField_some (host : Host) (image : Image)
    (hdense : image.width * image.height ≤ image.data.length) :
    ∃ values, gradientField host image = some ⟨image.width, image.height, values⟩ ∧
      values.length = image.width * image.height ∧
      ∀ (j i : ℕ), j < image.height → i < image.width →
        ∃ v, values[j * image.width + i]? = some v ∧ gradientAt host image j i = some v := by
  have hall : ∀ o ∈ ((List.range image.height).flatMap fun (j : ℕ) =>
      (List.range image.width).map fun (i : ℕ) => gradientAt host image j i),
      ∃ b, o = some b := by
    intro o ho
    obtain ⟨j, hj, hoj⟩ := List.mem_flatMap.mp ho
    obtain ⟨i, hi, hoi⟩ := List.mem_map.mp hoj
    obtain ⟨_, _, _, _, _, _, _, _, hg⟩ := gradientAt_some host image j i (List.mem_range.mp hj)
      (List.mem_range.mp hi) hdense
    exact ⟨_, hoi ▸ hg⟩
  obtain ⟨values, hvalues, hlen, _, hget⟩ := optionList_all _ hall
  refine ⟨values, ?_, ?_, ?_⟩
  · unfold gradientField
    rw [hvalues]
  · rw [hlen, length_flatMap_const _ image.width _ (fun j _ => by simp), List.length_range,
      Nat.mul_comm]
  · intro j i hj hi
    obtain ⟨v, hv, hgv⟩ := hget (j * image.width + i) _
      (rows_getElem? (fun j i => gradientAt host image j i) image.width image.height j i hj hi)
    exact ⟨v, hv, hgv⟩

/-! ### The extrema stage: score and edge test -/

/-- C12, the claim as stated fails: at the centre of the middle level of `slopeDog` the value
is 10, the gradient is `(1, 0, 0)` and the solve returns `u = (1/6, 0, 0)`; the extrema stage
emits the score `61/6`, which is `v + gradient . u`, while `v - gradient . u` is `59/6`. -/
theorem extrema_score_counterexample :
    extremaStage sampleHost 3 slopeDog = some [slopePoint] ∧
    slopeDog.images[1]? = some ⟨3, 3, [0, 6, 0, 6, 10, 8, 0, 6, 0]⟩ ∧
    Image.stencil? ⟨3, 3, [0, 6, 0, 6, 10, 8, 0, 6, 0]⟩ 4 3 = some slopeStencil ∧
    zeroImage.stencil? 4 3 = some zeroStencil ∧
    (slopeDerivatives.dx, slopeDerivatives.dy, slopeDerivatives.ds) = (1, 0, 0) ∧
    _solveSymmetric33 (hessianOf slopeDerivatives) (bOf slopeDerivatives)
      = some ![1 / 6, 0, 0] ∧
    slopePoint.score = 61 / 6 ∧
    slopePoint.score ≠ 10 - (slopeDerivatives.dx * (1 / 6) + slopeDerivatives.dy * 0
      + slopeDerivatives.ds * 0) := by
  decide!

/-- C12 (amended): every candidate `fp` emitted by the extrema stage is what the pixel body
pushes at some pixel `(i, j)` of a DoG level `k` of the level loop, read against the level
below and the level above as source lines 38-47 align them; with `v` the value at that
pixel, `(dx, dy, ds)` the central-difference gradient there and `u` the solution of the
linear solve with right-hand side `b = -gradient`, its score is `v - (b . u)`, that is
`v + (dx*u0 + dy*u1 + ds*u2)`. -/
theorem extrema_score (host : Host) (gaussN : ℕ) (dogPyramid : Pyramid)
    (fps : List FeaturePoint) (fp : FeaturePoint)
    (h : extremaStage host gaussN dogPyramid = some fps) (hfp : fp ∈ fps) :
    ∃ (first : Image) (k : ℕ) (level0 image1 level2 : Image) (i j : ℤ),
      dogPyramid.images[0]? = some first ∧ 1 ≤ k ∧ k + 1 < dogPyramid.images.length ∧
      dogPyramid.images[k - 1]? = some level0 ∧ dogPyramid.images[k]? = some image1 ∧
      dogPyramid.images[k + 1]? = some level2 ∧
      (1 ≤ i ∧ i + 1 < image1.width) ∧ (1 ≤ j ∧ j + 1 < image1.height) ∧
      candidateAt host gaussN dogPyramid.numScalesPerOctaves first.width first.height
        (k / dogPyramid.numScalesPerOctaves) (k % dogPyramid.numScalesPerOctaves)
        (imageBelow host level0 image1) image1 (imageAbove host image1 level2) i j
        = some (some fp) ∧
      ∃ (v : ℚ) (s0 s1 s2 : Stencil) (u : Fin 3 → ℚ),
        image1.get? (j * image1.width + i) = some v ∧
        (imageBelow host level0 image1).stencil? (j * image1.width + i) image1.width
          = some s0 ∧
        image1.stencil? (j * image1.width + i) image1.width = some s1 ∧
        (imageAbove host image1 level2).stencil? (j * image1.width + i) image1.width
          = some s2 ∧
        _solveSymmetric33 (hessianOf (derivativesOf s0 s1 s2))
          ![-(derivativesOf s0 s1 s2).dx, -(derivativesOf s0 s1 s2).dy,
            -(derivativesOf s0 s1 s2).ds] = some u ∧
        fp.score = v + ((derivativesOf s0 s1 s2).dx * u 0
          + (derivativesOf s0 s1 s2).dy * u 1 + (derivativesOf s0 s1 s2).ds * u 2) := by
  unfold extremaStage at h
  split at h
  · exact absurd h (by simp)
  · rename_i first hfirst
    obtain ⟨k, hk, l, hl, hfpl⟩ := concatOption_mem _ _ _ h fp hfp
    obtain ⟨level0, image1, level2, i, j, h0, h1, h2, hi, hj, hc⟩ :=
      extremaLevel_pixel host gaussN dogPyramid _ _ k l fp hl hfpl
    obtain ⟨hk1, hk2⟩ := List.mem_range'_1.mp hk
    have hklen : k + 1 < dogPyramid.images.length := by omega
    exact ⟨first, k, level0, image1, level2, i, j, hfirst, hk1, hklen, h0, h1, h2, hi, hj, hc,
      candidateAt_score _ _ _ _ _ _ _ _ _ _ _ _ _ hc⟩

/-- C12 (amended) on `slopeDog`, whose extrema stage emits `slopePoint`. -/
theorem extrema_score_witness :
    extremaStage sampleHost 3 slopeDog = some [slopePoint] ∧
    ∃ (first : Image) (k : ℕ) (level0 image1 level2 : Image) (i j : ℤ),
      slopeDog.images[0]? = some first ∧ 1 ≤ k ∧ k + 1 < slopeDog.images.length ∧
      slopeDog.images[k - 1]? = some level0 ∧ slopeDog.images[k]? = some image1 ∧
      slopeDog.images[k + 1]? = some level2 ∧
      (1 ≤ i ∧ i + 1 < image1.width) ∧ (1 ≤ j ∧ j + 1 < image1.height) ∧
      candidateAt sampleHost 3 slopeDog.numScalesPerOctaves first.width first.height
        (k / slopeDog.numScalesPerOctaves) (k % slopeDog.numScalesPerOctaves)
        (imageBelow sampleHost level0 image1) image1 (imageAbove sampleHost image1 level2) i j
        = some (some slopePoint) ∧
      ∃ (v : ℚ) (s0 s1 s2 : Stencil) (u : Fin 3 → ℚ),
        image1.get? (j * image1.width + i) = some v ∧
        (imageBelow sampleHost level0 image1).stencil? (j * image1.width + i) image1.width
          = some s0 ∧
        image1.stencil? (j * image1.width + i) image1.width = some s1 ∧
        (imageAbove sampleHost image1 level2).stencil? (j * image1.width + i) image1.width
          = some s2 ∧
        _solveSymmetric33 (hessianOf (derivativesOf s0 s1 s2))
          ![-(derivativesOf s0 s1 s2).dx, -(derivativesOf s0 s1 s2).dy,
            -(derivativesOf s0 s1 s2).ds] = some u ∧
        slopePoint.score = v + ((derivativesOf s0 s1 s2).dx * u 0
          + (derivativesOf s0 s1 s2).dy * u 1 + (derivativesOf s0 s1 s2).ds * u 2) :=
  ⟨by decide!,
    extrema_score sampleHost 3 slopeDog [slopePoint] slopePoint (by decide!)
      (List.mem_singleton.mpr rfl)⟩

/-- C13, the claim as stated fails: at the centre of the middle level of `edgeDog` the
derivatives are `dxx = -4`, `dyy = -1`, `dxy = 0`, so `|edgeScore|` equals 6.25 exactly and
does not exceed it; the candidate passed the solve and the sub-pixel test and would be emitted
by what follows the edge test, yet the edge test discards it. -/
theorem edge_threshold_counterexample :
    (edgeDerivatives.dxx, edgeDerivatives.dyy, edgeDerivatives.dxy) = (-4, -1, 0) ∧
    |edgeScoreOf (-4) (-1) 0| = 25 / 4 ∧
    EDGE_HESSIAN_THRESHOLD = 25 / 4 ∧
    ¬ (|edgeScoreOf (-4) (-1) 0| > EDGE_HESSIAN_THRESHOLD) ∧
    _solveSymmetric33 (hessianOf edgeDerivatives) (bOf edgeDerivatives) = some ![0, 0, 0] ∧
    ¬ ((0 : ℚ) * 0 + 0 * 0 > MAX_SUBPIXEL_DISTANCE_SQR) ∧
    emitCandidate sampleHost 3 3 3 3 0 1 1 1 10 edgeDerivatives ![0, 0, 0]
      = some (some edgePoint) ∧
    refineCandidate sampleHost 3 3 3 3 0 1 1 1 10 edgeDerivatives = some none ∧
    edgeDog.images[1]? = some ⟨3, 3, [0, 19 / 2, 0, 8, 10, 8, 0, 19 / 2, 0]⟩ ∧
    Image.stencil? ⟨3, 3, [0, 19 / 2, 0, 8, 10, 8, 0, 19 / 2, 0]⟩ 4 3 = some edgeStencil ∧
    extremaStage sampleHost 3 edgeDog = some [] := by
  decide!

/-- C13 (amended): a candidate that passed the solve and the sub-pixel distance test is
discarded by the edge test exactly when `dxx*dyy - dxy^2` is zero or `|edgeScore|` is at least
`(T+1)^2/T = 6.25`; otherwise the pixel body goes on with what follows the edge test.  A
candidate whose `|edgeScore|` equals 6.25 exactly is discarded. -/
theorem edge_test_exact (host : Host) (gaussN dogN : ℕ) (originalWidth originalHeight : ℕ)
    (octave scale : ℕ) (i j : ℤ) (v : ℚ) (d : Derivatives) (u : Fin 3 → ℚ)
    (hsolve : _solveSymmetric33 (hessianOf d) (bOf d) = some u)
    (hsub : ¬ (u 0 * u 0 + u 1 * u 1 > MAX_SUBPIXEL_DISTANCE_SQR)) :
    EDGE_HESSIAN_THRESHOLD = 25 / 4 ∧
    ((d.dxx * d.dyy - d.dxy * d.dxy = 0 ∨ 25 / 4 ≤ |edgeScoreOf d.dxx d.dyy d.dxy|) →
      refineCandidate host gaussN dogN originalWidth originalHeight octave scale i j v d
        = some none) ∧
    (¬ (d.dxx * d.dyy - d.dxy * d.dxy = 0 ∨ 25 / 4 ≤ |edgeScoreOf d.dxx d.dyy d.dxy|) →
      refineCandidate host gaussN dogN originalWidth originalHeight octave scale i j v d
        = emitCandidate host gaussN dogN originalWidth originalHeight octave scale i j v d
          u) := by
  have hT : EDGE_HESSIAN_THRESHOLD = 25 / 4 := by
    norm_num [EDGE_HESSIAN_THRESHOLD, EDGE_THRESHOLD]
  have hedge : edgeRejected d.dxx d.dyy d.dxy = true ↔
      (d.dxx * d.dyy - d.dxy * d.dxy = 0 ∨ 25 / 4 ≤ |edgeScoreOf d.dxx d.dyy d.dxy|) := by
    unfold edgeRejected
    simp only [hT]
    by_cases hdet : d.dxx * d.dyy - d.dxy * d.dxy = 0
    · simp [hdet]
    · simp [hdet]
  refine ⟨hT, ?_, ?_⟩
  · intro hrej
    unfold refineCandidate
    simp only [hsolve]
    rw [if_neg hsub, if_pos (hedge.mpr hrej)]
  · intro hrej
    have hfalse : ¬ edgeRejected d.dxx d.dyy d.dxy = true := fun h => hrej (hedge.mp h)
    unfold refineCandidate
    simp only [hsolve]
    rw [if_neg hsub, if_neg hfalse]

/-- C13 (amended) at the centre of the middle level of `edgeDog`. -/
theorem edge_test_exact_witness :
    _solveSymmetric33 (hessianOf edgeDerivatives) (bOf edgeDerivatives) = some ![0, 0, 0] ∧
    EDGE_HESSIAN_THRESHOLD = 25 / 4 ∧
    ((edgeDerivatives.dxx * edgeDerivatives.dyy - edgeDerivatives.dxy * edgeDerivatives.dxy = 0
        ∨ 25 / 4 ≤ |edgeScoreOf edgeDerivatives.dxx edgeDerivatives.dyy edgeDerivatives.dxy|) →
      refineCandidate sampleHost 3 3 3 3 0 1 1 1 10 edgeDerivatives = some none) ∧
    (¬ (edgeDerivatives.dxx * edgeDerivatives.dyy - edgeDerivatives.dxy * edgeDerivatives.dxy
          = 0
        ∨ 25 / 4 ≤ |edgeScoreOf edgeDerivatives.dxx edgeDerivatives.dyy edgeDerivatives.dxy|) →
      refineCandidate sampleHost 3 3 3 3 0 1 1 1 10 edgeDerivatives
        = emitCandidate sampleHost 3 3 3 3 0 1 1 1 10 edgeDerivatives ![0, 0, 0]) :=
  ⟨by decide!,
    edge_test_exact sampleHost 3 3 3 3 0 1 1 1 10 edgeDerivatives ![0, 0, 0] (by decide!)
      (by decide!)⟩

/-! ### The invariants of `detect` -/

/-- The score invariant in exact arithmetic: every feature point in the list `detect`
returns has `score * score ≥ 9`, and its feature point part, score included, is one of the
candidates of the extrema stage. -/
theorem detect_score_invariant (host : Host) (dbg : DebugEnv) (S : BucketSort)
    (gaussianPyramid dogPyramid : Pyramid) (out : List OrientedFeaturePoint)
    (h : detect host dbg S gaussianPyramid dogPyramid = some out) :
    (∀ o ∈ out, 9 ≤ o.score * o.score) ∧
    ∃ fps, extremaStage host gaussianPyramid.numScalesPerOctaves dogPyramid = some fps ∧
      ∀ o ∈ out, o.toFeaturePoint ∈ fps := by
  obtain ⟨first, fps, _, hfps, hsound, hmem⟩ :=
    detect_sound host dbg S gaussianPyramid dogPyramid out h
  exact ⟨fun o ho => (hsound _ (hmem o ho)).1, fps, hfps, hmem⟩

/-- The score invariant in exact arithmetic on the run of `detect` that returns
`sampleOriented`. -/
theorem detect_score_invariant_witness :
    detect sampleHost ⟨false, true⟩ insertionBucketSort sampleGaussian slopeDog
      = some [sampleOriented] ∧
    (∀ o ∈ [sampleOriented], 9 ≤ o.score * o.score) ∧
    ∃ fps, extremaStage sampleHost sampleGaussian.numScalesPerOctaves slopeDog = some fps ∧
      ∀ o ∈ [sampleOriented], o.toFeaturePoint ∈ fps :=
  ⟨sample_detect,
    detect_score_invariant sampleHost ⟨false, true⟩ insertionBucketSort sampleGaussian slopeDog
      [sampleOriented] sample_detect⟩

/-- The bounds invariant in exact arithmetic: every feature point in the list `detect`
returns has `0 ≤ x < originalWidth` and `0 ≤ y < originalHeight`, the dimensions of the first
DoG image, and so has every candidate of the extrema stage, the input of the pruner. -/
theorem detect_bounds_invariant (host : Host) (dbg : DebugEnv) (S : BucketSort)
    (gaussianPyramid dogPyramid : Pyramid) (out : List OrientedFeaturePoint)
    (h : detect host dbg S gaussianPyramid dogPyramid = some out) :
    ∃ first, dogPyramid.images[0]? = some first ∧
      (∀ o ∈ out, 0 ≤ o.x ∧ o.x < first.width ∧ 0 ≤ o.y ∧ o.y < first.height) ∧
      ∃ fps, extremaStage host gaussianPyramid.numScalesPerOctaves dogPyramid = some fps ∧
        ∀ p ∈ fps, InBounds first.width first.height p := by
  obtain ⟨first, fps, hfirst, hfps, hsound, hmem⟩ :=
    detect_sound host dbg S gaussianPyramid dogPyramid out h
  exact ⟨first, hfirst, fun o ho => (hsound _ (hmem o ho)).2, fps, hfps,
    fun p hp => (hsound p hp).2⟩

/-- The bounds invariant in exact arithmetic on the run of `detect` that returns
`sampleOriented`. -/
theorem detect_bounds_invariant_witness :
    detect sampleHost ⟨false, true⟩ insertionBucketSort sampleGaussian slopeDog
      = some [sampleOriented] ∧
    ∃ first, slopeDog.images[0]? = some first ∧
      (∀ o ∈ [sampleOriented], 0 ≤ o.x ∧ o.x < first.width ∧ 0 ≤ o.y ∧ o.y < first.height) ∧
      ∃ fps, extremaStage sampleHost sampleGaussian.numScalesPerOctaves slopeDog = some fps ∧
        ∀ p ∈ fps, InBounds first.width first.height p :=
  ⟨sample_detect,
    detect_bounds_invariant sampleHost ⟨false, true⟩ insertionBucketSort sampleGaussian slopeDog
      [sampleOriented] sample_detect⟩

/-! ### The range of the gradient fields -/

/-- C16, the claim as stated fails: both pixels of `fallingRow` have `dy = 0` and `dx = -1`,
where `Math.atan2` is `π`, so `_computeGradients` stores the angle `2π`, which is not below
`2π`.  Over binary64 values the difference `dy` of a pixel with itself is `+0`,
`Math.atan2(+0, -1)` is `Math.PI`, and the stored angle is `Math.PI + Math.PI`, which is
`2 * Math.PI = 6.283185307179586`. -/
theorem computeGradients_range_counterexample :
    fallingRow.data.length = fallingRow.width * fallingRow.height ∧
    sampleHost.atan2 0 (-1) = PI ∧ sampleHost.sqrt ((-1) * (-1) + 0 * 0) = 1 ∧
    _computeGradients sampleHost fallingPyramid
      = some [⟨2, 1, [⟨2 * PI, 1⟩, ⟨2 * PI, 1⟩]⟩] ∧
    ¬ ((2 * PI : ℚ) < 2 * PI) ∧
    ((1 : Dbl.F64) - 1 = Dbl.F64.fin false 0 ∧
      Dbl.sampleHost.atan2 (Dbl.F64.fin false 0) (-1) = Dbl.PI) ∧
    Dbl._computeGradients Dbl.sampleHost Dbl.fallingPyramid
      = [⟨2, 1, [⟨2.0 * Dbl.PI, 1⟩, ⟨2.0 * Dbl.PI, 1⟩]⟩] ∧
    ¬ (2.0 * Dbl.PI < 2.0 * Dbl.PI) := by
  decide!

/-- C16 (amended): for every pyramid whose images hold all their pixels, `_computeGradients`
returns one field per level, of the level's width and height, with exactly `width * height`
entries; the entry for the pixel `(i, j)` stands at index `j * width + i` and has, for the
four values `right`, `left`, `down`, `up` read around the pixel, the magnitude
`sqrt(dx² + dy²) ≥ 0` and the angle `atan2(dy, dx) + π` with `dx = right - left` and
`dy = down - up`, in the closed range `[0, 2π]`. -/
theorem computeGradients_range (host : Host) (pyramid : Pyramid)
    (hdense : ∀ image ∈ pyramid.images, image.width * image.height ≤ image.data.length) :
    ∃ gradients, _computeGradients host pyramid = some gradients ∧
      gradients.length = pyramid.images.length ∧
      ∀ (k : ℕ) (image : Image), pyramid.images[k]? = some image →
        ∃ g, gradients[k]? = some g ∧ g.width = image.width ∧ g.height = image.height ∧
          g.values.length = image.width * image.height ∧
          ∀ (j i : ℕ), j < image.height → i < image.width →
            ∃ right left down up : ℚ,
              image.get? (j * image.width + nextIndex i image.width) = some right ∧
              image.get? (j * image.width + prevIndex i) = some left ∧
              image.get? (nextIndex j image.height * image.width + i) = some down ∧
              image.get? (prevIndex j * image.width + i) = some up ∧
              g.values[j * image.width + i]?
                = some ⟨host.atan2 (down - up) (right - left) + PI,
                    host.sqrt ((right - left) * (right - left)
                      + (down - up) * (down - up))⟩ ∧
              0 ≤ host.sqrt ((right - left) * (right - left) + (down - up) * (down - up)) ∧
              0 ≤ host.atan2 (down - up) (right - left) + PI ∧
              host.atan2 (down - up) (right - left) + PI ≤ 2 * PI := by
  have hall : ∀ o ∈ pyramid.images.map (gradientField host), ∃ b, o = some b := by
    intro o ho
    obtain ⟨image, himage, hoi⟩ := List.mem_map.mp ho
    obtain ⟨values, hvalues, _⟩ := gradientField_some host image (hdense image himage)
    exact ⟨_, hoi ▸ hvalues⟩
  obtain ⟨gradients, hgradients, hlen, _, hget⟩ := optionList_all _ hall
  refine ⟨gradients, hgradients, by rw [hlen, List.length_map], ?_⟩
  intro k image hk
  have hmemk : image ∈ pyramid.images := List.getElem?_mem hk
  have hmapk : (pyramid.images.map (gradientField host))[k]?
      = some (gradientField host image) := by
    rw [List.getElem?_map, hk]
    rfl
  obtain ⟨g, hg, hfield⟩ := hget k _ hmapk
  obtain ⟨values, hvalues, hvlen, hvget⟩ := gradientField_some host image (hdense image hmemk)
  have hgeq : g = ⟨image.width, image.height, values⟩ :=
    Option.some.inj (hfield.symm.trans hvalues)
  refine ⟨g, hg, by rw [hgeq], by rw [hgeq], by rw [hgeq]; exact hvlen, ?_⟩
  intro j i hj hi
  obtain ⟨v, hv, hat⟩ := hvget j i hj hi
  obtain ⟨right, left, down, up, hright, hleft, hdown, hup, hform⟩ :=
    gradientAt_some host image j i hj hi (hdense image hmemk)
  have hveq : v = ⟨host.atan2 (down - up) (right - left) + PI,
      host.sqrt ((right - left) * (right - left) + (down - up) * (down - up))⟩ :=
    Option.some.inj (hat.symm.trans hform)
  obtain ⟨h1, h2, h3⟩ := gradient_entry_range host (right - left) (down - up)
  refine ⟨right, left, down, up, hright, hleft, hdown, hup, ?_, h1, h2, h3⟩
  rw [hgeq, ← hveq]
  exact hv

/-- C16 (amended) on `sampleGaussian`. -/
theorem computeGradients_range_witness :
    (∀ image ∈ sampleGaussian.images, image.width * image.height ≤ image.data.length) ∧
    ∃ gradients, _computeGradients sampleHost sampleGaussian = some gradients ∧
      gradients.length = sampleGaussian.images.length ∧
      ∀ (k : ℕ) (image : Image), sampleGaussian.images[k]? = some image →
        ∃ g, gradients[k]? = some g ∧ g.width = image.width ∧ g.height = image.height ∧
          g.values.length = image.width * image.height ∧
          ∀ (j i : ℕ), j < image.height → i < image.width →
            ∃ right left down up : ℚ,
              image.get? (j * image.width + nextIndex i image.width) = some right ∧
              image.get? (j * image.width + prevIndex i) = some left ∧
              image.get? (nextIndex j image.height * image.width + i) = some down ∧
              image.get? (prevIndex j * image.width + i) = some up ∧
              g.values[j * image.width + i]?
                = some ⟨sampleHost.atan2 (down - up) (right - left) + PI,
                    sampleHost.sqrt ((right - left) * (right - left)
                      + (down - up) * (down - up))⟩ ∧
              0 ≤ sampleHost.sqrt ((right - left) * (right - left)
                + (down - up) * (down - up)) ∧
              0 ≤ sampleHost.atan2 (down - up) (right - left) + PI ∧
              sampleHost.atan2 (down - up) (right - left) + PI ≤ 2 * PI :=
  ⟨by decide, computeGradients_range sampleHost sampleGaussian (by decide)⟩

/-! ### Peak refinement -/

/-- The two neighbour indices of a bin of a 36-bin histogram lie in `0..35`. -/
theorem neighbour_bins_range (histogram : List ℚ) (i : ℕ)
    (hlen : histogram.length = ORIENTATION_NUM_BINS) (hi : i < ORIENTATION_NUM_BINS) :
    (0 ≤ ((i : ℤ) - 1 + histogram.length).tmod histogram.length ∧
      ((i : ℤ) - 1 + histogram.length).tmod histogram.length < 36) ∧
    (0 ≤ ((i : ℤ) + 1).tmod histogram.length ∧
      ((i : ℤ) + 1).tmod histogram.length < 36) := by
  have hcast : (histogram.length : ℤ) = 36 := by rw [hlen]; rfl
  have hi2 : (i : ℤ) < 36 := by
    have : i < 36 := hi
    exact_mod_cast this
  have hi0 : (0 : ℤ) ≤ i := Int.natCast_nonneg i
  rw [hcast, Int.tmod_eq_emod (by omega) (by norm_num),
    Int.tmod_eq_emod (by omega) (by norm_num)]
  omega

/-- Over binary64 values the three denominators of the fit through the abscissae `i - 1`,
`i`, `i + 1` are 2, -2 and -1 for every bin `i` in `0..35`, so the fit is returned whatever
the three ordinates are. -/
theorem dbl_peak_fit_exists (i : ℕ) (hi : i < ORIENTATION_NUM_BINS) (a b c : Dbl.F64) :
    ∃ r, Dbl._quadratic3Points (Dbl.F64.ofInt ((i : ℤ) - 1), a) (Dbl.F64.ofInt i, b)
      (Dbl.F64.ofInt ((i : ℤ) + 1), c) = some r := by
  have hden : ∀ k ∈ List.range 36,
      Dbl.F64.eq ((Dbl.F64.ofInt ((k : ℤ) + 1) - Dbl.F64.ofInt k)
        * (Dbl.F64.ofInt ((k : ℤ) + 1) - Dbl.F64.ofInt ((k : ℤ) - 1))) 0 = false ∧
      Dbl.F64.eq ((Dbl.F64.ofInt ((k : ℤ) - 1) - Dbl.F64.ofInt k)
        * (Dbl.F64.ofInt ((k : ℤ) + 1) - Dbl.F64.ofInt ((k : ℤ) - 1))) 0 = false ∧
      Dbl.F64.eq (Dbl.F64.ofInt ((k : ℤ) - 1) - Dbl.F64.ofInt k) 0 = false := by
    decide!
  obtain ⟨h1, h2, h3⟩ := hden i (List.mem_range.mpr hi)
  unfold Dbl._quadratic3Points
  simp only []
  rw [if_neg]
  · exact ⟨_, rfl⟩
  · simp [h1, h2, h3]

/-- C21 (amended): for every 36-bin histogram and every bin `i` in `0..35` whose value is
strictly greater than the values of both circular neighbours, the neighbour indices lie in
`0..35` and `_quadratic3Points` on `(i-1, prev)`, `(i, value)`, `(i+1, next)` returns a fit,
in exact arithmetic and over binary64 values alike.  In exact arithmetic the fit has
`A < 0`, the refined location is `-B/(2A)`, and it is less than half a bin away from `i`. -/
theorem peak_refinement (histogram : List ℚ) (i : ℕ)
    (hlen : histogram.length = ORIENTATION_NUM_BINS) (hi : i < ORIENTATION_NUM_BINS)
    (hprev : binValue histogram i >
      binValue histogram (((i : ℤ) - 1 + histogram.length).tmod histogram.length))
    (hnext : binValue histogram i >
      binValue histogram (((i : ℤ) + 1).tmod histogram.length)) :
    ((0 ≤ ((i : ℤ) - 1 + histogram.length).tmod histogram.length ∧
        ((i : ℤ) - 1 + histogram.length).tmod histogram.length < 36) ∧
      (0 ≤ ((i : ℤ) + 1).tmod histogram.length ∧
        ((i : ℤ) + 1).tmod histogram.length < 36)) ∧
    (∃ q, _quadratic3Points
        ((i : ℚ) - 1,
          binValue histogram (((i : ℤ) - 1 + histogram.length).tmod histogram.length))
        ((i : ℚ), binValue histogram i)
        ((i : ℚ) + 1, binValue histogram (((i : ℤ) + 1).tmod histogram.length)) = some q ∧
      q.A < 0 ∧ refinedBin histogram i = -q.B / (2 * q.A) ∧
      |refinedBin histogram i - i| < 1 / 2) ∧
    ∀ a b c : Dbl.F64,
      ∃ r, Dbl._quadratic3Points (Dbl.F64.ofInt ((i : ℤ) - 1), a) (Dbl.F64.ofInt i, b)
        (Dbl.F64.ofInt ((i : ℤ) + 1), c) = some r := by
  refine ⟨neighbour_bins_range histogram i hlen hi, ?_, dbl_peak_fit_exists i hi⟩
  obtain ⟨q, hq, hA, hlo, hhi⟩ := quadratic_at_peak (i : ℚ) _ _ _ hprev hnext
  have href : refinedBin histogram i = -q.B / (2 * q.A) := by
    unfold refinedBin
    simp only []
    rw [hq]
    exact if_pos hA.ne
  refine ⟨q, hq, hA, href, ?_⟩
  rw [href, abs_lt]
  constructor <;> linarith

/-- C21 (amended) on the histogram with 2 in bin 8 and 1 in bin 9: bin 8 is refined to
`8 + 1/6`. -/
theorem peak_refinement_witness :
    (twoBinHist 2 1).length = ORIENTATION_NUM_BINS ∧
    refinedBin (twoBinHist 2 1) 8 = 49 / 6 ∧
    (∃ q, _quadratic3Points
        (((8 : ℕ) : ℚ) - 1,
          binValue (twoBinHist 2 1)
            ((((8 : ℕ) : ℤ) - 1 + (twoBinHist 2 1).length).tmod (twoBinHist 2 1).length))
        (((8 : ℕ) : ℚ), binValue (twoBinHist 2 1) (8 : ℕ))
        (((8 : ℕ) : ℚ) + 1,
          binValue (twoBinHist 2 1) ((((8 : ℕ) : ℤ) + 1).tmod (twoBinHist 2 1).length))
          = some q ∧
      q.A < 0 ∧ refinedBin (twoBinHist 2 1) 8 = -q.B / (2 * q.A) ∧
      |refinedBin (twoBinHist 2 1) 8 - (8 : ℕ)| < 1 / 2) ∧
    ∀ a b c : Dbl.F64,
      ∃ r, Dbl._quadratic3Points (Dbl.F64.ofInt (((8 : ℕ) : ℤ) - 1), a)
        (Dbl.F64.ofInt ((8 : ℕ) : ℤ), b) (Dbl.F64.ofInt (((8 : ℕ) : ℤ) + 1), c) = some r :=
  ⟨rfl, by decide!,
    (peak_refinement (twoBinHist 2 1) 8 rfl (by decide) (by decide!) (by decide!)).2⟩
/-! ## Double precision: what the tests of `detect` guarantee -/

/-! ### Order and NaN -/

theorem Dbl.F64.ofMag_ne_nan (neg : Bool) (a : ℚ) : Dbl.F64.ofMag neg a ≠ Dbl.F64.nan := by
  unfold Dbl.F64.ofMag
  split_ifs <;> simp

theorem Dbl.F64.ofRat_ne_nan (q : ℚ) : Dbl.F64.ofRat q ≠ Dbl.F64.nan :=
  Dbl.F64.ofMag_ne_nan _ _

theorem Dbl.F64.ofInt_ne_nan (n : ℤ) : Dbl.F64.ofInt n ≠ Dbl.F64.nan :=
  Dbl.F64.ofRat_ne_nan _

/-- A product of a value with itself is NaN only for NaN. -/
theorem Dbl.F64.mul_self_nan (a : Dbl.F64) (h : a * a = Dbl.F64.nan) : a = Dbl.F64.nan := by
  cases a with
  | nan => rfl
  | inf s => exact absurd h (by simp [HMul.hMul, Mul.mul, Dbl.F64.mul])
  | fin s m => exact absurd h (Dbl.F64.ofMag_ne_nan _ _)

/-- For two values that are not NaN, `a < b` fails only when `b <= a`. -/
theorem Dbl.F64.le_of_not_lt (a b : Dbl.F64) (ha : a ≠ Dbl.F64.nan) (hb : b ≠ Dbl.F64.nan)
    (h : ¬ a < b) : b ≤ a := by
  have h1 : ¬ Dbl.F64.lt a b = true := h
  show Dbl.F64.le b a = true
  unfold Dbl.F64.le
  cases a with
  | nan => exact absurd rfl ha
  | inf s =>
    cases b with
    | nan => exact absurd rfl hb
    | inf t => cases s <;> cases t <;> simp_all [Dbl.F64.lt, Dbl.F64.eq]
    | fin t n => cases s <;> simp_all [Dbl.F64.lt, Dbl.F64.eq]
  | fin s m =>
    cases b with
    | nan => exact absurd rfl hb
    | inf t => cases t <;> simp_all [Dbl.F64.lt, Dbl.F64.eq]
    | fin t n =>
      simp only [Dbl.F64.lt, decide_eq_true_eq, not_lt] at h1
      simp only [Dbl.F64.lt, Dbl.F64.eq, Bool.or_eq_true, decide_eq_true_eq]
      exact lt_or_eq_of_le h1

/-- For two values that are not NaN, `b <= a` fails only when `a < b`. -/
theorem Dbl.F64.lt_of_not_le (a b : Dbl.F64) (ha : a ≠ Dbl.F64.nan) (hb : b ≠ Dbl.F64.nan)
    (h : ¬ b ≤ a) : a < b := by
  have h1 : ¬ Dbl.F64.le b a = true := h
  show Dbl.F64.lt a b = true
  unfold Dbl.F64.le at h1
  cases a with
  | nan => exact absurd rfl ha
  | inf s =>
    cases b with
    | nan => exact absurd rfl hb
    | inf t => cases s <;> cases t <;> simp_all [Dbl.F64.lt, Dbl.F64.eq]
    | fin t n => cases s <;> simp_all [Dbl.F64.lt, Dbl.F64.eq]
  | fin s m =>
    cases b with
    | nan => exact absurd rfl hb
    | inf t => cases t <;> simp_all [Dbl.F64.lt, Dbl.F64.eq]
    | fin t n =>
      simp only [Dbl.F64.lt, Dbl.F64.eq, Bool.or_eq_true, decide_eq_true_eq, not_or,
        not_lt] at h1
      simp only [Dbl.F64.lt, decide_eq_true_eq]
      exact lt_of_le_of_ne h1.1 (fun h2 => h1.2 h2.symm)

/-- The value `Math.floor(newOctaveX + 0.5)` of a NaN coordinate is NaN, which is no
integer. -/
theorem Dbl.F64.nan_mul (b : Dbl.F64) : Dbl.F64.nan * b = Dbl.F64.nan := by
  cases b <;> rfl

theorem Dbl.F64.nan_add (b : Dbl.F64) : Dbl.F64.nan + b = Dbl.F64.nan := by
  cases b <;> rfl

theorem Dbl.F64.nan_sub (b : Dbl.F64) : Dbl.F64.nan - b = Dbl.F64.nan := by
  cases b <;> rfl

theorem Dbl.octaveCoord_nan (octave : ℕ) :
    (Dbl.octaveCoord octave Dbl.F64.nan).toInt? = none := by
  unfold Dbl.octaveCoord
  rw [Dbl.F64.nan_mul, Dbl.F64.nan_add, Dbl.F64.nan_sub, Dbl.F64.nan_add]
  rfl

/-! ### The pixel body -/

/-- A feature point pushed by `Dbl.emitCandidate` carries the score of source line 138, went
past the `continue` of the score test and of the bounds test, and has the integer
coordinates of source lines 153-156. -/
theorem dbl_emitCandidate_some (host : Dbl.Host) (gaussN dogN : ℕ)
    (originalWidth originalHeight : ℕ) (octave scale : ℕ) (i j : ℤ) (v : Dbl.F64)
    (d : Dbl.Derivatives) (u : Fin 3 → Dbl.F64) (fp : Dbl.FeaturePoint)
    (h : Dbl.emitCandidate host gaussN dogN originalWidth originalHeight octave scale i j v d u
      = some fp) :
    fp.score = Dbl.scoreOf v d u ∧ ¬ (fp.score * fp.score < 9) ∧
    (¬ (fp.x < 0) ∧ ¬ (fp.x ≥ Dbl.F64.ofInt originalWidth)) ∧
    (¬ (fp.y < 0) ∧ ¬ (fp.y ≥ Dbl.F64.ofInt originalHeight)) ∧
    fp.octaveX = Dbl.octaveCoord fp.octave fp.x ∧
    fp.octaveY = Dbl.octaveCoord fp.octave fp.y := by
  unfold Dbl.emitCandidate at h
  split at h
  · exact absurd h (by simp)
  · rename_i hscore
    split at h
    · exact absurd h (by simp)
    · rename_i hbounds
      have hfp := Option.some.inj h
      rw [← hfp]
      simp only [not_or] at hbounds
      exact ⟨rfl, hscore, ⟨hbounds.1, hbounds.2.1⟩, ⟨hbounds.2.2.1, hbounds.2.2.2⟩, rfl, rfl⟩

/-- A feature point pushed by the pixel body went past the score test and the bounds test. -/
theorem dbl_candidateAt_some (host : Dbl.Host) (gaussN dogN : ℕ)
    (originalWidth originalHeight : ℕ) (octave scale : ℕ) (image0 image1 image2 : Dbl.Image)
    (i j : ℤ) (fp : Dbl.FeaturePoint)
    (h : Dbl.candidateAt host gaussN dogN originalWidth originalHeight octave scale
      image0 image1 image2 i j = some fp) :
    ¬ (fp.score * fp.score < 9) ∧
    (¬ (fp.x < 0) ∧ ¬ (fp.x ≥ Dbl.F64.ofInt originalWidth)) ∧
    (¬ (fp.y < 0) ∧ ¬ (fp.y ≥ Dbl.F64.ofInt originalHeight)) ∧
    fp.octaveX = Dbl.octaveCoord fp.octave fp.x ∧
    fp.octaveY = Dbl.octaveCoord fp.octave fp.y := by
  unfold Dbl.candidateAt at h
  simp only [] at h
  split at h
  · exact absurd h (by simp)
  · split at h
    · exact absurd h (by simp)
    · unfold Dbl.refineCandidate at h
      split at h
      · exact absurd h (by simp)
      · split at h
        · exact absurd h (by simp)
        · split at h
          · exact absurd h (by simp)
          · exact (dbl_emitCandidate_some _ _ _ _ _ _ _ _ _ _ _ _ _ h).2

/-- Every feature point of the extrema stage went past the score test and the bounds test,
with the dimensions of the first DoG image as bounds. -/
theorem dbl_extremaStage_sound (host : Dbl.Host) (gaussN : ℕ) (dogPyramid : Dbl.Pyramid)
    (fps : List Dbl.FeaturePoint) (h : Dbl.extremaStage host gaussN dogPyramid = some fps) :
    ∃ first, dogPyramid.images[0]? = some first ∧
      ∀ fp ∈ fps, ¬ (fp.score * fp.score < 9) ∧
        (¬ (fp.x < 0) ∧ ¬ (fp.x ≥ Dbl.F64.ofInt first.width)) ∧
        (¬ (fp.y < 0) ∧ ¬ (fp.y ≥ Dbl.F64.ofInt first.height)) ∧
        fp.octaveX = Dbl.octaveCoord fp.octave fp.x ∧
        fp.octaveY = Dbl.octaveCoord fp.octave fp.y := by
  unfold Dbl.extremaStage at h
  split at h
  · exact absurd h (by simp)
  · rename_i first hfirst
    refine ⟨first, hfirst, ?_⟩
    intro fp hfp
    obtain ⟨k, _, l, hl, hfpl⟩ := concatOption_mem _ _ _ h fp hfp
    unfold Dbl.extremaLevel at hl
    split at hl
    · split at hl
      · exact absurd hl (by simp)
      · simp only [Option.some.injEq] at hl
        rw [← hl] at hfpl
        obtain ⟨j, _, hj⟩ := List.mem_flatMap.mp hfpl
        obtain ⟨i, _, hi⟩ := List.mem_flatMap.mp hj
        rw [Option.mem_toList] at hi
        exact dbl_candidateAt_some _ _ _ _ _ _ _ _ _ _ _ _ _ hi
    · exact absurd hl (by simp)

/-! ### The pruner -/

theorem dbl_selectBucket_mem (S : Dbl.PointSort) (n : ℕ) (b : List Dbl.FeaturePoint)
    (p : Dbl.FeaturePoint) (hp : p ∈ Dbl.selectBucket S n b) : p ∈ b := by
  unfold Dbl.selectBucket at hp
  simp only [] at hp
  have h1 := List.mem_of_mem_take hp
  split_ifs at h1
  · exact (S.perm b).subset h1
  · exact h1

theorem dbl_pushBucket_mem (width height : ℕ) (buckets b1 : List (List Dbl.FeaturePoint))
    (p : Dbl.FeaturePoint) (h : Dbl.pushBucket width height buckets p = some b1) :
    ∀ bucket ∈ b1, ∀ q ∈ bucket, q = p ∨ ∃ b0 ∈ buckets, q ∈ b0 := by
  unfold Dbl.pushBucket at h
  split at h
  · exact absurd h (by simp)
  · rename_i bucketIndex _
    split at h
    · exact absurd h (by simp)
    · split at h
      · exact absurd h (by simp)
      · rename_i old hold
        rw [← Option.some.inj h]
        intro bucket hbucket q hq
        rcases List.mem_or_eq_of_mem_set hbucket with h1 | h1
        · exact Or.inr ⟨bucket, h1, hq⟩
        · rw [h1] at hq
          rcases List.mem_append.mp hq with h2 | h2
          · exact Or.inr ⟨old, List.getElem?_mem hold, h2⟩
          · exact Or.inl (List.mem_singleton.mp h2)

theorem dbl_fillBuckets_mem (width height : ℕ) :
    ∀ (l : List Dbl.FeaturePoint) (buckets filled : List (List Dbl.FeaturePoint)),
      Dbl.fillBuckets width height l buckets = some filled →
      ∀ bucket ∈ filled, ∀ q ∈ bucket, q ∈ l ∨ ∃ b0 ∈ buckets, q ∈ b0
  | [], buckets, filled, h, bucket, hbucket, q, hq => by
    rw [Dbl.fillBuckets] at h
    rw [← Option.some.inj h] at hbucket
    exact Or.inr ⟨bucket, hbucket, hq⟩
  | p :: rest, buckets, filled, h, bucket, hbucket, q, hq => by
    rw [Dbl.fillBuckets] at h
    split at h
    · exact absurd h (by simp)
    · rename_i b1 hb1
      rcases dbl_fillBuckets_mem width height rest b1 filled h bucket hbucket q hq with
        h1 | ⟨b0, hb0, hq0⟩
      · exact Or.inl (List.mem_cons_of_mem _ h1)
      · rcases dbl_pushBucket_mem width height buckets b1 p hb1 b0 hb0 q hq0 with h2 | h2
        · exact Or.inl (h2 ▸ List.mem_cons_self _ _)
        · exact Or.inr h2

/-- Pruning only removes points. -/
theorem dbl_pruneFeatures_mem (S : Dbl.PointSort) (fps : List Dbl.FeaturePoint)
    (width height : ℕ) (pruned : List Dbl.FeaturePoint)
    (h : Dbl._pruneFeatures S fps width height = some pruned) : ∀ p ∈ pruned, p ∈ fps := by
  unfold Dbl._pruneFeatures at h
  split at h
  · rw [← Option.some.inj h]
    exact fun p hp => hp
  · split at h
    · exact absurd h (by simp)
    · rename_i filled hfilled
      rw [← Option.some.inj h]
      intro p hp
      unfold Dbl.collectBuckets at hp
      obtain ⟨i, _, hi⟩ := List.mem_flatMap.mp hp
      obtain ⟨j, _, hj⟩ := List.mem_flatMap.mp hi
      have hsel := dbl_selectBucket_mem S _ _ p hj
      cases hget : filled[j * PRUNE_FEATURES_NUM_BUCKETS + i]? with
      | none =>
        rw [hget] at hsel
        exact absurd hsel (List.not_mem_nil _)
      | some bucket =>
        rw [hget] at hsel
        rcases dbl_fillBuckets_mem width height fps _ filled hfilled bucket
          (List.getElem?_mem hget) p hsel with h1 | ⟨b0, hb0, hq0⟩
        · exact h1
        · rw [List.eq_of_mem_replicate hb0] at hq0
          exact absurd hq0 (List.not_mem_nil _)

/-! ### Orientation and `detect` -/

/-- Every oriented feature point extends one of the feature points given to the loop, and
its centre has integer coordinates. -/
theorem dbl_orientFeatures_mem (fuel : ℕ) (dbg : DebugEnv) (numScalesPerOctaves : ℕ)
    (gradients : List Dbl.GradientField) (l : List Dbl.FeaturePoint)
    (out : List Dbl.OrientedFeaturePoint)
    (h : Dbl.orientFeatures fuel dbg numScalesPerOctaves gradients l = some out) :
    ∀ o ∈ out, o.toFeaturePoint ∈ l ∧
      o.octaveX.toInt? ≠ none ∧ o.octaveY.toInt? ≠ none := by
  intro o ho
  unfold Dbl.orientFeatures at h
  obtain ⟨fp, hfp, r, hr, hor⟩ := concatOption_mem _ _ _ h o ho
  unfold Dbl.orientFeature at hr
  split at hr
  · exact absurd hr (by simp)
  · split at hr
    · rename_i x y hx hy
      split at hr
      · exact absurd hr (by simp)
      · rw [← Option.some.inj hr] at hor
        obtain ⟨a, _, ha⟩ := List.mem_map.mp hor
        rw [← ha]
        exact ⟨hfp, by simp [hx], by simp [hy]⟩
    · split_ifs at hr
      rw [← Option.some.inj hr] at hor
      exact absurd hor (List.not_mem_nil _)

/-- Every feature point `Dbl.detect` returns extends a candidate of the extrema stage that
went past the score test and the bounds test, and its centre has integer coordinates. -/
theorem dbl_detect_sound (fuel : ℕ) (host : Dbl.Host) (dbg : DebugEnv) (S : Dbl.PointSort)
    (gaussianPyramid dogPyramid : Dbl.Pyramid) (out : List Dbl.OrientedFeaturePoint)
    (h : Dbl.detect fuel host dbg S gaussianPyramid dogPyramid = some out) :
    ∃ (first : Dbl.Image) (fps : List Dbl.FeaturePoint),
      dogPyramid.images[0]? = some first ∧
      Dbl.extremaStage host gaussianPyramid.numScalesPerOctaves dogPyramid = some fps ∧
      (∀ fp ∈ fps, ¬ (fp.score * fp.score < 9) ∧
        (¬ (fp.x < 0) ∧ ¬ (fp.x ≥ Dbl.F64.ofInt first.width)) ∧
        (¬ (fp.y < 0) ∧ ¬ (fp.y ≥ Dbl.F64.ofInt first.height)) ∧
        fp.octaveX = Dbl.octaveCoord fp.octave fp.x ∧
        fp.octaveY = Dbl.octaveCoord fp.octave fp.y) ∧
      ∀ o ∈ out, o.toFeaturePoint ∈ fps ∧
        o.octaveX.toInt? ≠ none ∧ o.octaveY.toInt? ≠ none := by
  unfold Dbl.detect at h
  split at h
  · exact absurd h (by simp)
  · rename_i first hfirst
    split at h
    · exact absurd h (by simp)
    · rename_i fps hfps
      split at h
      · exact absurd h (by simp)
      · split at h
        · exact absurd h (by simp)
        · rename_i pruned hpruned
          obtain ⟨first2, hfirst2, hsound⟩ := dbl_extremaStage_sound host _ dogPyramid fps hfps
          have hsame : first2 = first := Option.some.inj (hfirst2.symm.trans hfirst)
          rw [hsame] at hsound
          refine ⟨first, fps, hfirst, hfps, hsound, ?_⟩
          intro o ho
          obtain ⟨hmem, hx, hy⟩ := dbl_orientFeatures_mem fuel dbg _ _ pruned out h o ho
          exact ⟨dbl_pruneFeatures_mem S fps _ _ pruned hpruned _ hmem, hx, hy⟩

/-- A coordinate that went past the bounds test and whose `Math.floor` value is an integer
lies in the bounds. -/
theorem dbl_coord_in_bounds (octave : ℕ) (x : Dbl.F64) (size : ℕ)
    (h0 : ¬ (x < 0)) (h1 : ¬ (x ≥ Dbl.F64.ofInt size))
    (hint : (Dbl.octaveCoord octave x).toInt? ≠ none) :
    0 ≤ x ∧ x < Dbl.F64.ofInt size := by
  have hx : x ≠ Dbl.F64.nan := by
    intro hnan
    rw [hnan] at hint
    exact hint (Dbl.octaveCoord_nan octave)
  exact ⟨Dbl.F64.le_of_not_lt x 0 hx (Dbl.F64.ofRat_ne_nan _) h0,
    Dbl.F64.lt_of_not_le x _ hx (Dbl.F64.ofInt_ne_nan _) h1⟩

/-- A coordinate that went past the bounds test is NaN or lies in the bounds. -/
theorem dbl_coord_nan_or_in_bounds (x : Dbl.F64) (size : ℕ)
    (h0 : ¬ (x < 0)) (h1 : ¬ (x ≥ Dbl.F64.ofInt size)) :
    x = Dbl.F64.nan ∨ (0 ≤ x ∧ x < Dbl.F64.ofInt size) := by
  by_cases hx : x = Dbl.F64.nan
  · exact Or.inl hx
  · exact Or.inr ⟨Dbl.F64.le_of_not_lt x 0 hx (Dbl.F64.ofRat_ne_nan _) h0,
      Dbl.F64.lt_of_not_le x _ hx (Dbl.F64.ofInt_ne_nan _) h1⟩

/-! ## Double precision: where the code leaves the exact reading -/

/-- C4, the claim as stated fails in double arithmetic: the abscissae `0`, `2^-600` and
`2^-599` are pairwise distinct, yet the product `d1 = (x2 - x1) * (x2 - x0) = 2^-1199`
underflows to `0` and `_quadratic3Points` returns `null`; in exact arithmetic the same
points have a fit. -/
theorem quadratic3Points_underflow_counterexample :
    Dbl.F64.eq 0 (Dbl.two (-600)) = false ∧
    Dbl.F64.eq (Dbl.two (-600)) (Dbl.two (-599)) = false ∧
    Dbl.F64.eq 0 (Dbl.two (-599)) = false ∧
    (Dbl.two (-599) - Dbl.two (-600)) * (Dbl.two (-599) - 0) = 0 ∧
    Dbl._quadratic3Points (0, 0) (Dbl.two (-600), 1) (Dbl.two (-599), 0) = none ∧
    _quadratic3Points (0, 0) (Dbl.pow2 (-600), 1) (Dbl.pow2 (-599), 0) ≠ none := by
  decide!

/-- C9 fails on the code in double arithmetic: for the centre (0, 0), sigma 0 and the 1x1
field with angle `1e-16` and magnitude 1, bin 0 is a peak refined to just above `-0.5`; the
sum `fbin + 0.5 + 36` rounds to 36, `an` is exactly `2 * Math.PI`, the strict test of the
reduction loop does not run its body once, and `_computeOrientation` returns
`6.283185307179586`, which is not below `2π`. -/
theorem computeOrientation_returns_two_pi :
    (0 : Dbl.F64) ≤ 1e-16 ∧ (1e-16 : Dbl.F64) ≤ 2.0 * Dbl.PI ∧ (0 : Dbl.F64) ≤ 1 ∧
    Dbl._computeOrientation 0 ⟨false, false⟩ 0 0 0 Dbl.tinyAngleField
      = some [2.0 * Dbl.PI] ∧
    2.0 * Dbl.PI = Dbl.F64.fin false (884279719003555 / 140737488355328) ∧
    ¬ (2.0 * Dbl.PI < 2.0 * Dbl.PI) := by
  decide!

/-- C18, the claim as stated fails in double arithmetic: in the 5x5 field `faintField`
every pixel has the angle `Math.PI / 2` and the positive magnitude `2^-1074`; with centre
(2, 2) and sigma 0.25 the radius is 1.5 and the field holds the whole window.  The weighted
magnitudes round to `2^-1074` or to 0, five smoothing passes round the histogram down to
zero, and `_computeOrientation` returns no angle. -/
theorem computeOrientation_faint_counterexample :
    (0 : Dbl.F64) < 0.25 ∧
    Dbl.faintField.values.length = Dbl.faintField.width * Dbl.faintField.height ∧
    (∀ v ∈ Dbl.faintField.values, v.angle = Dbl.PI / 2 ∧ (0 : Dbl.F64) < v.mag) ∧
    Dbl.radiusOf 0.25 = 1.5 ∧ Dbl.F64.floor (Dbl.radiusOf 0.25 + 0.5) = 2 ∧
    Dbl.orientationHistogram ⟨false, true⟩ 2 2 0.25 Dbl.faintField
      = some (List.replicate 8 0 ++ [.fin false (5 * Dbl.pow2 (-1074))]
          ++ List.replicate 27 0) ∧
    Dbl._computeOrientation 0 ⟨false, true⟩ 2 2 0.25 Dbl.faintField = some [] := by
  decide!

set_option maxRecDepth 20000 in
/-- C21, the claim as stated fails in double arithmetic.  With 0, 1 and
`0.9999999999999999` in the bins 7, 8 and 9, bin 8 passes the peak test and is refined to
exactly `8.5`, half a bin away.  With `2 * 2^-1074`, `3 * 2^-1074` and `2 * 2^-1074` there,
bin 8 passes the peak test, the fit has `A = -0`, which is not below zero, and the
refinement is not applied. -/
theorem peak_refinement_rounding_counterexample :
    Dbl.histogramMax Dbl.nearTieHist = 1 ∧
    Dbl.isPeak Dbl.nearTieHist 1 8 = true ∧
    Dbl.refinedBin Dbl.nearTieHist 8 = 8.5 ∧
    Dbl.F64.abs (Dbl.refinedBin Dbl.nearTieHist 8 - 8) = 0.5 ∧
    Dbl.histogramMax Dbl.faintHist = Dbl.F64.fin false (3 * Dbl.pow2 (-1074)) ∧
    Dbl.isPeak Dbl.faintHist (Dbl.F64.fin false (3 * Dbl.pow2 (-1074))) 8 = true ∧
    (Dbl._quadratic3Points (7, Dbl.F64.fin false (2 * Dbl.pow2 (-1074)))
      (8, Dbl.F64.fin false (3 * Dbl.pow2 (-1074)))
      (9, Dbl.F64.fin false (2 * Dbl.pow2 (-1074)))).map (fun q => q.A)
        = some (Dbl.F64.fin true 0) ∧
    ¬ (Dbl.F64.fin true 0 < 0) ∧
    Dbl.refinedBin Dbl.faintHist 8 = 8 := by
  decide!

/-- The run of `Dbl.detect` on `sampleGaussian` and `steepDog`: one oriented feature point,
whose score is NaN. -/
theorem steep_detect :
    Dbl.detect 1 Dbl.sampleHost ⟨false, false⟩ Dbl.insertionPointSort Dbl.sampleGaussian
      Dbl.steepDog = some [Dbl.steepOriented] := by
  decide!

/-- The extrema stage on `hugeDog`: one candidate, all of whose coordinates are NaN. -/
theorem huge_extrema :
    Dbl.extremaStage Dbl.sampleHost 2 Dbl.hugeDog = some [Dbl.nanPoint] := by
  decide!

/-- C14, the claim as stated fails in double arithmetic: on `steepDog`, whose values are all
finite, the solve returns `u = (0.25.., 0, Infinity)`, the score `v - (b . u)` is NaN, the
score test `score * score < 9` and the bounds test let it pass, and `detect` returns the
point: `score * score >= 9` does not hold for it. -/
theorem detect_nan_score_counterexample :
    Dbl.detect 1 Dbl.sampleHost ⟨false, false⟩ Dbl.insertionPointSort Dbl.sampleGaussian
      Dbl.steepDog = some [Dbl.steepOriented] ∧
    Dbl.steepOriented.score = Dbl.F64.nan ∧
    ¬ ((9 : Dbl.F64) ≤ Dbl.steepOriented.score * Dbl.steepOriented.score) ∧
    (∀ image ∈ Dbl.steepDog.images ++ Dbl.sampleGaussian.images, ∀ v ∈ image.data,
      v.isFinite = true) :=
  ⟨steep_detect, rfl, by decide!, by decide!⟩

/-- C14 (amended): every feature point in the list `detect` returns went past the score
test of source line 139, so `score * score < 9` is false for it: `score * score >= 9`, or
the score is NaN.  Its feature point part, score included, is one of the candidates of the
extrema stage: pruning and orientation neither change nor invent one. -/
theorem detect_score_passes (fuel : ℕ) (host : Dbl.Host) (dbg : DebugEnv) (S : Dbl.PointSort)
    (gaussianPyramid dogPyramid : Dbl.Pyramid) (out : List Dbl.OrientedFeaturePoint)
    (h : Dbl.detect fuel host dbg S gaussianPyramid dogPyramid = some out) :
    (∀ o ∈ out, ¬ (o.score * o.score < 9) ∧
      ((9 : Dbl.F64) ≤ o.score * o.score ∨ o.score = Dbl.F64.nan)) ∧
    ∃ fps, Dbl.extremaStage host gaussianPyramid.numScalesPerOctaves dogPyramid = some fps ∧
      ∀ o ∈ out, o.toFeaturePoint ∈ fps := by
  obtain ⟨first, fps, _, hfps, hsound, hmem⟩ :=
    dbl_detect_sound fuel host dbg S gaussianPyramid dogPyramid out h
  refine ⟨?_, fps, hfps, fun o ho => (hmem o ho).1⟩
  intro o ho
  have hscore := (hsound _ (hmem o ho).1).1
  refine ⟨hscore, ?_⟩
  by_cases hnan : o.score * o.score = Dbl.F64.nan
  · exact Or.inr (Dbl.F64.mul_self_nan _ hnan)
  · exact Or.inl (Dbl.F64.le_of_not_lt _ 9 hnan (Dbl.F64.ofRat_ne_nan _) hscore)

/-- C14 (amended) on the run of `detect` that returns `steepOriented`. -/
theorem detect_score_passes_witness :
    (∀ o ∈ [Dbl.steepOriented], ¬ (o.score * o.score < 9) ∧
      ((9 : Dbl.F64) ≤ o.score * o.score ∨ o.score = Dbl.F64.nan)) ∧
    ∃ fps, Dbl.extremaStage Dbl.sampleHost Dbl.sampleGaussian.numScalesPerOctaves Dbl.steepDog
        = some fps ∧
      ∀ o ∈ [Dbl.steepOriented], o.toFeaturePoint ∈ fps :=
  detect_score_passes 1 Dbl.sampleHost ⟨false, false⟩ Dbl.insertionPointSort
    Dbl.sampleGaussian Dbl.steepDog [Dbl.steepOriented] steep_detect

/-- C15, the claim as stated fails in double arithmetic: on `hugeDog`, whose values are all
finite, the products of the solve overflow, the offset `u` and with it `x` and `y` are NaN,
every comparison of the bounds test is false, and the extrema stage hands the pruner a
candidate that is not inside the image and for which `buckets[bucketIndex]` is
`undefined`. -/
theorem extrema_nan_counterexample :
    Dbl.extremaStage Dbl.sampleHost 2 Dbl.hugeDog = some [Dbl.nanPoint] ∧
    ¬ ((0 : Dbl.F64) ≤ Dbl.nanPoint.x) ∧ ¬ (Dbl.nanPoint.x < 3) ∧
    ¬ ((0 : Dbl.F64) ≤ Dbl.nanPoint.y) ∧ ¬ (Dbl.nanPoint.y < 3) ∧
    Dbl.pushBucket 3 3 (List.replicate 100 []) Dbl.nanPoint = none ∧
    (∀ image ∈ Dbl.hugeDog.images, ∀ v ∈ image.data, v.isFinite = true) :=
  ⟨huge_extrema, by decide!, by decide!, by decide!, by decide!, by decide!, by decide!⟩

/-- C15 (amended): every feature point in the list `detect` returns satisfies
`0 <= x < originalWidth` and `0 <= y < originalHeight`, the dimensions of the first DoG
image.  A candidate of the extrema stage, the input of the pruner, satisfies the same or
has a NaN coordinate, which the bounds test of source line 148 lets pass. -/
theorem detect_bounds_passes (fuel : ℕ) (host : Dbl.Host) (dbg : DebugEnv)
    (S : Dbl.PointSort) (gaussianPyramid dogPyramid : Dbl.Pyramid)
    (out : List Dbl.OrientedFeaturePoint)
    (h : Dbl.detect fuel host dbg S gaussianPyramid dogPyramid = some out) :
    ∃ first, dogPyramid.images[0]? = some first ∧
      (∀ o ∈ out, (0 ≤ o.x ∧ o.x < Dbl.F64.ofInt first.width) ∧
        (0 ≤ o.y ∧ o.y < Dbl.F64.ofInt first.height)) ∧
      ∃ fps, Dbl.extremaStage host gaussianPyramid.numScalesPerOctaves dogPyramid
          = some fps ∧
        ∀ p ∈ fps,
          (p.x = Dbl.F64.nan ∨ (0 ≤ p.x ∧ p.x < Dbl.F64.ofInt first.width)) ∧
          (p.y = Dbl.F64.nan ∨ (0 ≤ p.y ∧ p.y < Dbl.F64.ofInt first.height)) := by
  obtain ⟨first, fps, hfirst, hfps, hsound, hmem⟩ :=
    dbl_detect_sound fuel host dbg S gaussianPyramid dogPyramid out h
  refine ⟨first, hfirst, ?_, fps, hfps, ?_⟩
  · intro o ho
    obtain ⟨hin, hx, hy⟩ := hmem o ho
    obtain ⟨_, hbx, hby, hox, hoy⟩ := hsound _ hin
    have hx2 : (Dbl.octaveCoord o.octave o.x).toInt? ≠ none := by
      rw [← hox]; exact hx
    have hy2 : (Dbl.octaveCoord o.octave o.y).toInt? ≠ none := by
      rw [← hoy]; exact hy
    exact ⟨dbl_coord_in_bounds _ _ _ hbx.1 hbx.2 hx2, dbl_coord_in_bounds _ _ _ hby.1 hby.2 hy2⟩
  · intro p hp
    obtain ⟨_, hbx, hby, _, _⟩ := hsound p hp
    exact ⟨dbl_coord_nan_or_in_bounds _ _ hbx.1 hbx.2,
      dbl_coord_nan_or_in_bounds _ _ hby.1 hby.2⟩

/-- C15 (amended) on the run of `detect` that returns `steepOriented`. -/
theorem detect_bounds_passes_witness :
    ∃ first, Dbl.steepDog.images[0]? = some first ∧
      (∀ o ∈ [Dbl.steepOriented], (0 ≤ o.x ∧ o.x < Dbl.F64.ofInt first.width) ∧
        (0 ≤ o.y ∧ o.y < Dbl.F64.ofInt first.height)) ∧
      ∃ fps, Dbl.extremaStage Dbl.sampleHost Dbl.sampleGaussian.numScalesPerOctaves
          Dbl.steepDog = some fps ∧
        ∀ p ∈ fps,
          (p.x = Dbl.F64.nan ∨ (0 ≤ p.x ∧ p.x < Dbl.F64.ofInt first.width)) ∧
          (p.y = Dbl.F64.nan ∨ (0 ≤ p.y ∧ p.y < Dbl.F64.ofInt first.height)) :=
  detect_bounds_passes 1 Dbl.sampleHost ⟨false, false⟩ Dbl.insertionPointSort
    Dbl.sampleGaussian Dbl.steepDog [Dbl.steepOriented] steep_detect

end Detector
